import Mathlib

/-!
# Inter-pod affinity priority

A shallow embedding of `pkg/scheduler/algorithm/priorities/interpod_affinity.go`
(`podAffinityPriorityMap`, `processTerm`, `processTerms` and
`CalculateInterPodAffinityPriority`) together with the properties of the scoring
that the specification states.

The namespaces after `Priorities` embed functions of other packages: `resolvePort` of
`pkg/kubelet/lifecycle` (`Lifecycle`), `validateParameters` of
`pkg/apis/storage/validation` (`StorageValidation`), `getExplicitKuberc` of kubectl
(`Kuberc`), `NameStrategy.name` of the gengo namer (`Namer`) and `depsForPkg` of
`golist2make` (`Golist2make`).

Conventions of the embedding:

* Go `int32` / `int64` values are `Int`s; every operation that can overflow is followed
  by `wrap32` / `wrap64` (two's complement wrap-around).
* Go maps are association lists read with `List.lookup`; the order of the list stands
  for the (unspecified) iteration order of the map.
* A nil pointer dereference (a Go panic) is the value `none` of `Option`.
* The worker pool of `workqueue.ParallelizeUntil` is run sequentially, in the order of
  `allNodeNames`; counters are only touched by atomic additions and `firstError` only
  under the mutex, so every step of a worker is one step of the sequential run.
* `float64` values are the rationals they denote; `toFloat64` rounds a rational to the
  nearest binary64 value (ties to even).
-/

namespace Priorities

/-! ## Machine integers -/

/-- Two's complement wrap-around of an integer to 32 bits (`int32`). -/
def wrap32 (x : Int) : Int := (x + 2 ^ 31) % 2 ^ 32 - 2 ^ 31

/-- Two's complement wrap-around of an integer to 64 bits (`int64`). -/
def wrap64 (x : Int) : Int := (x + 2 ^ 63) % 2 ^ 64 - 2 ^ 63

/-- The values of type `int32`. -/
def isInt32 (x : Int) : Prop := -2 ^ 31 ≤ x ∧ x < 2 ^ 31

/-- The values of type `int64`. -/
def isInt64 (x : Int) : Prop := -2 ^ 63 ≤ x ∧ x < 2 ^ 63

instance (x : Int) : Decidable (isInt32 x) := by unfold isInt32; infer_instance

instance (x : Int) : Decidable (isInt64 x) := by unfold isInt64; infer_instance

/-! ## Floating point -/

/-- Nearest integer of a rational, ties to the even neighbour. -/
def roundHalfEven (y : ℚ) : ℤ :=
  if y - ⌊y⌋ < 1 / 2 then ⌊y⌋
  else if 1 / 2 < y - ⌊y⌋ then ⌊y⌋ + 1
  else if ⌊y⌋ % 2 = 0 then ⌊y⌋ else ⌊y⌋ + 1

/-- Rounding of a positive rational to a binary floating point number with a 53 bit
significand (round to nearest, ties to even). The exponent is not bounded: the values
rounded by the scoring are integers below `2 ^ 64`, their quotients and ten times these. -/
def roundPos (x : ℚ) : ℚ :=
  (roundHalfEven (x / 2 ^ (Int.log 2 x - 52)) : ℚ) * 2 ^ (Int.log 2 x - 52)

/-- The binary64 value nearest to a rational: Go's conversion `float64(x)` of an integer
and the rounding of the exact result of a `float64` operation. -/
def toFloat64 (x : ℚ) : ℚ :=
  if x = 0 then 0 else if 0 < x then roundPos x else -roundPos (-x)

/-- Division of two `float64` values. -/
def f64div (x y : ℚ) : ℚ := toFloat64 (x / y)

/-- Multiplication of two `float64` values. -/
def f64mul (x y : ℚ) : ℚ := toFloat64 (x * y)

/-- Go's conversion `int(f)` of a `float64`: truncation towards zero. -/
def f64toInt (f : ℚ) : Int := if 0 ≤ f then ⌊f⌋ else ⌈f⌉

/-! ## Data model -/

/-- A label map (`map[string]string`). -/
abbrev Labels := List (String × String)

/-- A Go `error` value; `IsNotFound` is what `apierrors.IsNotFound` answers for it. -/
structure Error where
  Message : String
  IsNotFound : Bool
deriving DecidableEq, Repr

/-- Modelled from the spec: `metav1.LabelSelector`, `metav1.LabelSelectorAsSelector` and
`labels.Selector.Matches` are not in the sources. A label selector is given by what
parsing it yields: a parse failure, or the predicate on a pod's labels it denotes. -/
structure LabelSelector where
  parsed : Except Error (Labels → Bool)

/-- Modelled from the spec: `metav1.LabelSelectorAsSelector`, the parse of a label
selector, which fails or yields the selector. -/
def LabelSelectorAsSelector (ps : LabelSelector) : Except Error (Labels → Bool) := ps.parsed

/-- The selector that requires every listed label to be present with the listed value. -/
def matchLabels (kv : Labels) : LabelSelector :=
  ⟨.ok (fun labels => kv.all (fun p => labels.lookup p.1 == some p.2))⟩

/-- A selector that cannot be parsed. -/
def invalidSelector (msg : String) : LabelSelector := ⟨.error ⟨msg, false⟩⟩

/-- The node object `v1.Node`: its name and its labels. -/
structure Node where
  Name : String
  Labels : Labels
deriving DecidableEq, Repr

/-- The affinity term `v1.PodAffinityTerm`. -/
structure PodAffinityTerm where
  LabelSelector : LabelSelector
  Namespaces : List String
  TopologyKey : String

/-- The weighted term `v1.WeightedPodAffinityTerm`; `Weight` is an `int32`. -/
structure WeightedPodAffinityTerm where
  Weight : Int
  PodAffinityTerm : PodAffinityTerm

/-- The pod affinity `v1.PodAffinity`. -/
structure PodAffinity where
  RequiredDuringSchedulingIgnoredDuringExecution : List PodAffinityTerm
  PreferredDuringSchedulingIgnoredDuringExecution : List WeightedPodAffinityTerm

/-- The pod anti-affinity `v1.PodAntiAffinity`. -/
structure PodAntiAffinity where
  RequiredDuringSchedulingIgnoredDuringExecution : List PodAffinityTerm
  PreferredDuringSchedulingIgnoredDuringExecution : List WeightedPodAffinityTerm

/-- The affinity `v1.Affinity` of a pod spec, both parts are pointers. -/
structure Affinity where
  PodAffinity : Option PodAffinity
  PodAntiAffinity : Option PodAntiAffinity

/-- The pod `v1.Pod`: name, namespace, labels, `Spec.NodeName` and `Spec.Affinity`. -/
structure Pod where
  Name : String
  Namespace : String
  Labels : Labels
  NodeName : String
  Affinity : Option Affinity

/-- The per-node view `schedulernodeinfo.NodeInfo`: `Node()`, `Pods()` and
`PodsWithAffinity()`. -/
structure NodeInfo where
  node : Option Node
  pods : List Pod
  podsWithAffinity : List Pod

/-- One entry `schedulerapi.HostPriority` of the result. -/
structure HostPriority where
  Host : String
  Score : Int
deriving DecidableEq, Repr

/-- The priority function object `InterPodAffinity`: the node lookup `info.GetNodeInfo`
and the `int32` weight of hard affinity. -/
structure InterPodAffinity where
  info : String → Except Error Node
  hardPodAffinityWeight : Int

/-- The constant `schedulerapi.MaxPriority`. -/
def MaxPriority : Int := 10

/-! ## Helpers of `priorityutil` -/

/-- Modelled from the spec: `priorityutil.GetNamespacesFromPodAffinityTerm` is not in the
sources. The namespace set of a term, the defining pod's namespace when the term names
none. -/
def GetNamespacesFromPodAffinityTerm (pod : Pod) (term : PodAffinityTerm) : List String :=
  if term.Namespaces.length = 0 then [pod.Namespace] else term.Namespaces

/-- Modelled from the spec: `priorityutil.PodMatchesTermsNamespaceAndSelector` is not in
the sources. The pod's namespace is in the set and its labels satisfy the selector. -/
def PodMatchesTermsNamespaceAndSelector (pod : Pod) (namespaces : List String)
    (selector : Labels → Bool) : Bool :=
  namespaces.contains pod.Namespace && selector pod.Labels

/-- Modelled from the spec: `priorityutil.NodesHaveSameTopologyKey` is not in the sources.
Both nodes carry the key and the two values are equal. -/
def NodesHaveSameTopologyKey (nodeA nodeB : Node) (topologyKey : String) : Bool :=
  match nodeA.Labels.lookup topologyKey, nodeB.Labels.lookup topologyKey with
  | some a, some b => a == b
  | _, _ => false

/-! ## The accumulator `podAffinityPriorityMap` -/

/-- The accumulator: the candidate nodes, the counters (a missing entry is a nil pointer)
and the first error. -/
structure podAffinityPriorityMap where
  nodes : List Node
  counts : String → Option Int
  firstError : Option Error

/-- The function `newPodAffinityPriorityMap`. -/
def newPodAffinityPriorityMap (nodes : List Node) : podAffinityPriorityMap :=
  { nodes := nodes, counts := fun _ => none, firstError := none }

/-- The method `setError`: keeps the first error. -/
def podAffinityPriorityMap.setError (p : podAffinityPriorityMap) (err : Error) :
    podAffinityPriorityMap :=
  if p.firstError = none then { p with firstError := some err } else p

/-- The statement `pm.counts[name] = new(int64)`. -/
def podAffinityPriorityMap.alloc (p : podAffinityPriorityMap) (name : String) :
    podAffinityPriorityMap :=
  { p with counts := fun s => if s = name then some 0 else p.counts s }

/-- The call `atomic.AddInt64(p.counts[name], weight)`: a panic on a nil counter. -/
def podAffinityPriorityMap.add (p : podAffinityPriorityMap) (name : String) (weight : Int) :
    Option podAffinityPriorityMap :=
  match p.counts name with
  | none => none
  | some c =>
    some { p with counts := fun s => if s = name then some (wrap64 (c + weight)) else p.counts s }

/-- The method `processTerm`. -/
def podAffinityPriorityMap.processTerm (p : podAffinityPriorityMap) (term : PodAffinityTerm)
    (podDefiningAffinityTerm podToCheck : Pod) (fixedNode : Node) (weight : Int) :
    Option podAffinityPriorityMap :=
  let namespaces := GetNamespacesFromPodAffinityTerm podDefiningAffinityTerm term
  match LabelSelectorAsSelector term.LabelSelector with
  | .error err => some (p.setError err)
  | .ok selector =>
    if PodMatchesTermsNamespaceAndSelector podToCheck namespaces selector then
      p.nodes.foldlM
        (fun acc node =>
          if NodesHaveSameTopologyKey node fixedNode term.TopologyKey then
            acc.add node.Name weight
          else some acc)
        p
    else some p

/-- The method `processTerms`; the weight handed on is
`int64(term.Weight*int32(multiplier))`. -/
def podAffinityPriorityMap.processTerms (p : podAffinityPriorityMap)
    (terms : List WeightedPodAffinityTerm) (podDefiningAffinityTerm podToCheck : Pod)
    (fixedNode : Node) (multiplier : Int) : Option podAffinityPriorityMap :=
  terms.foldlM
    (fun acc term =>
      acc.processTerm term.PodAffinityTerm podDefiningAffinityTerm podToCheck fixedNode
        (wrap32 (term.Weight * wrap32 multiplier)))
    p

/-! ## `CalculateInterPodAffinityPriority` -/

/-- The pod affinity of a pod when `affinity != nil && affinity.PodAffinity != nil`. -/
def podAffinityOf (pod : Pod) : Option PodAffinity :=
  match pod.Affinity with
  | some affinity => affinity.PodAffinity
  | none => none

/-- The pod anti-affinity of a pod when
`affinity != nil && affinity.PodAntiAffinity != nil`. -/
def podAntiAffinityOf (pod : Pod) : Option PodAntiAffinity :=
  match pod.Affinity with
  | some affinity => affinity.PodAntiAffinity
  | none => none

/-- The flag `hasAffinityConstraints` of a pod. -/
def hasAffinityConstraints (pod : Pod) : Bool := (podAffinityOf pod).isSome

/-- The flag `hasAntiAffinityConstraints` of a pod. -/
def hasAntiAffinityConstraints (pod : Pod) : Bool := (podAntiAffinityOf pod).isSome

/-- The loop over the required affinity terms of the existing pod, each processed with the
weight `int64(ipa.hardPodAffinityWeight)`. -/
def processHardTerms (pm : podAffinityPriorityMap) (terms : List PodAffinityTerm)
    (existingPod pod : Pod) (existingPodNode : Node) (hardPodAffinityWeight : Int) :
    Option podAffinityPriorityMap :=
  terms.foldlM
    (fun acc term => acc.processTerm term existingPod pod existingPodNode hardPodAffinityWeight)
    pm

/-- The part of `processPod` for the terms of the incoming pod. -/
def processIncomingTerms (pod : Pod) (pm : podAffinityPriorityMap) (existingPod : Pod)
    (existingPodNode : Node) : Option podAffinityPriorityMap := do
  let pm ← (match podAffinityOf pod with
    | some a =>
      pm.processTerms a.PreferredDuringSchedulingIgnoredDuringExecution pod existingPod
        existingPodNode 1
    | none => some pm)
  match podAntiAffinityOf pod with
  | some a =>
    pm.processTerms a.PreferredDuringSchedulingIgnoredDuringExecution pod existingPod
      existingPodNode (-1)
  | none => some pm

/-- The part of `processPod` for the terms of the existing pod. -/
def processExistingTerms (ipa : InterPodAffinity) (pod : Pod) (pm : podAffinityPriorityMap)
    (existingPod : Pod) (existingPodNode : Node) : Option podAffinityPriorityMap := do
  let pm ← (match podAffinityOf existingPod with
    | some a => do
      let pm ← (if ipa.hardPodAffinityWeight > 0 then
          processHardTerms pm a.RequiredDuringSchedulingIgnoredDuringExecution existingPod pod
            existingPodNode ipa.hardPodAffinityWeight
        else some pm)
      pm.processTerms a.PreferredDuringSchedulingIgnoredDuringExecution existingPod pod
        existingPodNode 1
    | none => some pm)
  match podAntiAffinityOf existingPod with
  | some a =>
    pm.processTerms a.PreferredDuringSchedulingIgnoredDuringExecution existingPod pod
      existingPodNode (-1)
  | none => some pm

/-- The closure `processPod`: the accumulator after the pod and the error returned. -/
def processPod (ipa : InterPodAffinity) (pod : Pod) (pm : podAffinityPriorityMap)
    (existingPod : Pod) : Option (podAffinityPriorityMap × Option Error) :=
  match ipa.info existingPod.NodeName with
  | .error err => if err.IsNotFound then some (pm, none) else some (pm, some err)
  | .ok existingPodNode => do
    let pm ← processIncomingTerms pod pm existingPod existingPodNode
    let pm ← processExistingTerms ipa pod pm existingPod existingPodNode
    some (pm, none)

/-- The body of the two pod loops of `processNode`: process the pod and record the error
it returns. -/
def processPodStep (ipa : InterPodAffinity) (pod : Pod) (pm : podAffinityPriorityMap)
    (existingPod : Pod) : Option podAffinityPriorityMap :=
  match processPod ipa pod pm existingPod with
  | none => none
  | some (pm, some err) => some (pm.setError err)
  | some (pm, none) => some pm

/-- The pods that `processNode` scans on a node: all of them when the incoming pod has
constraints, the pods with affinity otherwise; none when `nodeInfo.Node()` is nil. -/
def podsToProcess (pod : Pod) (nodeInfo : NodeInfo) : List Pod :=
  if nodeInfo.node.isSome then
    if hasAffinityConstraints pod || hasAntiAffinityConstraints pod then nodeInfo.pods
    else nodeInfo.podsWithAffinity
  else []

/-- The closure `processNode` for the node name `allNodeNames[i]`. -/
def processNode (ipa : InterPodAffinity) (pod : Pod) (nodeNameToInfo : List (String × NodeInfo))
    (pm : podAffinityPriorityMap) (name : String) : Option podAffinityPriorityMap :=
  match nodeNameToInfo.lookup name with
  | none => some pm
  | some nodeInfo => (podsToProcess pod nodeInfo).foldlM (processPodStep ipa pod) pm

/-- The key list `allNodeNames` of `nodeNameToInfo`. -/
def allNodeNames (nodeNameToInfo : List (String × NodeInfo)) : List String :=
  nodeNameToInfo.map Prod.fst

/-- The pre-allocation loop: a counter for every node of `nodeNameToInfo` when the incoming
pod has constraints, and for the nodes with affinity pods otherwise. -/
def initCounts (pod : Pod) (nodeNameToInfo : List (String × NodeInfo))
    (pm : podAffinityPriorityMap) : podAffinityPriorityMap :=
  (allNodeNames nodeNameToInfo).foldl
    (fun acc name =>
      let lazyInit := hasAffinityConstraints pod || hasAntiAffinityConstraints pod
      match nodeNameToInfo.lookup name with
      | some nodeInfo =>
        if lazyInit || nodeInfo.podsWithAffinity.length ≠ 0 then acc.alloc name else acc
      | none => if lazyInit then acc.alloc name else acc)
    pm

/-- The scan: pre-allocation, then `processNode` for every name of `allNodeNames`
(`workqueue.ParallelizeUntil`, run in the order of the list). -/
def scan (ipa : InterPodAffinity) (pod : Pod) (nodeNameToInfo : List (String × NodeInfo))
    (nodes : List Node) : Option podAffinityPriorityMap :=
  (allNodeNames nodeNameToInfo).foldlM (processNode ipa pod nodeNameToInfo)
    (initCounts pod nodeNameToInfo (newPodAffinityPriorityMap nodes))

/-- One round of the min/max loops: `(maxCount, minCount)` after looking at the value. -/
def updateMaxMin (acc : Int × Int) (v : Int) : Int × Int :=
  (if v > acc.1 then v else acc.1, if v < acc.2 then v else acc.2)

/-- The value `nodeScore[name]` of the precomputed map: zero for a missing key. -/
def nodeScoreOf (nodeScore : List (String × Int)) (name : String) : Int :=
  (nodeScore.lookup name).getD 0

/-- The score expression
`int(float64(MaxPriority) * (float64(count-minCount) / float64(maxCount-minCount)))`. -/
def scaledScore (count maxCount minCount : Int) : Int :=
  f64toInt (f64mul (toFloat64 MaxPriority)
    (f64div (toFloat64 (wrap64 (count - minCount))) (toFloat64 (wrap64 (maxCount - minCount)))))

/-- The `(maxCount, minCount)` pair of the precomputed path. -/
def precomputedMaxMin (nodeScore : List (String × Int)) (nodes : List Node) : Int × Int :=
  nodes.foldl (fun acc node => updateMaxMin acc (nodeScoreOf nodeScore node.Name)) (0, 0)

/-- The result list of the precomputed path. -/
def precomputedScores (nodeScore : List (String × Int)) (nodes : List Node) :
    List HostPriority :=
  let mm := precomputedMaxMin nodeScore nodes
  let maxMinDiff := wrap64 (mm.1 - mm.2)
  nodes.map (fun node =>
    { Host := node.Name
      Score := if maxMinDiff > 0 then scaledScore (nodeScoreOf nodeScore node.Name) mm.1 mm.2
        else f64toInt 0 })

/-- The `(maxCount, minCount)` pair of the scan path: nodes without a counter are skipped. -/
def countsMaxMin (pm : podAffinityPriorityMap) (nodes : List Node) : Int × Int :=
  nodes.foldl
    (fun acc node =>
      match pm.counts node.Name with
      | none => acc
      | some c => updateMaxMin acc c)
    (0, 0)

/-- The result list of the scan path. -/
def countsScores (pm : podAffinityPriorityMap) (nodes : List Node) : List HostPriority :=
  let mm := countsMaxMin pm nodes
  let maxMinDiff := wrap64 (mm.1 - mm.2)
  nodes.map (fun node =>
    { Host := node.Name
      Score := match pm.counts node.Name with
        | some c => if maxMinDiff > 0 then scaledScore c mm.1 mm.2 else f64toInt 0
        | none => f64toInt 0 })

/-- The method `CalculateInterPodAffinityPriority`. The argument `nodeScore` is the map
returned by `meta.GetInterPodPriorityNodeScore()`. The result is `none` for a panic,
`error` for `(nil, err)` and `ok` for `(result, nil)`. -/
def CalculateInterPodAffinityPriority (ipa : InterPodAffinity) (nodeScore : List (String × Int))
    (pod : Pod) (nodeNameToInfo : List (String × NodeInfo)) (nodes : List Node) :
    Option (Except Error (List HostPriority)) :=
  if nodeScore.length > 0 then some (.ok (precomputedScores nodeScore nodes))
  else
    match scan ipa pod nodeNameToInfo nodes with
    | none => none
    | some pm =>
      match pm.firstError with
      | some err => some (.error err)
      | none => some (.ok (countsScores pm nodes))

/-! ## Definitions for the statements -/

/-- Every counter holds an `int64` value. -/
def CountsInt64 (p : podAffinityPriorityMap) : Prop :=
  ∀ s c, p.counts s = some c → isInt64 c

/-- The pod to check matches the term of the defining pod: the selector of the term
parses, the pod is in a namespace of the term and its labels satisfy the selector. -/
def termMatches (term : PodAffinityTerm) (podDefiningAffinityTerm podToCheck : Pod) : Bool :=
  match LabelSelectorAsSelector term.LabelSelector with
  | .ok selector =>
    PodMatchesTermsNamespaceAndSelector podToCheck
      (GetNamespacesFromPodAffinityTerm podDefiningAffinityTerm term) selector
  | .error _ => false

/-- What the processing of one term adds to the counter of the name `s`: the weight, once
for every candidate node of that name in the topology domain of the fixed node. -/
def termDelta (nodes : List Node) (term : PodAffinityTerm)
    (podDefiningAffinityTerm podToCheck : Pod) (fixedNode : Node) (weight : Int) (s : String) :
    Int :=
  if termMatches term podDefiningAffinityTerm podToCheck then
    (nodes.map (fun node =>
      if node.Name = s ∧ NodesHaveSameTopologyKey node fixedNode term.TopologyKey then weight
      else 0)).sum
  else 0

/-- The accumulator `p'` arises from `p` by additions to existing counters: the same
nodes, the same allocated counters, an error once recorded stays, and every counter has
grown by `d` of its name (in `int64` arithmetic). -/
structure Shifted (p p' : podAffinityPriorityMap) (d : String → Int) : Prop where
  nodes_eq : p'.nodes = p.nodes
  none_of_none : ∀ s, p.counts s = none → p'.counts s = none
  some_of_some : ∀ s c, p.counts s = some c → ∃ c', p'.counts s = some c'
  int64 : CountsInt64 p → CountsInt64 p'
  error_mono : p.firstError ≠ none → p'.firstError ≠ none
  counts_eq : CountsInt64 p →
    ∀ s c, p.counts s = some c → p'.counts s = some (wrap64 (c + d s))

/-- The preferred affinity terms of a pod, none when it has no pod affinity. -/
def preferredAffinityTerms (pod : Pod) : List WeightedPodAffinityTerm :=
  match podAffinityOf pod with
  | some a => a.PreferredDuringSchedulingIgnoredDuringExecution
  | none => []

/-- The preferred anti-affinity terms of a pod, none when it has no pod anti-affinity. -/
def preferredAntiAffinityTerms (pod : Pod) : List WeightedPodAffinityTerm :=
  match podAntiAffinityOf pod with
  | some a => a.PreferredDuringSchedulingIgnoredDuringExecution
  | none => []

/-- The required affinity terms of a pod, none when it has no pod affinity. -/
def requiredAffinityTerms (pod : Pod) : List PodAffinityTerm :=
  match podAffinityOf pod with
  | some a => a.RequiredDuringSchedulingIgnoredDuringExecution
  | none => []

/-- A term counts for a node: the pod to check matches it and the node has the same value
as the existing pod's node for the topology key of the term. -/
def termCounts (term : PodAffinityTerm) (podDefiningAffinityTerm podToCheck : Pod)
    (node existingPodNode : Node) : Bool :=
  termMatches term podDefiningAffinityTerm podToCheck
    && NodesHaveSameTopologyKey node existingPodNode term.TopologyKey

/-- The sum of the weights of the weighted terms that count for the node. -/
def weightedSum (terms : List WeightedPodAffinityTerm) (podDefiningAffinityTerm podToCheck : Pod)
    (node existingPodNode : Node) : Int :=
  (terms.map (fun t =>
    if termCounts t.PodAffinityTerm podDefiningAffinityTerm podToCheck node existingPodNode
    then t.Weight else 0)).sum

/-- The number of the terms that count for the node. -/
def countingTerms (terms : List PodAffinityTerm) (podDefiningAffinityTerm podToCheck : Pod)
    (node existingPodNode : Node) : Int :=
  (terms.map (fun t =>
    if termCounts t podDefiningAffinityTerm podToCheck node existingPodNode then (1 : Int)
    else 0)).sum

/-- What one scanned existing pod `e`, placed on `eNode`, contributes to the raw counter of
the node `n`: plus the weight of each preferred affinity term of the incoming pod that `e`
matches, minus that of each of its preferred anti-affinity terms that `e` matches, plus
`hardPodAffinityWeight` (when positive) for each required affinity term of `e` that the
incoming pod matches, plus and minus the weights of the preferred affinity and
anti-affinity terms of `e` that the incoming pod matches. -/
def contribution (ipa : InterPodAffinity) (pod e : Pod) (eNode n : Node) : Int :=
  weightedSum (preferredAffinityTerms pod) pod e n eNode
    - weightedSum (preferredAntiAffinityTerms pod) pod e n eNode
    + (if ipa.hardPodAffinityWeight > 0 then
        ipa.hardPodAffinityWeight * countingTerms (requiredAffinityTerms e) e pod n eNode
       else 0)
    + weightedSum (preferredAffinityTerms e) e pod n eNode
    - weightedSum (preferredAntiAffinityTerms e) e pod n eNode

/-- The contribution of a scanned pod, nothing when the lookup of its node fails. -/
def podContribution (ipa : InterPodAffinity) (pod e : Pod) (n : Node) : Int :=
  match ipa.info e.NodeName with
  | .ok eNode => contribution ipa pod e eNode n
  | .error _ => 0

/-- The pods scanned for one name of `allNodeNames`. -/
def nodePods (pod : Pod) (nodeNameToInfo : List (String × NodeInfo)) (name : String) :
    List Pod :=
  match nodeNameToInfo.lookup name with
  | some nodeInfo => podsToProcess pod nodeInfo
  | none => []

/-- The pods scanned for an incoming pod: for every name of `allNodeNames`, all pods of
the node when the incoming pod declares pod affinity or anti-affinity, and the pods with
affinity otherwise. -/
def scannedPods (pod : Pod) (nodeNameToInfo : List (String × NodeInfo)) : List Pod :=
  ((allNodeNames nodeNameToInfo).map (nodePods pod nodeNameToInfo)).flatten

/-- The raw counter that the specification expects for a node: the sum of the
contributions of the scanned pods. -/
def expectedCount (ipa : InterPodAffinity) (pod : Pod)
    (nodeNameToInfo : List (String × NodeInfo)) (n : Node) : Int :=
  ((scannedPods pod nodeNameToInfo).map (fun e => podContribution ipa pod e n)).sum

/-- The weight is an `int32` whose negation is an `int32` too. -/
def weightOk (w : Int) : Prop := -2 ^ 31 < w ∧ w < 2 ^ 31

/-- The weights of the preferred terms of a pod are `int32` values other than the least
one. -/
def weightsOk (pod : Pod) : Prop :=
  (∀ t ∈ preferredAffinityTerms pod, weightOk t.Weight)
    ∧ ∀ t ∈ preferredAntiAffinityTerms pod, weightOk t.Weight

instance (w : Int) : Decidable (weightOk w) := by unfold weightOk; infer_instance

instance (pod : Pod) : Decidable (weightsOk pod) := by unfold weightsOk; infer_instance

/-- What `processTerms` adds to the counter of the name `s`. -/
def termsDelta (nodes : List Node) (terms : List WeightedPodAffinityTerm)
    (podDefiningAffinityTerm podToCheck : Pod) (fixedNode : Node) (multiplier : Int)
    (s : String) : Int :=
  (terms.map (fun t =>
    termDelta nodes t.PodAffinityTerm podDefiningAffinityTerm podToCheck fixedNode
      (wrap32 (t.Weight * wrap32 multiplier)) s)).sum

/-- What the loop over the required terms adds to the counter of the name `s`. -/
def hardTermsDelta (nodes : List Node) (terms : List PodAffinityTerm)
    (podDefiningAffinityTerm podToCheck : Pod) (fixedNode : Node) (weight : Int) (s : String) :
    Int :=
  (terms.map (fun t =>
    termDelta nodes t podDefiningAffinityTerm podToCheck fixedNode weight s)).sum

/-- What the terms of the incoming pod add to the counter of the name `s` for one existing
pod. -/
def incomingDelta (pod : Pod) (nodes : List Node) (e : Pod) (eNode : Node) (s : String) : Int :=
  termsDelta nodes (preferredAffinityTerms pod) pod e eNode 1 s
    + termsDelta nodes (preferredAntiAffinityTerms pod) pod e eNode (-1) s

/-- What the terms of one existing pod add to the counter of the name `s`. -/
def existingDelta (ipa : InterPodAffinity) (pod : Pod) (nodes : List Node) (e : Pod)
    (eNode : Node) (s : String) : Int :=
  (if ipa.hardPodAffinityWeight > 0 then
      hardTermsDelta nodes (requiredAffinityTerms e) e pod eNode ipa.hardPodAffinityWeight s
    else 0)
    + termsDelta nodes (preferredAffinityTerms e) e pod eNode 1 s
    + termsDelta nodes (preferredAntiAffinityTerms e) e pod eNode (-1) s

/-- What the processing of one existing pod adds to the counter of the name `s`. -/
def podDelta (ipa : InterPodAffinity) (pod : Pod) (nodes : List Node) (e : Pod) (s : String) :
    Int :=
  match ipa.info e.NodeName with
  | .ok eNode => incomingDelta pod nodes e eNode s + existingDelta ipa pod nodes e eNode s
  | .error _ => 0

/-- The raw counters of the candidate nodes that have an allocated counter. -/
def counterValues (pm : podAffinityPriorityMap) (nodes : List Node) : List Int :=
  nodes.filterMap (fun node => pm.counts node.Name)

/-- The precomputed values of the candidate nodes. -/
def precomputedValues (nodeScore : List (String × Int)) (nodes : List Node) : List Int :=
  nodes.map (fun node => nodeScoreOf nodeScore node.Name)

/-- No term processed for the existing pod `e` matches the pod it is checked against: the
preferred terms of the incoming pod against `e`, and the required affinity terms (processed
when `hardPodAffinityWeight` is positive) and the preferred terms of `e` against the
incoming pod. -/
def noTermMatches (ipa : InterPodAffinity) (pod e : Pod) : Prop :=
  (∀ t ∈ preferredAffinityTerms pod, termMatches t.PodAffinityTerm pod e = false)
    ∧ (∀ t ∈ preferredAntiAffinityTerms pod, termMatches t.PodAffinityTerm pod e = false)
    ∧ (ipa.hardPodAffinityWeight > 0 →
        ∀ t ∈ requiredAffinityTerms e, termMatches t e pod = false)
    ∧ (∀ t ∈ preferredAffinityTerms e, termMatches t.PodAffinityTerm e pod = false)
    ∧ (∀ t ∈ preferredAntiAffinityTerms e, termMatches t.PodAffinityTerm e pod = false)

/-- The label selector of the term cannot be parsed. -/
def unparsable (term : PodAffinityTerm) : Prop :=
  ∃ err, LabelSelectorAsSelector term.LabelSelector = .error err

/-- One of the terms processed for the existing pod `e` has a selector that cannot be
parsed: a preferred term of the incoming pod, a required affinity term of `e` (processed
when `hardPodAffinityWeight` is positive) or a preferred term of `e`. -/
def hasUnparsableTerm (ipa : InterPodAffinity) (pod e : Pod) : Prop :=
  (∃ t ∈ preferredAffinityTerms pod, unparsable t.PodAffinityTerm)
    ∨ (∃ t ∈ preferredAntiAffinityTerms pod, unparsable t.PodAffinityTerm)
    ∨ (ipa.hardPodAffinityWeight > 0 ∧ ∃ t ∈ requiredAffinityTerms e, unparsable t)
    ∨ (∃ t ∈ preferredAffinityTerms e, unparsable t.PodAffinityTerm)
    ∨ (∃ t ∈ preferredAntiAffinityTerms e, unparsable t.PodAffinityTerm)

/-- Every term processed for the existing pod `e` has a selector that parses. -/
def termsParse (ipa : InterPodAffinity) (pod e : Pod) : Prop :=
  (∀ t ∈ preferredAffinityTerms pod, ¬ unparsable t.PodAffinityTerm)
    ∧ (∀ t ∈ preferredAntiAffinityTerms pod, ¬ unparsable t.PodAffinityTerm)
    ∧ (ipa.hardPodAffinityWeight > 0 → ∀ t ∈ requiredAffinityTerms e, ¬ unparsable t)
    ∧ (∀ t ∈ preferredAffinityTerms e, ¬ unparsable t.PodAffinityTerm)
    ∧ (∀ t ∈ preferredAntiAffinityTerms e, ¬ unparsable t.PodAffinityTerm)

/-- The processing of the existing pod `e` records no error: the lookup of its node
succeeds with terms that all parse, or it fails with a not-found error. -/
def podClean (ipa : InterPodAffinity) (pod e : Pod) : Prop :=
  match ipa.info e.NodeName with
  | .ok _ => termsParse ipa pod e
  | .error err => err.IsNotFound = true

/-- Every candidate node that the term can touch holds a counter in `counts`: if the pod to
check matches the term, the candidate nodes in the topology domain of the fixed node all
have a counter. -/
def termSafe (counts : String → Option Int) (nodes : List Node) (term : PodAffinityTerm)
    (podDefiningAffinityTerm podToCheck : Pod) (fixedNode : Node) : Prop :=
  termMatches term podDefiningAffinityTerm podToCheck = true →
    ∀ n ∈ nodes, NodesHaveSameTopologyKey n fixedNode term.TopologyKey = true →
      (counts n.Name).isSome

/-- Every term processed for the existing pod `e` only touches allocated counters. -/
def podSafe (ipa : InterPodAffinity) (pod : Pod) (counts : String → Option Int)
    (nodes : List Node) (e : Pod) : Prop :=
  ∀ eNode, ipa.info e.NodeName = .ok eNode →
    (∀ t ∈ preferredAffinityTerms pod, termSafe counts nodes t.PodAffinityTerm pod e eNode)
    ∧ (∀ t ∈ preferredAntiAffinityTerms pod,
        termSafe counts nodes t.PodAffinityTerm pod e eNode)
    ∧ (ipa.hardPodAffinityWeight > 0 →
        ∀ t ∈ requiredAffinityTerms e, termSafe counts nodes t e pod eNode)
    ∧ (∀ t ∈ preferredAffinityTerms e, termSafe counts nodes t.PodAffinityTerm e pod eNode)
    ∧ (∀ t ∈ preferredAntiAffinityTerms e,
        termSafe counts nodes t.PodAffinityTerm e pod eNode)

/-- The accumulator has the candidate nodes `nodes` and a counter wherever `counts` has
one. -/
def Covers (counts : String → Option Int) (nodes : List Node) (b : podAffinityPriorityMap) :
    Prop :=
  b.nodes = nodes ∧ ∀ s, (counts s).isSome → (b.counts s).isSome

/-! ## Example inputs -/

/-- The node lookup over a list of nodes: the node of that name, or a not-found error. -/
def lookupNode (nodes : List Node) (name : String) : Except Error Node :=
  match nodes.find? (fun n => n.Name == name) with
  | some n => .ok n
  | none => .error ⟨"node not found", true⟩

/-- The topology key of the host name. -/
def hostnameKey : String := "kubernetes.io/hostname"

/-- The node `n1`, labelled with its host name and the zone `z`. -/
def exNode1 : Node := ⟨"n1", [(hostnameKey, "n1"), ("zone", "z")]⟩

/-- The node `n2`, labelled with its host name and the zone `z`. -/
def exNode2 : Node := ⟨"n2", [(hostnameKey, "n2"), ("zone", "z")]⟩

/-- The node `n3`, labelled with its host name and the zone `z`. -/
def exNode3 : Node := ⟨"n3", [(hostnameKey, "n3"), ("zone", "z")]⟩

/-- The incoming pod `P`: namespace `ns`, label `app=P`, no affinity. -/
def exPodP : Pod := ⟨"P", "ns", [("app", "P")], "", none⟩

/-- The term that selects `app=P` within a topology domain. -/
def exTerm (topologyKey : String) : PodAffinityTerm :=
  ⟨matchLabels [("app", "P")], [], topologyKey⟩

/-- The pod `Q` of the end-to-end scenario: namespace `ns`, placed on `n1`, one required
pod-affinity term selecting `app=P` with the given topology key. -/
def exPodQ (topologyKey : String) : Pod :=
  ⟨"Q", "ns", [], "n1", some ⟨some ⟨[exTerm topologyKey], []⟩, none⟩⟩

/-- The snapshot of the end-to-end scenario: `n1` hosts `Q`, `n2` hosts no pod. -/
def exSnapshot (topologyKey : String) : List (String × NodeInfo) :=
  [("n1", ⟨some exNode1, [exPodQ topologyKey], [exPodQ topologyKey]⟩),
   ("n2", ⟨some exNode2, [], []⟩)]

/-- The priority function of the examples, with the given weight of hard affinity. -/
def exIpa (hardPodAffinityWeight : Int) : InterPodAffinity :=
  ⟨lookupNode [exNode1, exNode2, exNode3], hardPodAffinityWeight⟩

/-- An existing pod in namespace `ns`, placed on `node`, with one preferred pod-affinity
term of weight `w` that selects `app=P` on the host of the pod. -/
def exPodR (name node : String) (w : Int) : Pod :=
  ⟨name, "ns", [], node, some ⟨some ⟨[], [⟨w, exTerm hostnameKey⟩]⟩, none⟩⟩

/-- The snapshot with three nodes that host pods preferring `app=P` with the weights 2, 5
and 9. -/
def exSnapshot259 : List (String × NodeInfo) :=
  [("n1", ⟨some exNode1, [exPodR "R1" "n1" 2], [exPodR "R1" "n1" 2]⟩),
   ("n2", ⟨some exNode2, [exPodR "R2" "n2" 5], [exPodR "R2" "n2" 5]⟩),
   ("n3", ⟨some exNode3, [exPodR "R3" "n3" 9], [exPodR "R3" "n3" 9]⟩)]

/-- The snapshot with two nodes that host pods preferring `app=P` with the weight 5. -/
def exSnapshot55 : List (String × NodeInfo) :=
  [("n1", ⟨some exNode1, [exPodR "R1" "n1" 5], [exPodR "R1" "n1" 5]⟩),
   ("n2", ⟨some exNode2, [exPodR "R2" "n2" 5], [exPodR "R2" "n2" 5]⟩)]

/-- A pod without affinity in namespace `ns`, labelled `app=P` and placed on `node`. -/
def exPodS (node : String) : Pod := ⟨"S", "ns", [("app", "P")], node, none⟩

/-- The snapshot in which `n1` hosts the pod `S` and `n2` hosts no pod. -/
def exSnapshotS : List (String × NodeInfo) :=
  [("n1", ⟨some exNode1, [exPodS "n1"], []⟩), ("n2", ⟨some exNode2, [], []⟩)]

/-- A term whose selector (the string `==`) cannot be parsed. -/
def exBadTerm : PodAffinityTerm := ⟨invalidSelector "==", [], hostnameKey⟩

/-- An incoming pod whose only term is a required pod-affinity term that cannot be
parsed. -/
def exPodBadRequired : Pod :=
  ⟨"B", "ns", [], "", some ⟨some ⟨[exBadTerm], []⟩, none⟩⟩

/-- An incoming pod with one preferred pod-affinity term that cannot be parsed. -/
def exPodBadPreferred : Pod :=
  ⟨"B", "ns", [], "", some ⟨some ⟨[], [⟨1, exBadTerm⟩]⟩, none⟩⟩

/-- The preferred anti-affinity term of weight 5 that selects `app=P` on a host. -/
def exAntiTerm : WeightedPodAffinityTerm := ⟨5, exTerm hostnameKey⟩

/-- An incoming pod with the preferred anti-affinity term of weight 5. -/
def exPodAnti : Pod :=
  ⟨"A", "ns", [], "", some ⟨none, some ⟨[], [exAntiTerm]⟩⟩⟩

/-- The accumulator after the scan, the empty accumulator if the scan panics. -/
def scanResult (ipa : InterPodAffinity) (pod : Pod) (nodeNameToInfo : List (String × NodeInfo))
    (nodes : List Node) : podAffinityPriorityMap :=
  (scan ipa pod nodeNameToInfo nodes).getD (newPodAffinityPriorityMap [])

/-! ## Allocation of a counter for every candidate node -/

/-- The pre-allocation that gives every candidate node a zeroed counter. -/
def initCountsAll (nodes : List Node) (pm : podAffinityPriorityMap) : podAffinityPriorityMap :=
  nodes.foldl (fun acc node => acc.alloc node.Name) pm

/-- The scan that starts with a zeroed counter for every candidate node. -/
def scanAllCounters (ipa : InterPodAffinity) (pod : Pod)
    (nodeNameToInfo : List (String × NodeInfo)) (nodes : List Node) :
    Option podAffinityPriorityMap :=
  (allNodeNames nodeNameToInfo).foldlM (processNode ipa pod nodeNameToInfo)
    (initCountsAll nodes (newPodAffinityPriorityMap nodes))

/-- The scan path of the method when a zeroed counter is allocated for every candidate
node, to be compared with the lazy allocation. -/
def CalculateAllCounters (ipa : InterPodAffinity) (pod : Pod)
    (nodeNameToInfo : List (String × NodeInfo)) (nodes : List Node) :
    Option (Except Error (List HostPriority)) :=
  match scanAllCounters ipa pod nodeNameToInfo nodes with
  | none => none
  | some pm =>
    match pm.firstError with
    | some err => some (.error err)
    | none => some (.ok (countsScores pm nodes))

/-! ## Further example inputs -/

/-- The node `n4`, which the node lookup of the examples does not know. -/
def exNode4 : Node := ⟨"n4", [(hostnameKey, "n4"), ("zone", "z")]⟩

/-- An existing pod in namespace `ns`, placed on `node`, with one preferred pod-affinity
term of weight 3 that selects `app=P` in the zone of the pod. -/
def exPodZone (node : String) : Pod :=
  ⟨"Z", "ns", [], node, some ⟨some ⟨[], [⟨3, exTerm "zone"⟩]⟩, none⟩⟩

/-- The snapshot in which `n1` hosts the pod with the zone term and `n2`, in the same zone,
hosts a pod without affinity. -/
def exSnapshotZone : List (String × NodeInfo) :=
  [("n1", ⟨some exNode1, [exPodZone "n1"], [exPodZone "n1"]⟩),
   ("n2", ⟨some exNode2, [exPodS "n2"], []⟩)]

/-- An existing pod in namespace `ns`, placed on `node`, with one preferred pod
anti-affinity term of weight 5 that selects `app=P` on the host of the pod. -/
def exPodAway (node : String) : Pod :=
  ⟨"W", "ns", [], node, some ⟨none, some ⟨[], [exAntiTerm]⟩⟩⟩

/-- The snapshot in which `n1` hosts the pod with the anti-affinity term and `n2` hosts a
pod without affinity. -/
def exSnapshotAway : List (String × NodeInfo) :=
  [("n1", ⟨some exNode1, [exPodAway "n1"], [exPodAway "n1"]⟩),
   ("n2", ⟨some exNode2, [exPodS "n2"], []⟩)]

/-- The snapshot in which `n1` and the node `n4`, unknown to the node lookup, each host a
pod without affinity. -/
def exSnapshotStale : List (String × NodeInfo) :=
  [("n1", ⟨some exNode1, [exPodS "n1"], []⟩), ("n4", ⟨some exNode4, [exPodS "n4"], []⟩)]

/-- The preferred term with the least `int32` weight that selects `app=P` on a host. -/
def exMinWeightTerm : WeightedPodAffinityTerm := ⟨-2147483648, exTerm hostnameKey⟩

/-- The accumulator after the scan that starts with all counters, the empty accumulator if
the scan panics. -/
def scanAllResult (ipa : InterPodAffinity) (pod : Pod)
    (nodeNameToInfo : List (String × NodeInfo)) (nodes : List Node) : podAffinityPriorityMap :=
  (scanAllCounters ipa pod nodeNameToInfo nodes).getD (newPodAffinityPriorityMap [])

/-! ## The first error -/

/-- The method `setError` for an error value that may be nil (`none`): the value is stored
when no error is held. The scan only passes errors that are not nil, for which this is
`setError` above. -/
def podAffinityPriorityMap.setErrorValue (p : podAffinityPriorityMap) (err : Option Error) :
    podAffinityPriorityMap :=
  if p.firstError = none then { p with firstError := err } else p

/-! ## Namespaces of a term -/

/-- The namespace set of a term as the specification resolves it: the namespaces the term
names or, when it names none, the namespace of the pod that declares the term. -/
def resolvedNamespaces (declaringPod : Pod) (term : PodAffinityTerm) : List String :=
  if term.Namespaces = [] then [declaringPod.Namespace] else term.Namespaces

/-- What the processing of one term adds to the counter of the name `s` when the pod to
check is matched against the given namespace set. -/
def termDeltaIn (nodes : List Node) (term : PodAffinityTerm) (namespaces : List String)
    (podToCheck : Pod) (fixedNode : Node) (weight : Int) (s : String) : Int :=
  match LabelSelectorAsSelector term.LabelSelector with
  | .ok selector =>
    if PodMatchesTermsNamespaceAndSelector podToCheck namespaces selector then
      (nodes.map (fun node =>
        if node.Name = s ∧ NodesHaveSameTopologyKey node fixedNode term.TopologyKey then weight
        else 0)).sum
    else 0
  | .error _ => 0

/-- What the weighted terms declared by one pod add to the counter of the name `s` when
they are matched against another pod, with the namespaces of each term resolved from the
declaring pod. -/
def declaredDelta (nodes : List Node) (terms : List WeightedPodAffinityTerm)
    (declaringPod matchedPod : Pod) (fixedNode : Node) (multiplier : Int) (s : String) : Int :=
  (terms.map (fun t =>
    termDeltaIn nodes t.PodAffinityTerm (resolvedNamespaces declaringPod t.PodAffinityTerm)
      matchedPod fixedNode (wrap32 (t.Weight * wrap32 multiplier)) s)).sum

/-- What the required terms declared by one pod add to the counter of the name `s` when
they are matched against another pod, with the namespaces of each term resolved from the
declaring pod. -/
def declaredHardDelta (nodes : List Node) (terms : List PodAffinityTerm)
    (declaringPod matchedPod : Pod) (fixedNode : Node) (weight : Int) (s : String) : Int :=
  (terms.map (fun t =>
    termDeltaIn nodes t (resolvedNamespaces declaringPod t) matchedPod fixedNode weight s)).sum

/-! ## Orders of the scan -/

/-- Two views of a node that differ only in the order of their pod lists. -/
def sameUpToOrder (a b : NodeInfo) : Prop :=
  a.node = b.node ∧ a.pods.Perm b.pods ∧ a.podsWithAffinity.Perm b.podsWithAffinity

/-- Two snapshots that differ only in the order of the node work list and in the order of
the pod lists of each node. -/
def SnapshotPerm (m m' : List (String × NodeInfo)) : Prop :=
  (allNodeNames m).Perm (allNodeNames m') ∧
    ∀ name, match m.lookup name, m'.lookup name with
      | some a, some b => sameUpToOrder a b
      | none, none => True
      | _, _ => False

/-- The pre-allocation gives the name a counter. -/
def allocates (pod : Pod) (nodeNameToInfo : List (String × NodeInfo)) (name : String) : Bool :=
  (hasAffinityConstraints pod || hasAntiAffinityConstraints pod) ||
    match nodeNameToInfo.lookup name with
    | some nodeInfo => nodeInfo.podsWithAffinity.length ≠ 0
    | none => false

/-- Two accumulators with the same candidate nodes and the same allocated counters. -/
def SameAlloc (b b' : podAffinityPriorityMap) : Prop :=
  b'.nodes = b.nodes ∧ ∀ s, (b'.counts s).isSome = (b.counts s).isSome

/-! ## Interleavings of the workers -/

/-- A write of a worker to the shared accumulator during the scan: the call
`atomic.AddInt64(p.counts[name], weight)` of `processTerm`, or a call of `setError`, which
runs under the mutex. Each write is one indivisible step. -/
inductive Action where
  | add (name : String) (weight : Int)
  | setError (err : Error)
deriving DecidableEq, Repr

/-- The accumulator after one write. -/
def Action.run (pm : podAffinityPriorityMap) : Action → Option podAffinityPriorityMap
  | .add name weight => pm.add name weight
  | .setError err => some (pm.setError err)

/-- What a write adds to the counter of the name `s`. -/
def Action.delta (a : Action) (s : String) : Int :=
  match a with
  | .add name weight => if name = s then weight else 0
  | .setError _ => 0

/-- The accumulator after a sequence of writes, one after the other. -/
def runActions (pm : podAffinityPriorityMap) (actions : List Action) :
    Option podAffinityPriorityMap :=
  actions.foldlM Action.run pm

/-- The writes of one call of `processTerm`, in program order. -/
def termActions (nodes : List Node) (term : PodAffinityTerm)
    (podDefiningAffinityTerm podToCheck : Pod) (fixedNode : Node) (weight : Int) :
    List Action :=
  match LabelSelectorAsSelector term.LabelSelector with
  | .error err => [Action.setError err]
  | .ok selector =>
    if PodMatchesTermsNamespaceAndSelector podToCheck
        (GetNamespacesFromPodAffinityTerm podDefiningAffinityTerm term) selector then
      (nodes.filter (fun node => NodesHaveSameTopologyKey node fixedNode term.TopologyKey)).map
        (fun node => Action.add node.Name weight)
    else []

/-- The writes of one call of `processTerms`, in program order. -/
def termsActions (nodes : List Node) (terms : List WeightedPodAffinityTerm)
    (podDefiningAffinityTerm podToCheck : Pod) (fixedNode : Node) (multiplier : Int) :
    List Action :=
  (terms.map (fun term =>
    termActions nodes term.PodAffinityTerm podDefiningAffinityTerm podToCheck fixedNode
      (wrap32 (term.Weight * wrap32 multiplier)))).flatten

/-- The writes of the loop over the required affinity terms, in program order. -/
def hardTermsActions (nodes : List Node) (terms : List PodAffinityTerm)
    (existingPod pod : Pod) (existingPodNode : Node) (hardPodAffinityWeight : Int) :
    List Action :=
  (terms.map (fun term =>
    termActions nodes term existingPod pod existingPodNode hardPodAffinityWeight)).flatten

/-- The writes of `processNode` for one existing pod, in program order: those of
`processPod`, and the `setError` of the error that `processPod` returns. -/
def podActions (ipa : InterPodAffinity) (pod : Pod) (nodes : List Node) (existingPod : Pod) :
    List Action :=
  match ipa.info existingPod.NodeName with
  | .error err => if err.IsNotFound then [] else [Action.setError err]
  | .ok existingPodNode =>
    termsActions nodes (preferredAffinityTerms pod) pod existingPod existingPodNode 1
      ++ termsActions nodes (preferredAntiAffinityTerms pod) pod existingPod existingPodNode (-1)
      ++ (if ipa.hardPodAffinityWeight > 0 then
            hardTermsActions nodes (requiredAffinityTerms existingPod) existingPod pod
              existingPodNode ipa.hardPodAffinityWeight
          else [])
      ++ termsActions nodes (preferredAffinityTerms existingPod) existingPod pod
          existingPodNode 1
      ++ termsActions nodes (preferredAntiAffinityTerms existingPod) existingPod pod
          existingPodNode (-1)

/-- The writes of one call of `processNode`, in program order. -/
def nodeActions (ipa : InterPodAffinity) (pod : Pod) (nodeNameToInfo : List (String × NodeInfo))
    (nodes : List Node) (name : String) : List Action :=
  ((nodePods pod nodeNameToInfo name).map (podActions ipa pod nodes)).flatten

/-- The pieces of work that `workqueue.ParallelizeUntil` hands to the workers: for every
name of `allNodeNames`, the writes of `processNode`. -/
def workerActions (ipa : InterPodAffinity) (pod : Pod)
    (nodeNameToInfo : List (String × NodeInfo)) (nodes : List Node) : List (List Action) :=
  (allNodeNames nodeNameToInfo).map (nodeActions ipa pod nodeNameToInfo nodes)

/-- An interleaving of the pieces of work: every step is the next write of one of the
pieces, and at the end every piece is finished. The workers run the pieces they take one
after the other, so every run of the pool is such an interleaving. -/
inductive Interleaving : List (List Action) → List Action → Prop
  | done (ws : List (List Action)) : (∀ w ∈ ws, w = []) → Interleaving ws []
  | step (ws : List (List Action)) (i : Nat) (a : Action) (rest tr : List Action) :
      ws[i]? = some (a :: rest) → Interleaving (ws.set i rest) tr → Interleaving ws (a :: tr)

/-! ## Example inputs with several pods on a node -/

/-- The snapshot in which `n1` hosts a pod preferring `app=P` on its host with the weight 2
and a pod preferring `app=P` in its zone with the weight 3, and `n2` hosts a pod preferring
`app=P` on its host with the weight 5. -/
def exSnapshotMix : List (String × NodeInfo) :=
  [("n1", ⟨some exNode1, [exPodR "R1" "n1" 2, exPodZone "n1"],
      [exPodR "R1" "n1" 2, exPodZone "n1"]⟩),
   ("n2", ⟨some exNode2, [exPodR "R2" "n2" 5], [exPodR "R2" "n2" 5]⟩)]

/-- The same snapshot with the nodes and the pods of `n1` in the other order. -/
def exSnapshotMixSwapped : List (String × NodeInfo) :=
  [("n2", ⟨some exNode2, [exPodR "R2" "n2" 5], [exPodR "R2" "n2" 5]⟩),
   ("n1", ⟨some exNode1, [exPodZone "n1", exPodR "R1" "n1" 2],
      [exPodZone "n1", exPodR "R1" "n1" 2]⟩)]

/-- The result of a step of the pod loop, the accumulator as it was if the step panics. -/
def podStepResult (ipa : InterPodAffinity) (pod : Pod) (pm : podAffinityPriorityMap)
    (existingPod : Pod) : podAffinityPriorityMap :=
  (processPodStep ipa pod pm existingPod).getD pm

/-! ## Example inputs with large counters -/

/-- The selector that the term `exTerm` parses to: the label `app=P`. -/
def exSelector : Labels → Bool :=
  fun labels => [("app", "P")].all (fun p => labels.lookup p.1 == some p.2)

/-- An existing pod in namespace `ns`, placed on `node`, with `k` preferred pod-affinity
terms of weight `2 ^ 30` and `extra` terms of weight 1, each selecting `app=P` on the host
of the pod. -/
def exPodMany (name node : String) (k extra : Nat) : Pod :=
  ⟨name, "ns", [], node,
    some ⟨some ⟨[], List.replicate k ⟨1073741824, exTerm hostnameKey⟩
      ++ List.replicate extra ⟨1, exTerm hostnameKey⟩⟩, none⟩⟩

/-- The snapshot in which `n1` hosts a pod with `2 ^ 20` terms of weight `2 ^ 30`, and `n2`
hosts a pod with `10 * 2 ^ 20` terms of weight `2 ^ 30` and one term of weight 1. -/
def exSnapshotLarge : List (String × NodeInfo) :=
  [("n1", ⟨some exNode1, [exPodMany "L1" "n1" 1048576 0], [exPodMany "L1" "n1" 1048576 0]⟩),
   ("n2", ⟨some exNode2, [exPodMany "L2" "n2" 10485760 1], [exPodMany "L2" "n2" 10485760 1]⟩)]

end Priorities

namespace Lifecycle

/-! ## `resolvePort` of the kubelet lifecycle handlers -/

/-- The constant `intstr.Int` of the type `intstr.Type`. -/
def intstrInt : Int := 0

/-- The constant `intstr.String` of the type `intstr.Type`. -/
def intstrString : Int := 1

/-- The value `intstr.IntOrString`: the type tag, the `int32` value and the string value. -/
structure IntOrString where
  Type_ : Int
  IntVal : Int
  StrVal : String
deriving DecidableEq, Repr

/-- The port `v1.ContainerPort`: its name and its `int32` port number. -/
structure PortSpec where
  Name : String
  ContainerPort : Int
deriving DecidableEq, Repr

/-- The container `v1.Container`: its name and its ports. -/
structure Container where
  Name : String
  Ports : List PortSpec
deriving DecidableEq, Repr

/-- The error value built by `fmt.Errorf`: the format and its arguments. -/
structure Error where
  format : String
  portReference : IntOrString
  container : Container
deriving DecidableEq, Repr

/-- The value of a sequence of decimal digits, `none` when a character is not a digit. -/
def digitsValue : List Char → Nat → Option Nat
  | [], acc => some acc
  | c :: cs, acc =>
    if '0' ≤ c ∧ c ≤ '9' then digitsValue cs (acc * 10 + (c.toNat - '0'.toNat)) else none

/-- The library function `strconv.Atoi` for a 64 bit `int`: an optional sign and at least
one decimal digit, with a value in the range of `int`; `none` is a non-nil error. -/
def Atoi (s : String) : Option Int :=
  let digits (cs : List Char) : Option Nat := if cs = [] then none else digitsValue cs 0
  let signed : Option Int :=
    match s.toList with
    | '+' :: cs => (digits cs).map (fun n => (n : Int))
    | '-' :: cs => (digits cs).map (fun n => -(n : Int))
    | cs => (digits cs).map (fun n => (n : Int))
  match signed with
  | some v => if -2 ^ 63 ≤ v ∧ v < 2 ^ 63 then some v else none
  | none => none

/-- Modelled from the spec: the method `IntValue` of `intstr.IntOrString` is declared in a
package that is not among the sources. It is the integer value of the reference: the parsed
string (0 when it does not parse) for a reference of the string type, and `int(IntVal)`
otherwise. -/
def IntOrString.IntValue (intstr : IntOrString) : Int :=
  if intstr.Type_ = intstrString then (Atoi intstr.StrVal).getD 0 else intstr.IntVal

/-- The loop of `resolvePort` over the ports of the container: the first port spec whose
name is the port name. -/
def findPort (portName : String) : List PortSpec → Option PortSpec
  | [] => none
  | portSpec :: rest => if portSpec.Name = portName then some portSpec else findPort portName rest

/-- The function `resolvePort`: the port and the error, which is `none` when nil. The
container is a pointer, `none` when nil; the result is `none` when the call panics on the
nil container. -/
def resolvePort (portReference : IntOrString) (container : Option Container) :
    Option (Int × Option Error) :=
  if portReference.Type_ = intstrInt then some (portReference.IntValue, none)
  else
    let portName := portReference.StrVal
    match Atoi portName with
    | some port => some (port, none)
    | none =>
      match container with
      | none => none
      | some container =>
        match findPort portName container.Ports with
        | some portSpec => some (portSpec.ContainerPort, none)
        | none => some (-1, some ⟨"couldn't find port: %v in %v", portReference, container⟩)

end Lifecycle

namespace StorageValidation

/-! ## `validateParameters` of the storage validation -/

/-- The constant `maxProvisionerParameterSize`, 256 kB. -/
def maxProvisionerParameterSize : Int := 256 * 2 ^ 10

/-- The constant `maxProvisionerParameterLen`. -/
def maxProvisionerParameterLen : Int := 512

/-- The errors of `field.ErrorList` that the validation builds: `field.TooLong` and
`field.Invalid`, with the path, the value and the detail or the maximum length. -/
inductive FieldError where
  | TooLong (path : String) (value : String) (maxLength : Int)
  | Invalid (path : String) (value : String) (detail : String)
deriving DecidableEq, Repr

/-- The length `len(s)` of a Go string: its number of bytes. -/
def len (s : String) : Int := s.utf8ByteSize

/-- One round of the loop over the parameters: the total size, an `int64`, and the errors so
far. -/
def checkParameter (fldPath : String) (acc : Int × List FieldError) (kv : String × String) :
    Int × List FieldError :=
  (Priorities.wrap64 (acc.1 + Priorities.wrap64 (len kv.1 + len kv.2)),
    if len kv.1 < 1 then acc.2 ++ [FieldError.Invalid fldPath kv.1 "field can not be empty."]
    else acc.2)

/-- The function `validateParameters`. The map `params` is the list of its entries, in the
order in which the loop visits them. -/
def validateParameters (params : List (String × String)) (fldPath : String) :
    List FieldError :=
  if (params.length : Int) > maxProvisionerParameterLen then
    [FieldError.TooLong fldPath "Provisioner Parameters exceeded max allowed"
      maxProvisionerParameterLen]
  else
    let r := params.foldl (checkParameter fldPath) (0, [])
    if r.1 > maxProvisionerParameterSize then
      r.2 ++ [FieldError.TooLong fldPath "" maxProvisionerParameterSize]
    else r.2

/-- The string of `n` letters `a`. -/
def letters (n : Nat) : String := String.mk (List.replicate n 'a')

end StorageValidation

namespace Kuberc

/-! ## `getExplicitKuberc` of kubectl -/

/-- The library function `strings.Contains` on the characters of the two strings. -/
def containsChars (substr : List Char) : List Char → Bool
  | [] => substr.isEmpty
  | c :: cs => substr.isPrefixOf (c :: cs) || containsChars substr cs

/-- The library function `strings.Contains`. -/
def Contains (s substr : String) : Bool := containsChars substr.toList s.toList

/-- The library function `strings.Split` for a separator of one character, on the
characters of the string. -/
def splitChars (sep : Char) : List Char → List (List Char)
  | [] => [[]]
  | c :: cs =>
    if c = sep then [] :: splitChars sep cs
    else
      match splitChars sep cs with
      | [] => [[c]]
      | part :: parts => (c :: part) :: parts

/-- The call `strings.Split(s, "=")`. -/
def Split (s : String) : List String := (splitChars '=' s.toList).map String.mk

/-- The loop of `getExplicitKuberc` from the argument `args[i]` on: the value of
`kubercPath` when the loop is left. -/
def kubercLoop : List String → String
  | [] => ""
  | arg :: rest =>
    if arg = "--" then ""
    else if arg = "--kuberc" then
      match rest with
      | next :: _ => next
      | [] => kubercLoop rest
    else if Contains arg "--kuberc=" then
      match Split arg with
      | _ :: value :: _ => value
      | _ => kubercLoop rest
    else kubercLoop rest

/-- The function `getExplicitKuberc`. -/
def getExplicitKuberc (args : List String) : String :=
  let kubercPath := kubercLoop args
  if kubercPath = "" then "" else kubercPath

end Kuberc

namespace Namer

/-! ## `NameStrategy.name` of the gengo namer -/

/-- A Go string: the list of its bytes. -/
abbrev GoString := List Nat

/-- The bytes of a string literal of ASCII characters. -/
def ascii (s : String) : GoString := s.toList.map Char.toNat

/-- The call `strings.ToUpper(in[:1])` for the first byte of a string: a lower case ASCII
letter becomes upper case, another ASCII byte stays, and a byte that is not ASCII, which
alone is not valid UTF-8, becomes the encoding of the replacement character. -/
def toUpperByte (b : Nat) : GoString :=
  if 97 ≤ b ∧ b ≤ 122 then [b - 32] else if b < 128 then [b] else [239, 191, 189]

/-- The function `IC`: the first character in upper case. -/
def IC (s : GoString) : GoString :=
  match s with
  | [] => []
  | b :: rest => toUpperByte b ++ rest

/-- The function `Joiner`. -/
def Joiner (first others : GoString → GoString) : List GoString → GoString :=
  fun parts => first (parts.map others).flatten

/-- The replacer `importPathNameSanitizer`: `-` becomes `_` and `.` is dropped. -/
def importPathNameSanitizer (s : GoString) : GoString :=
  s.flatMap (fun b => if b = 45 then [95] else if b = 46 then [] else [b])

/-- The call `strings.Split(path, GoSeperator)`, with the separator `/`. -/
def splitPath : GoString → List GoString
  | [] => [[]]
  | b :: rest =>
    if b = 47 then [] :: splitPath rest
    else
      match splitPath rest with
      | [] => [[b]]
      | part :: parts => (b :: part) :: parts

/-- The fields of `NameStrategy` that the method `name` reads for a named type. The map
`IgnoreWords` is `none` when nil. -/
structure NameStrategy where
  Join : List GoString → GoString
  IgnoreWords : Option (List (GoString × Bool))
  PrependPackageNames : Int

/-- The name `types.Name` of a type: its package path and its name. -/
structure TypeName where
  Package : GoString
  Name : GoString
deriving DecidableEq, Repr

/-- The test `ns.IgnoreWords == nil || !ns.IgnoreWords[p]` of `filterDirs`. -/
def NameStrategy.keeps (ns : NameStrategy) (p : GoString) : Bool :=
  match ns.IgnoreWords with
  | none => true
  | some words => !((words.lookup p).getD false)

/-- The method `filterDirs`. -/
def NameStrategy.filterDirs (ns : NameStrategy) (path : GoString) : List GoString :=
  ((splitPath path).filter ns.keeps).map importPathNameSanitizer

/-- The method `name`, for the name `t` of the type. `PrependPackageNames` and the indices
are of the 64 bit type `int`; the result is `none` when the slice expression
`dirs[dn-i:]` panics. The switch over the kind of an anonymous type is not part of the
model: its result is the argument `anonymous`. -/
def NameStrategy.name (ns : NameStrategy) (t : TypeName) (anonymous : GoString) :
    Option GoString :=
  if t.Package ≠ [] then
    let dirs := ns.filterDirs t.Package ++ [t.Name]
    let i := Priorities.wrap64 (ns.PrependPackageNames + 1)
    let dn : Int := dirs.length
    let i := if i > dn then dn else i
    let low := Priorities.wrap64 (dn - i)
    if 0 ≤ low ∧ low ≤ dn then some (ns.Join (dirs.drop low.toNat)) else none
  else some anonymous

/-- The function `NewPublicNamer`. -/
def NewPublicNamer (prependPackageNames : Int) (ignoreWords : List GoString) : NameStrategy :=
  { Join := Joiner IC IC
    IgnoreWords := some (ignoreWords.foldl (fun m w => (w, true) :: m) [])
    PrependPackageNames := prependPackageNames }

/-- The largest value of the 64 bit type `int`. -/
def maxInt : Int := 9223372036854775807

/-- The name of the type `Foo` of the package `pkg/server/frobbing/proto`. -/
def exFoo : TypeName := ⟨ascii "pkg/server/frobbing/proto", ascii "Foo"⟩

end Namer

namespace Golist2make

/-! ## `depsForPkg` of golist2make -/

/-- The fields of `Package` that `depsForPkg` reads. -/
structure Package where
  Dir : String
  Standard : Bool
  Imports : List String
  GoFiles : List String
deriving DecidableEq, Repr

/-- The library function `sort.Strings`, which sorts in increasing order of the bytes. -/
def sortStrings (l : List String) : List String := l.insertionSort (· ≤ ·)

/-- The keys of the set `deps` of `depsForPkg`, sorted: the set is written from the
elements `l`, one after the other. -/
def orderedKeys (l : List String) : List String := sortStrings l.dedup

/-- The function `depsForPkg`: the result and the cache `cachedDeps` after the call. The maps
are lists of entries, the first entry of a key being its value. The recursion is bounded by
`fuel`, and the result is `none` when the fuel runs out. -/
def depsForPkg : Nat → String → List (String × List String) → List (String × Package) →
    Option (List String × List (String × List String))
  | 0, _, _, _ => none
  | fuel + 1, pkgPath, cachedDeps, packages =>
    match cachedDeps.lookup pkgPath with
    | some deps => some (deps, cachedDeps)
    | none =>
      match packages.lookup pkgPath with
      | none => some ([], cachedDeps)
      | some pkg =>
        if pkg.Standard then some ([], cachedDeps)
        else
          match pkg.Imports.foldlM
              (fun (acc : List String × List (String × List String)) i =>
                (depsForPkg fuel i acc.2 packages).map (fun r => (acc.1 ++ r.1, r.2)))
              ([], cachedDeps) with
          | none => none
          | some (deps, cachedDeps) =>
            let orderedDeps := orderedKeys
              (deps ++ pkg.GoFiles.map (fun f => pkg.Dir ++ "/" ++ f) ++ [pkg.Dir ++ "/"])
            some (orderedDeps, (pkgPath, orderedDeps) :: cachedDeps)

/-- The dependencies of a package as a function of the package map alone, without the
cache: the sorted set of the directory, the files and the dependencies of the imports,
and the empty list for a standard or absent package. -/
def depsSpec (packages : List (String × Package)) : Nat → String → List String
  | 0, _ => []
  | fuel + 1, pkgPath =>
    match packages.lookup pkgPath with
    | none => []
    | some pkg =>
      if pkg.Standard then []
      else
        orderedKeys (pkg.Imports.flatMap (depsSpec packages fuel)
          ++ pkg.GoFiles.map (fun f => pkg.Dir ++ "/" ++ f) ++ [pkg.Dir ++ "/"])

/-- Every entry of the cache is the dependency list `fresh` of its key. -/
def CacheOk (fresh : String → List String) (cache : List (String × List String)) : Prop :=
  ∀ k v, cache.lookup k = some v → v = fresh k

/-- The imports of the packages that are not standard go down in `rank`: the imports are
acyclic. -/
def Acyclic (packages : List (String × Package)) (rank : String → Nat) : Prop :=
  ∀ name pkg, packages.lookup name = some pkg → pkg.Standard = false →
    ∀ i ∈ pkg.Imports, rank i < rank name

/-- An example package map: `a` imports `b` and the standard package `fmt`, and `b`
imports `fmt`. -/
def exPackages : List (String × Package) :=
  [("a", ⟨"src/a", false, ["b", "fmt"], ["a.go", "main.go"]⟩),
   ("b", ⟨"src/b", false, ["fmt"], ["b.go"]⟩),
   ("fmt", ⟨"go/fmt", true, ["b"], ["print.go"]⟩)]

/-- A rank for the example package map. -/
def exRank (name : String) : Nat := if name = "a" then 2 else if name = "b" then 1 else 0

end Golist2make

namespace Priorities

/-! ## Properties of the machine integers and of the rounding -/

theorem wrap64_of_isInt64 {x : Int} (h : isInt64 x) : wrap64 x = x := by
  unfold isInt64 at h
  unfold wrap64
  omega

theorem isInt64_wrap64 (x : Int) : isInt64 (wrap64 x) := by
  unfold isInt64 wrap64
  omega

theorem wrap64_add_wrap64 (x y : Int) : wrap64 (wrap64 x + y) = wrap64 (x + y) := by
  unfold wrap64
  omega

theorem wrap32_of_isInt32 {x : Int} (h : isInt32 x) : wrap32 x = x := by
  unfold isInt32 at h
  unfold wrap32
  omega

theorem roundHalfEven_intCast (n : ℤ) : roundHalfEven (n : ℚ) = n := by
  simp [roundHalfEven]

theorem floor_le_roundHalfEven (y : ℚ) : ⌊y⌋ ≤ roundHalfEven y := by
  unfold roundHalfEven
  split_ifs <;> omega

theorem roundHalfEven_le_floor_add_one (y : ℚ) : roundHalfEven y ≤ ⌊y⌋ + 1 := by
  unfold roundHalfEven
  split_ifs <;> omega

theorem roundHalfEven_mono {y z : ℚ} (h : y ≤ z) : roundHalfEven y ≤ roundHalfEven z := by
  have hf : ⌊y⌋ ≤ ⌊z⌋ := Int.floor_mono h
  rcases hf.lt_or_eq with hlt | heq
  · calc roundHalfEven y ≤ ⌊y⌋ + 1 := roundHalfEven_le_floor_add_one y
      _ ≤ ⌊z⌋ := hlt
      _ ≤ roundHalfEven z := floor_le_roundHalfEven z
  · have hq : ((⌊y⌋ : ℤ) : ℚ) = ((⌊z⌋ : ℤ) : ℚ) := by rw [heq]
    unfold roundHalfEven
    rw [heq]
    split_ifs <;> first | omega | (exfalso; linarith)

theorem abs_roundHalfEven_sub_le (y : ℚ) : |(roundHalfEven y : ℚ) - y| ≤ 1 / 2 := by
  have h1 := Int.floor_le y
  have h2 := Int.lt_floor_add_one y
  unfold roundHalfEven
  rw [abs_le]
  split_ifs <;> push_cast <;> constructor <;> linarith

theorem le_roundHalfEven {n : ℤ} {y : ℚ} (h : (n : ℚ) ≤ y) : n ≤ roundHalfEven y := by
  have := roundHalfEven_mono h
  rwa [roundHalfEven_intCast] at this

theorem roundHalfEven_le {n : ℤ} {y : ℚ} (h : y ≤ (n : ℚ)) : roundHalfEven y ≤ n := by
  have := roundHalfEven_mono h
  rwa [roundHalfEven_intCast] at this
theorem ulp_pos (e : ℤ) : (0 : ℚ) < 2 ^ (e - 52) := zpow_pos (by norm_num) _

theorem pow52_mul_ulp (e : ℤ) : ((2 ^ 52 : ℤ) : ℚ) * 2 ^ (e - 52) = 2 ^ e := by
  rw [zpow_sub₀ (by norm_num : (2 : ℚ) ≠ 0)]
  push_cast
  field_simp
  ring

theorem pow53_mul_ulp (e : ℤ) : ((2 ^ 53 : ℤ) : ℚ) * 2 ^ (e - 52) = 2 ^ (e + 1) := by
  rw [zpow_sub₀ (by norm_num : (2 : ℚ) ≠ 0), zpow_add₀ (by norm_num : (2 : ℚ) ≠ 0)]
  push_cast
  field_simp
  ring

theorem scaled_lower {x : ℚ} (hx : 0 < x) : ((2 ^ 52 : ℤ) : ℚ) ≤ x / 2 ^ (Int.log 2 x - 52) := by
  have h := Int.zpow_log_le_self (b := 2) (by norm_num) hx
  rw [le_div_iff₀ (ulp_pos _)]
  rw [pow52_mul_ulp]
  exact_mod_cast h

theorem scaled_upper (x : ℚ) : x / 2 ^ (Int.log 2 x - 52) ≤ ((2 ^ 53 : ℤ) : ℚ) := by
  have h := (Int.lt_zpow_succ_log_self (b := 2) (by norm_num) x).le
  rw [div_le_iff₀ (ulp_pos _)]
  rw [pow53_mul_ulp]
  exact_mod_cast h

theorem zpow_log_le_roundPos {x : ℚ} (hx : 0 < x) : (2 : ℚ) ^ Int.log 2 x ≤ roundPos x := by
  have h := le_roundHalfEven (scaled_lower hx)
  have h' : ((2 ^ 52 : ℤ) : ℚ) ≤ (roundHalfEven (x / 2 ^ (Int.log 2 x - 52)) : ℚ) := by
    exact_mod_cast h
  unfold roundPos
  calc (2 : ℚ) ^ Int.log 2 x = ((2 ^ 52 : ℤ) : ℚ) * 2 ^ (Int.log 2 x - 52) :=
        (pow52_mul_ulp _).symm
    _ ≤ _ := mul_le_mul_of_nonneg_right h' (ulp_pos _).le

theorem roundPos_le_zpow_succ (x : ℚ) : roundPos x ≤ (2 : ℚ) ^ (Int.log 2 x + 1) := by
  have h := roundHalfEven_le (scaled_upper x)
  have h' : (roundHalfEven (x / 2 ^ (Int.log 2 x - 52)) : ℚ) ≤ ((2 ^ 53 : ℤ) : ℚ) := by
    exact_mod_cast h
  unfold roundPos
  calc _ ≤ ((2 ^ 53 : ℤ) : ℚ) * 2 ^ (Int.log 2 x - 52) :=
        mul_le_mul_of_nonneg_right h' (ulp_pos _).le
    _ = (2 : ℚ) ^ (Int.log 2 x + 1) := pow53_mul_ulp _

theorem roundPos_pos {x : ℚ} (hx : 0 < x) : 0 < roundPos x :=
  lt_of_lt_of_le (zpow_pos (by norm_num) _) (zpow_log_le_roundPos hx)

theorem roundPos_mono {x y : ℚ} (hx : 0 < x) (h : x ≤ y) : roundPos x ≤ roundPos y := by
  have hy : 0 < y := lt_of_lt_of_le hx h
  have hl : Int.log 2 x ≤ Int.log 2 y := Int.log_mono_right hx h
  rcases hl.lt_or_eq with hlt | heq
  · calc roundPos x ≤ (2 : ℚ) ^ (Int.log 2 x + 1) := roundPos_le_zpow_succ x
      _ ≤ (2 : ℚ) ^ Int.log 2 y := zpow_le_zpow_right₀ (by norm_num) hlt
      _ ≤ roundPos y := zpow_log_le_roundPos hy
  · unfold roundPos
    rw [heq]
    apply mul_le_mul_of_nonneg_right _ (ulp_pos _).le
    have := roundHalfEven_mono (div_le_div_of_nonneg_right h (ulp_pos (Int.log 2 y)).le)
    exact_mod_cast this

theorem roundPos_eq_self {x : ℚ} (n : ℤ) (h : x / 2 ^ (Int.log 2 x - 52) = n) : roundPos x = x := by
  unfold roundPos
  rw [h, roundHalfEven_intCast, ← h]
  field_simp

theorem abs_roundPos_sub_le (x : ℚ) :
    |roundPos x - x| ≤ 2 ^ (Int.log 2 x - 52) / 2 := by
  have h := abs_roundHalfEven_sub_le (x / 2 ^ (Int.log 2 x - 52))
  have hu := ulp_pos (Int.log 2 x)
  have e : roundPos x - x
      = ((roundHalfEven (x / 2 ^ (Int.log 2 x - 52)) : ℚ) - x / 2 ^ (Int.log 2 x - 52))
        * 2 ^ (Int.log 2 x - 52) := by
    unfold roundPos
    field_simp
  rw [e, abs_mul, abs_of_pos hu]
  calc _ ≤ (1 / 2 : ℚ) * 2 ^ (Int.log 2 x - 52) := mul_le_mul_of_nonneg_right h hu.le
    _ = _ := by ring
theorem toFloat64_zero : toFloat64 0 = 0 := by simp [toFloat64]

theorem toFloat64_of_pos {x : ℚ} (hx : 0 < x) : toFloat64 x = roundPos x := by
  simp [toFloat64, hx, hx.ne']

theorem toFloat64_pos {x : ℚ} (hx : 0 < x) : 0 < toFloat64 x := by
  rw [toFloat64_of_pos hx]
  exact roundPos_pos hx

theorem toFloat64_nonneg {x : ℚ} (hx : 0 ≤ x) : 0 ≤ toFloat64 x := by
  rcases hx.lt_or_eq with h | h
  · exact (toFloat64_pos h).le
  · rw [← h, toFloat64_zero]

theorem toFloat64_mono {x y : ℚ} (hx : 0 ≤ x) (h : x ≤ y) : toFloat64 x ≤ toFloat64 y := by
  rcases hx.lt_or_eq with h0 | h0
  · rw [toFloat64_of_pos h0, toFloat64_of_pos (lt_of_lt_of_le h0 h)]
    exact roundPos_mono h0 h
  · rw [← h0, toFloat64_zero]
    exact toFloat64_nonneg (hx.trans h)

theorem toFloat64_natCast {n : ℕ} (h : n < 2 ^ 53) : toFloat64 (n : ℚ) = n := by
  rcases Nat.eq_zero_or_pos n with h0 | h0
  · subst h0
    simp [toFloat64_zero]
  · have hq : (0 : ℚ) < n := by exact_mod_cast h0
    rw [toFloat64_of_pos hq]
    have hlog : Int.log 2 (n : ℚ) = Nat.log 2 n := Int.log_natCast 2 n
    have hle : Nat.log 2 n ≤ 52 := by
      have := Nat.log_lt_of_lt_pow h0.ne' h
      omega
    apply roundPos_eq_self ((n : ℤ) * 2 ^ (52 - Nat.log 2 n))
    rw [hlog]
    have : ((Nat.log 2 n : ℤ) - 52) = - ((52 - Nat.log 2 n : ℕ) : ℤ) := by omega
    rw [this, zpow_neg, zpow_natCast]
    push_cast
    field_simp

theorem toFloat64_one : toFloat64 1 = 1 := by
  have := toFloat64_natCast (n := 1) (by norm_num)
  simpa using this

theorem toFloat64_ten : toFloat64 10 = 10 := by
  have := toFloat64_natCast (n := 10) (by norm_num)
  simpa using this
/-- The score expression on the two differences. -/
theorem scaledScore_eq (count maxCount minCount : Int) :
    scaledScore count maxCount minCount
      = ⌊toFloat64 (10 * toFloat64
          (toFloat64 (wrap64 (count - minCount)) / toFloat64 (wrap64 (maxCount - minCount))))⌋
        ∨ toFloat64 (10 * toFloat64
          (toFloat64 (wrap64 (count - minCount)) / toFloat64 (wrap64 (maxCount - minCount)))) < 0 := by
  by_cases h : 0 ≤ toFloat64 (10 * toFloat64
          (toFloat64 (wrap64 (count - minCount)) / toFloat64 (wrap64 (maxCount - minCount))))
  · left
    simp only [scaledScore, f64toInt, f64mul, f64div, MaxPriority]
    norm_num [toFloat64_ten, h]
  · right
    exact not_le.mp h

theorem ratio_bounds {a b : Int} (ha : 0 ≤ a) (hab : a ≤ b) (hb : 0 < b) :
    0 ≤ toFloat64 (toFloat64 a / toFloat64 b) ∧ toFloat64 (toFloat64 a / toFloat64 b) ≤ 1 := by
  have h0 : (0 : ℚ) ≤ toFloat64 a := toFloat64_nonneg (by exact_mod_cast ha)
  have h1 : toFloat64 (a : ℚ) ≤ toFloat64 b :=
    toFloat64_mono (by exact_mod_cast ha) (by exact_mod_cast hab)
  have h2 : (0 : ℚ) < toFloat64 b := toFloat64_pos (by exact_mod_cast hb)
  have h3 : 0 ≤ toFloat64 (a : ℚ) / toFloat64 b := div_nonneg h0 h2.le
  have h4 : toFloat64 (a : ℚ) / toFloat64 b ≤ 1 := (div_le_one h2).mpr h1
  refine ⟨toFloat64_nonneg h3, ?_⟩
  have := toFloat64_mono h3 h4
  rwa [toFloat64_one] at this

theorem product_bounds {a b : Int} (ha : 0 ≤ a) (hab : a ≤ b) (hb : 0 < b) :
    0 ≤ toFloat64 (10 * toFloat64 (toFloat64 a / toFloat64 b))
      ∧ toFloat64 (10 * toFloat64 (toFloat64 a / toFloat64 b)) ≤ 10 := by
  obtain ⟨h0, h1⟩ := ratio_bounds ha hab hb
  have h2 : (0 : ℚ) ≤ 10 * toFloat64 (toFloat64 a / toFloat64 b) := by linarith
  refine ⟨toFloat64_nonneg h2, ?_⟩
  have := toFloat64_mono h2 (by linarith : 10 * toFloat64 (toFloat64 (a : ℚ) / toFloat64 b) ≤ 10)
  rwa [toFloat64_ten] at this

/-! ## The rounded score and the exact quotient -/

theorem log_eq_of_bounds {x : ℚ} {e : ℤ} (hx : 0 < x) (h1 : (2 : ℚ) ^ e ≤ x)
    (h2 : x < (2 : ℚ) ^ (e + 1)) : Int.log 2 x = e := by
  have ha : e ≤ Int.log 2 x := (Int.zpow_le_iff_le_log (b := 2) (by norm_num) hx).mp (by exact_mod_cast h1)
  have hb : Int.log 2 x < e + 1 := (Int.lt_zpow_iff_log_lt (b := 2) (by norm_num) hx).mp (by exact_mod_cast h2)
  omega

theorem roundHalfEven_eq_of_abs_lt {y : ℚ} {n : ℤ} (h : |y - n| < 1 / 2) :
    roundHalfEven y = n := by
  rw [abs_lt] at h
  obtain ⟨hl, hu⟩ := h
  rcases le_or_lt (n : ℚ) y with hny | hny
  · have hf : ⌊y⌋ = n := Int.floor_eq_iff.mpr ⟨hny, by linarith⟩
    unfold roundHalfEven
    rw [hf, if_pos (by linarith)]
  · have hf : ⌊y⌋ = n - 1 := Int.floor_eq_iff.mpr ⟨by push_cast; linarith, by push_cast; linarith⟩
    unfold roundHalfEven
    rw [hf, if_neg (by push_cast; linarith), if_pos (by push_cast; linarith)]
    ring

theorem roundPos_eq_of {x : ℚ} {e n : ℤ} (hx : 0 < x) (h1 : (2 : ℚ) ^ e ≤ x)
    (h2 : x < (2 : ℚ) ^ (e + 1)) (hn : |x / 2 ^ (e - 52) - n| < 1 / 2) :
    roundPos x = n * 2 ^ (e - 52) := by
  unfold roundPos
  rw [log_eq_of_bounds hx h1 h2, roundHalfEven_eq_of_abs_lt hn]

theorem tenths_1 : toFloat64 (10 * toFloat64 (1 / 10)) = 1 := by
  have h1 : toFloat64 ((1 : ℚ) / 10) = 7205759403792794 * 2 ^ (-4 - 52 : ℤ) := by
    rw [toFloat64_of_pos (by norm_num)]
    have := roundPos_eq_of (x := 1 / 10) (e := -4) (n := 7205759403792794) (by norm_num)
      (by norm_num) (by norm_num) (by rw [abs_lt]; constructor <;> norm_num)
    exact_mod_cast this
  rw [h1, toFloat64_of_pos (by norm_num)]
  have := roundPos_eq_of (x := 10 * (7205759403792794 * 2 ^ (-4 - 52 : ℤ))) (e := 0)
    (n := 4503599627370496) (by norm_num) (by norm_num) (by norm_num)
    (by rw [abs_lt]; constructor <;> norm_num)
  rw [this]
  norm_num

theorem tenths_2 : toFloat64 (10 * toFloat64 (2 / 10)) = 2 := by
  have h1 : toFloat64 ((2 : ℚ) / 10) = 7205759403792794 * 2 ^ (-3 - 52 : ℤ) := by
    rw [toFloat64_of_pos (by norm_num)]
    have := roundPos_eq_of (x := 2 / 10) (e := -3) (n := 7205759403792794) (by norm_num)
      (by norm_num) (by norm_num) (by rw [abs_lt]; constructor <;> norm_num)
    exact_mod_cast this
  rw [h1, toFloat64_of_pos (by norm_num)]
  have := roundPos_eq_of (x := 10 * (7205759403792794 * 2 ^ (-3 - 52 : ℤ))) (e := 1)
    (n := 4503599627370496) (by norm_num) (by norm_num) (by norm_num)
    (by rw [abs_lt]; constructor <;> norm_num)
  rw [this]
  norm_num

theorem tenths_3 : toFloat64 (10 * toFloat64 (3 / 10)) = 3 := by
  have h1 : toFloat64 ((3 : ℚ) / 10) = 5404319552844595 * 2 ^ (-2 - 52 : ℤ) := by
    rw [toFloat64_of_pos (by norm_num)]
    have := roundPos_eq_of (x := 3 / 10) (e := -2) (n := 5404319552844595) (by norm_num)
      (by norm_num) (by norm_num) (by rw [abs_lt]; constructor <;> norm_num)
    exact_mod_cast this
  rw [h1, toFloat64_of_pos (by norm_num)]
  have := roundPos_eq_of (x := 10 * (5404319552844595 * 2 ^ (-2 - 52 : ℤ))) (e := 1)
    (n := 6755399441055744) (by norm_num) (by norm_num) (by norm_num)
    (by rw [abs_lt]; constructor <;> norm_num)
  rw [this]
  norm_num

theorem tenths_4 : toFloat64 (10 * toFloat64 (4 / 10)) = 4 := by
  have h1 : toFloat64 ((4 : ℚ) / 10) = 7205759403792794 * 2 ^ (-2 - 52 : ℤ) := by
    rw [toFloat64_of_pos (by norm_num)]
    have := roundPos_eq_of (x := 4 / 10) (e := -2) (n := 7205759403792794) (by norm_num)
      (by norm_num) (by norm_num) (by rw [abs_lt]; constructor <;> norm_num)
    exact_mod_cast this
  rw [h1, toFloat64_of_pos (by norm_num)]
  have := roundPos_eq_of (x := 10 * (7205759403792794 * 2 ^ (-2 - 52 : ℤ))) (e := 2)
    (n := 4503599627370496) (by norm_num) (by norm_num) (by norm_num)
    (by rw [abs_lt]; constructor <;> norm_num)
  rw [this]
  norm_num

theorem tenths_5 : toFloat64 (10 * toFloat64 (5 / 10)) = 5 := by
  have h1 : toFloat64 ((5 : ℚ) / 10) = 4503599627370496 * 2 ^ (-1 - 52 : ℤ) := by
    rw [toFloat64_of_pos (by norm_num)]
    have := roundPos_eq_of (x := 5 / 10) (e := -1) (n := 4503599627370496) (by norm_num)
      (by norm_num) (by norm_num) (by rw [abs_lt]; constructor <;> norm_num)
    exact_mod_cast this
  rw [h1, toFloat64_of_pos (by norm_num)]
  have := roundPos_eq_of (x := 10 * (4503599627370496 * 2 ^ (-1 - 52 : ℤ))) (e := 2)
    (n := 5629499534213120) (by norm_num) (by norm_num) (by norm_num)
    (by rw [abs_lt]; constructor <;> norm_num)
  rw [this]
  norm_num

theorem tenths_6 : toFloat64 (10 * toFloat64 (6 / 10)) = 6 := by
  have h1 : toFloat64 ((6 : ℚ) / 10) = 5404319552844595 * 2 ^ (-1 - 52 : ℤ) := by
    rw [toFloat64_of_pos (by norm_num)]
    have := roundPos_eq_of (x := 6 / 10) (e := -1) (n := 5404319552844595) (by norm_num)
      (by norm_num) (by norm_num) (by rw [abs_lt]; constructor <;> norm_num)
    exact_mod_cast this
  rw [h1, toFloat64_of_pos (by norm_num)]
  have := roundPos_eq_of (x := 10 * (5404319552844595 * 2 ^ (-1 - 52 : ℤ))) (e := 2)
    (n := 6755399441055744) (by norm_num) (by norm_num) (by norm_num)
    (by rw [abs_lt]; constructor <;> norm_num)
  rw [this]
  norm_num

theorem roundHalfEven_tie_odd {y : ℚ} {f : ℤ} (hy : y = f + 1 / 2) (hf : f % 2 = 1) :
    roundHalfEven y = f + 1 := by
  have hfl : ⌊y⌋ = f := Int.floor_eq_iff.mpr ⟨by rw [hy]; linarith, by rw [hy]; linarith⟩
  unfold roundHalfEven
  rw [hfl, if_neg (by rw [hy]; norm_num), if_neg (by rw [hy]; norm_num), if_neg (by omega)]

theorem tenths_7 : toFloat64 (10 * toFloat64 (7 / 10)) = 7 := by
  have h1 : toFloat64 ((7 : ℚ) / 10) = 6305039478318694 * 2 ^ (-1 - 52 : ℤ) := by
    rw [toFloat64_of_pos (by norm_num)]
    have := roundPos_eq_of (x := 7 / 10) (e := -1) (n := 6305039478318694) (by norm_num)
      (by norm_num) (by norm_num) (by rw [abs_lt]; constructor <;> norm_num)
    exact_mod_cast this
  rw [h1, toFloat64_of_pos (by norm_num)]
  unfold roundPos
  rw [log_eq_of_bounds (e := 2) (by norm_num) (by norm_num) (by norm_num),
    roundHalfEven_tie_odd (f := 7881299347898367) (by norm_num) (by norm_num)]
  norm_num

theorem tenths_8 : toFloat64 (10 * toFloat64 (8 / 10)) = 8 := by
  have h1 : toFloat64 ((8 : ℚ) / 10) = 7205759403792794 * 2 ^ (-1 - 52 : ℤ) := by
    rw [toFloat64_of_pos (by norm_num)]
    have := roundPos_eq_of (x := 8 / 10) (e := -1) (n := 7205759403792794) (by norm_num)
      (by norm_num) (by norm_num) (by rw [abs_lt]; constructor <;> norm_num)
    exact_mod_cast this
  rw [h1, toFloat64_of_pos (by norm_num)]
  have := roundPos_eq_of (x := 10 * (7205759403792794 * 2 ^ (-1 - 52 : ℤ))) (e := 3)
    (n := 4503599627370496) (by norm_num) (by norm_num) (by norm_num)
    (by rw [abs_lt]; constructor <;> norm_num)
  rw [this]
  norm_num

theorem tenths_9 : toFloat64 (10 * toFloat64 (9 / 10)) = 9 := by
  have h1 : toFloat64 ((9 : ℚ) / 10) = 8106479329266893 * 2 ^ (-1 - 52 : ℤ) := by
    rw [toFloat64_of_pos (by norm_num)]
    have := roundPos_eq_of (x := 9 / 10) (e := -1) (n := 8106479329266893) (by norm_num)
      (by norm_num) (by norm_num) (by rw [abs_lt]; constructor <;> norm_num)
    exact_mod_cast this
  rw [h1, toFloat64_of_pos (by norm_num)]
  have := roundPos_eq_of (x := 10 * (8106479329266893 * 2 ^ (-1 - 52 : ℤ))) (e := 3)
    (n := 5066549580791808) (by norm_num) (by norm_num) (by norm_num)
    (by rw [abs_lt]; constructor <;> norm_num)
  rw [this]
  norm_num

theorem abs_toFloat64_sub_le {x : ℚ} {e : ℤ} (hx : 0 < x) (h : x < (2 : ℚ) ^ (e + 1)) :
    |toFloat64 x - x| ≤ 2 ^ (e - 53) := by
  rw [toFloat64_of_pos hx]
  have hlog : Int.log 2 x ≤ e := by
    have := (Int.lt_zpow_iff_log_lt (b := 2) (by norm_num) hx).mp (by exact_mod_cast h)
    omega
  calc |roundPos x - x| ≤ 2 ^ (Int.log 2 x - 52) / 2 := abs_roundPos_sub_le x
    _ ≤ 2 ^ (e - 52) / 2 := by
        apply div_le_div_of_nonneg_right _ (by norm_num)
        exact zpow_le_zpow_right₀ (by norm_num) (by omega)
    _ = 2 ^ (e - 53) := by
        rw [show e - 52 = (e - 53) + 1 by ring, zpow_add₀ (by norm_num : (2 : ℚ) ≠ 0)]
        simp

theorem toFloat64_intCast {a : ℤ} (h0 : 0 ≤ a) (h : a < 2 ^ 53) : toFloat64 (a : ℚ) = a := by
  obtain ⟨n, rfl⟩ := Int.eq_ofNat_of_zero_le h0
  have hn : n < 2 ^ 53 := by exact_mod_cast h
  exact_mod_cast toFloat64_natCast hn

theorem tenths (k : ℤ) (h0 : 0 ≤ k) (h10 : k ≤ 10) :
    toFloat64 (10 * toFloat64 ((k : ℚ) / 10)) = k := by
  interval_cases k
  · simp [toFloat64_zero]
  · simp only [Int.cast_ofNat, Int.cast_one]; exact tenths_1
  · simp only [Int.cast_ofNat, Int.cast_one]; exact tenths_2
  · simp only [Int.cast_ofNat, Int.cast_one]; exact tenths_3
  · simp only [Int.cast_ofNat, Int.cast_one]; exact tenths_4
  · simp only [Int.cast_ofNat, Int.cast_one]; exact tenths_5
  · simp only [Int.cast_ofNat, Int.cast_one]; exact tenths_6
  · simp only [Int.cast_ofNat, Int.cast_one]; exact tenths_7
  · simp only [Int.cast_ofNat, Int.cast_one]; exact tenths_8
  · simp only [Int.cast_ofNat, Int.cast_one]; exact tenths_9
  · norm_num [toFloat64_one, toFloat64_ten]

/-- For differences up to `2 ^ 49` the rounded score is the floor of the exact quotient. -/
theorem floor_scaled {a b : ℤ} (ha : 0 ≤ a) (hab : a ≤ b) (hb : 0 < b) (hb49 : b ≤ 2 ^ 49) :
    ⌊toFloat64 (10 * toFloat64 (toFloat64 (a : ℚ) / toFloat64 (b : ℚ)))⌋ = 10 * a / b := by
  rw [toFloat64_intCast ha (by omega), toFloat64_intCast hb.le (by omega)]
  have hbq : (0 : ℚ) < b := by exact_mod_cast hb
  have hdiv := Int.emod_add_ediv (10 * a) b
  have hr0 := Int.emod_nonneg (10 * a) hb.ne'
  have hrb := Int.emod_lt_of_pos (10 * a) hb
  set k := 10 * a / b with hk
  set r := 10 * a % b with hr
  have hk0 : 0 ≤ k := Int.ediv_nonneg (by omega) hb.le
  have hk10 : k ≤ 10 := by
    by_contra hcon
    have : b * 11 ≤ b * k := by nlinarith
    omega
  have hq : (10 : ℚ) * ((a : ℚ) / b) = k + (r : ℚ) / b := by
    field_simp
    have : ((10 * a : ℤ) : ℚ) = ((r + b * k : ℤ) : ℚ) := by rw [hdiv]
    push_cast at this
    linarith
  rcases hr0.lt_or_eq with hrpos | hrz
  · -- the exact quotient is not an integer
    have hrq1 : (1 : ℚ) ≤ r := by exact_mod_cast hrpos
    have hrq2 : (r : ℚ) ≤ b - 1 := by exact_mod_cast (by omega : r ≤ b - 1)
    have hinv : (2 : ℚ) ^ (-49 : ℤ) ≤ 1 / b := by
      rw [zpow_neg, ← one_div]
      apply one_div_le_one_div_of_le hbq
      exact_mod_cast hb49
    have hlow : (k : ℚ) + 1 / b ≤ 10 * ((a : ℚ) / b) := by
      rw [hq]
      have : (1 : ℚ) / b ≤ r / b := div_le_div_of_nonneg_right hrq1 hbq.le
      linarith
    have hupp : 10 * ((a : ℚ) / b) ≤ k + 1 - 1 / b := by
      rw [hq]
      have : (r : ℚ) / b ≤ (b - 1) / b := div_le_div_of_nonneg_right hrq2 hbq.le
      have h2 : ((b : ℚ) - 1) / b = 1 - 1 / b := by field_simp
      linarith
    have hk0q : (0 : ℚ) ≤ k := by exact_mod_cast hk0
    have hk9 : (k : ℚ) ≤ 9 := by
      have : k ≤ 9 := by
        by_contra hcon
        have hk' : k = 10 := by omega
        rw [hk'] at hdiv
        omega
      exact_mod_cast this
    have hinvpos : (0 : ℚ) < 1 / b := by positivity
    have hqpos : (0 : ℚ) < (a : ℚ) / b := by linarith
    have hqlt : (a : ℚ) / b < 2 ^ ((-1 : ℤ) + 1) := by
      norm_num
      linarith
    have he1 := abs_toFloat64_sub_le hqpos hqlt
    rw [abs_le] at he1
    have hv54 : (2 : ℚ) ^ ((-1 : ℤ) - 53) = 1 / 18014398509481984 := by norm_num
    rw [hv54] at he1
    have hppos : (0 : ℚ) < 10 * toFloat64 ((a : ℚ) / b) := by
      have := toFloat64_pos hqpos
      linarith
    have hplt : 10 * toFloat64 ((a : ℚ) / b) < 2 ^ ((3 : ℤ) + 1) := by
      norm_num
      linarith
    have he2 := abs_toFloat64_sub_le hppos hplt
    rw [abs_le] at he2
    have hv50 : (2 : ℚ) ^ ((3 : ℤ) - 53) = 1 / 1125899906842624 := by norm_num
    rw [hv50] at he2
    have hv49 : (2 : ℚ) ^ (-49 : ℤ) = 1 / 562949953421312 := by norm_num
    rw [hv49] at hinv
    rw [Int.floor_eq_iff]
    constructor <;> linarith
  · -- the exact quotient is the integer `k`
    have hrz' : (r : ℚ) = 0 := by exact_mod_cast hrz.symm
    have hab10 : (a : ℚ) / b = k / 10 := by
      rw [hrz', zero_div, add_zero] at hq
      linarith
    rw [hab10, tenths k hk0 hk10, Int.floor_intCast]

/-! ## The normalization -/

theorem foldl_updateMaxMin_fst (vals : List Int) (acc : Int × Int) :
    IsGreatest (insert acc.1 {v | v ∈ vals}) (vals.foldl updateMaxMin acc).1 := by
  induction vals generalizing acc with
  | nil => simp [IsGreatest, upperBounds]
  | cons v vs ih =>
    rw [List.foldl_cons]
    obtain ⟨hmem, hub⟩ := ih (updateMaxMin acc v)
    have hstep : (updateMaxMin acc v).1 = max acc.1 v := by
      unfold updateMaxMin
      simp only
      split_ifs with h <;> omega
    constructor
    · rcases hmem with h | h
      · rw [h, hstep]
        rcases max_choice acc.1 v with hc | hc
        · rw [hc]; exact Set.mem_insert _ _
        · rw [hc]; exact Set.mem_insert_of_mem _ (List.mem_cons_self _ _)
      · exact Set.mem_insert_of_mem _ (List.mem_cons_of_mem _ h)
    · intro x hx
      rcases hx with h | h
      · rw [h]
        exact (le_max_left _ _).trans (hstep ▸ hub (Set.mem_insert _ _))
      · rcases List.mem_cons.mp h with h' | h'
        · rw [h']
          exact (le_max_right _ _).trans (hstep ▸ hub (Set.mem_insert _ _))
        · exact hub (Set.mem_insert_of_mem _ h')

theorem foldl_updateMaxMin_snd (vals : List Int) (acc : Int × Int) :
    IsLeast (insert acc.2 {v | v ∈ vals}) (vals.foldl updateMaxMin acc).2 := by
  induction vals generalizing acc with
  | nil => simp [IsLeast, lowerBounds]
  | cons v vs ih =>
    rw [List.foldl_cons]
    obtain ⟨hmem, hlb⟩ := ih (updateMaxMin acc v)
    have hstep : (updateMaxMin acc v).2 = min acc.2 v := by
      unfold updateMaxMin
      simp only
      split_ifs with h <;> omega
    constructor
    · rcases hmem with h | h
      · rw [h, hstep]
        rcases min_choice acc.2 v with hc | hc
        · rw [hc]; exact Set.mem_insert _ _
        · rw [hc]; exact Set.mem_insert_of_mem _ (List.mem_cons_self _ _)
      · exact Set.mem_insert_of_mem _ (List.mem_cons_of_mem _ h)
    · intro x hx
      rcases hx with h | h
      · rw [h]
        exact (hstep ▸ hlb (Set.mem_insert _ _) : _ ≤ min acc.2 v).trans (min_le_left _ _)
      · rcases List.mem_cons.mp h with h' | h'
        · rw [h']
          exact (hstep ▸ hlb (Set.mem_insert _ _) : _ ≤ min acc.2 v).trans (min_le_right _ _)
        · exact hlb (Set.mem_insert_of_mem _ h')

theorem countsMaxMin_eq (pm : podAffinityPriorityMap) (nodes : List Node) :
    countsMaxMin pm nodes = (counterValues pm nodes).foldl updateMaxMin (0, 0) := by
  unfold countsMaxMin counterValues
  generalize ((0, 0) : Int × Int) = acc
  induction nodes generalizing acc with
  | nil => rfl
  | cons n ns ih =>
    rw [List.foldl_cons, ih]
    cases h : pm.counts n.Name <;> simp [List.filterMap_cons, h]

theorem precomputedMaxMin_eq (nodeScore : List (String × Int)) (nodes : List Node) :
    precomputedMaxMin nodeScore nodes
      = (precomputedValues nodeScore nodes).foldl updateMaxMin (0, 0) := by
  unfold precomputedMaxMin precomputedValues
  rw [List.foldl_map]

theorem countsMaxMin_fst (pm : podAffinityPriorityMap) (nodes : List Node) :
    IsGreatest (insert 0 {v | v ∈ counterValues pm nodes}) (countsMaxMin pm nodes).1 := by
  rw [countsMaxMin_eq]
  exact foldl_updateMaxMin_fst _ _

theorem countsMaxMin_snd (pm : podAffinityPriorityMap) (nodes : List Node) :
    IsLeast (insert 0 {v | v ∈ counterValues pm nodes}) (countsMaxMin pm nodes).2 := by
  rw [countsMaxMin_eq]
  exact foldl_updateMaxMin_snd _ _

theorem precomputedMaxMin_fst (nodeScore : List (String × Int)) (nodes : List Node) :
    IsGreatest (insert 0 {v | v ∈ precomputedValues nodeScore nodes})
      (precomputedMaxMin nodeScore nodes).1 := by
  rw [precomputedMaxMin_eq]
  exact foldl_updateMaxMin_fst _ _

theorem precomputedMaxMin_snd (nodeScore : List (String × Int)) (nodes : List Node) :
    IsLeast (insert 0 {v | v ∈ precomputedValues nodeScore nodes})
      (precomputedMaxMin nodeScore nodes).2 := by
  rw [precomputedMaxMin_eq]
  exact foldl_updateMaxMin_snd _ _

theorem f64toInt_zero : f64toInt 0 = 0 := by simp [f64toInt]

/-- The score expression for a counter between `minCount` and `maxCount`, when the
difference of the two is positive as an `int64`. -/
theorem scaledScore_of_between {c M m : Int} (hm : isInt64 m) (hM : isInt64 M)
    (hc1 : m ≤ c) (hc2 : c ≤ M) (hd : wrap64 (M - m) > 0) :
    scaledScore c M m
        = ⌊toFloat64 (10 * toFloat64
            (toFloat64 ((c - m : ℤ) : ℚ) / toFloat64 ((M - m : ℤ) : ℚ)))⌋
      ∧ 0 ≤ scaledScore c M m ∧ scaledScore c M m ≤ 10 := by
  have hMm : wrap64 (M - m) = M - m := by
    unfold isInt64 at hm hM
    unfold wrap64 at hd ⊢
    omega
  have hcm : wrap64 (c - m) = c - m := by
    unfold isInt64 at hm hM
    rw [hMm] at hd
    unfold wrap64 at hMm ⊢
    omega
  rw [hMm] at hd
  obtain ⟨hp0, hp10⟩ := product_bounds (a := c - m) (b := M - m) (by omega) (by omega) hd
  have heq : scaledScore c M m = ⌊toFloat64 (10 * toFloat64
      (toFloat64 ((c - m : ℤ) : ℚ) / toFloat64 ((M - m : ℤ) : ℚ)))⌋ := by
    simp only [scaledScore, f64toInt, f64mul, f64div, MaxPriority, hMm, hcm]
    norm_num [toFloat64_ten]
    intro hneg
    push_cast at hp0
    linarith
  refine ⟨heq, ?_, ?_⟩
  · rw [heq]
    exact Int.floor_nonneg.mpr hp0
  · rw [heq]
    calc _ ≤ ⌊((10 : ℤ) : ℚ)⌋ := Int.floor_mono (by exact_mod_cast hp10)
      _ = 10 := Int.floor_intCast 10

/-! ## The accumulator under additions -/

theorem Shifted.refl (p : podAffinityPriorityMap) : Shifted p p (fun _ => 0) where
  nodes_eq := rfl
  none_of_none := fun _ h => h
  some_of_some := fun _ c h => ⟨c, h⟩
  int64 := fun h => h
  error_mono := fun h => h
  counts_eq := fun hw s c h => by
    rw [h, Int.add_zero, wrap64_of_isInt64 (hw s c h)]

theorem Shifted.trans {p p' p'' : podAffinityPriorityMap} {d d' : String → Int}
    (h : Shifted p p' d) (h' : Shifted p' p'' d') : Shifted p p'' (fun s => d s + d' s) where
  nodes_eq := h'.nodes_eq.trans h.nodes_eq
  none_of_none := fun s hs => h'.none_of_none s (h.none_of_none s hs)
  some_of_some := fun s c hs => by
    obtain ⟨c', hc'⟩ := h.some_of_some s c hs
    exact h'.some_of_some s c' hc'
  int64 := fun hw => h'.int64 (h.int64 hw)
  error_mono := fun he => h'.error_mono (h.error_mono he)
  counts_eq := fun hw s c hs => by
    rw [h'.counts_eq (h.int64 hw) s _ (h.counts_eq hw s c hs), wrap64_add_wrap64,
      Int.add_assoc]

theorem Shifted.congr {p p' : podAffinityPriorityMap} {d d' : String → Int}
    (h : Shifted p p' d) (hd : ∀ s, d s = d' s) : Shifted p p' d' := by
  have : d = d' := funext hd
  rwa [← this]

theorem shifted_setError (p : podAffinityPriorityMap) (err : Error) :
    Shifted p (p.setError err) (fun _ => 0) := by
  have hcounts : (p.setError err).counts = p.counts := by
    unfold podAffinityPriorityMap.setError
    split_ifs <;> rfl
  have hnodes : (p.setError err).nodes = p.nodes := by
    unfold podAffinityPriorityMap.setError
    split_ifs <;> rfl
  exact
    { nodes_eq := hnodes
      none_of_none := fun s hs => by rw [hcounts]; exact hs
      some_of_some := fun s c hs => ⟨c, by rw [hcounts]; exact hs⟩
      int64 := fun hw s c hs => hw s c (by rw [← hcounts]; exact hs)
      error_mono := fun he => by
        unfold podAffinityPriorityMap.setError
        split_ifs with h
        · simp
        · exact he
      counts_eq := fun hw s c hs => by
        rw [hcounts, hs, Int.add_zero, wrap64_of_isInt64 (hw s c hs)] }

theorem shifted_add {p p' : podAffinityPriorityMap} {name : String} {weight : Int}
    (h : p.add name weight = some p') :
    Shifted p p' (fun s => if name = s then weight else 0) := by
  unfold podAffinityPriorityMap.add at h
  cases hc : p.counts name with
  | none => simp [hc] at h
  | some c0 =>
    simp only [hc, Option.some.injEq] at h
    subst h
    exact
      { nodes_eq := rfl
        none_of_none := fun s hs => by
          by_cases hsn : s = name
          · subst hsn; simp [hc] at hs
          · simp [hsn, hs]
        some_of_some := fun s c hs => by
          by_cases hsn : s = name
          · exact ⟨wrap64 (c0 + weight), by simp [hsn]⟩
          · exact ⟨c, by simp [hsn, hs]⟩
        int64 := fun hw s c hs => by
          by_cases hsn : s = name
          · simp only [hsn, if_true, Option.some.injEq] at hs
            rw [← hs]
            exact isInt64_wrap64 _
          · simp only [hsn, if_false] at hs
            exact hw s c hs
        error_mono := fun he => he
        counts_eq := fun hw s c hs => by
          by_cases hsn : s = name
          · subst hsn
            rw [hc] at hs
            simp only [Option.some.injEq] at hs
            simp [hs]
          · have hns : ¬ name = s := fun e => hsn e.symm
            simp only [hsn, hns, if_false, Int.add_zero]
            rw [hs, wrap64_of_isInt64 (hw s c hs)] }

theorem shifted_foldlM {α : Type} (nodes : List Node)
    (f : podAffinityPriorityMap → α → Option podAffinityPriorityMap) (g : α → String → Int)
    (hf : ∀ p x p', p.nodes = nodes → f p x = some p' → Shifted p p' (g x)) :
    ∀ (xs : List α) (p p' : podAffinityPriorityMap), p.nodes = nodes →
      xs.foldlM f p = some p' → Shifted p p' (fun s => (xs.map (fun x => g x s)).sum) := by
  intro xs
  induction xs with
  | nil =>
    intro p p' _ h
    simp only [List.foldlM_nil, Option.pure_def, Option.some.injEq] at h
    subst h
    simpa using Shifted.refl p
  | cons x xs ih =>
    intro p p' hp h
    simp only [List.foldlM_cons, Option.bind_eq_bind, Option.bind_eq_some] at h
    obtain ⟨q, hq, hrest⟩ := h
    have h1 := hf p x q hp hq
    have h2 := ih q p' (h1.nodes_eq.trans hp) hrest
    exact (h1.trans h2).congr (fun s => by simp)

/-! ## The effect of the scan on the counters -/

theorem shifted_processTerm {p p' : podAffinityPriorityMap} {term : PodAffinityTerm}
    {podDefiningAffinityTerm podToCheck : Pod} {fixedNode : Node} {weight : Int}
    (h : p.processTerm term podDefiningAffinityTerm podToCheck fixedNode weight = some p') :
    Shifted p p' (termDelta p.nodes term podDefiningAffinityTerm podToCheck fixedNode weight) := by
  unfold podAffinityPriorityMap.processTerm at h
  cases hsel : LabelSelectorAsSelector term.LabelSelector with
  | error err =>
    simp only [hsel, Option.some.injEq] at h
    subst h
    exact (shifted_setError p err).congr (fun s => by simp [termDelta, termMatches, hsel])
  | ok selector =>
    simp only [hsel] at h
    by_cases hm : PodMatchesTermsNamespaceAndSelector podToCheck
        (GetNamespacesFromPodAffinityTerm podDefiningAffinityTerm term) selector = true
    · rw [if_pos hm] at h
      have hfold := shifted_foldlM p.nodes
        (fun acc node =>
          if NodesHaveSameTopologyKey node fixedNode term.TopologyKey = true then
            acc.add node.Name weight
          else some acc)
        (fun node s =>
          if node.Name = s ∧ NodesHaveSameTopologyKey node fixedNode term.TopologyKey = true
          then weight else 0)
        (by
          intro q node q' _ hq
          beta_reduce at hq
          by_cases ht : NodesHaveSameTopologyKey node fixedNode term.TopologyKey = true
          · rw [if_pos ht] at hq
            exact (shifted_add hq).congr (fun s => by simp [ht])
          · rw [if_neg ht] at hq
            simp only [Option.some.injEq] at hq
            subst hq
            exact (Shifted.refl q).congr (fun s => by simp [ht]))
        p.nodes p p' rfl h
      exact hfold.congr (fun s => by simp [termDelta, termMatches, hsel, hm])
    · rw [if_neg hm] at h
      simp only [Option.some.injEq] at h
      subst h
      exact (Shifted.refl p).congr (fun s => by simp [termDelta, termMatches, hsel, hm])

theorem shifted_processTerms {p p' : podAffinityPriorityMap}
    {terms : List WeightedPodAffinityTerm} {podDefiningAffinityTerm podToCheck : Pod}
    {fixedNode : Node} {multiplier : Int}
    (h : p.processTerms terms podDefiningAffinityTerm podToCheck fixedNode multiplier = some p') :
    Shifted p p'
      (termsDelta p.nodes terms podDefiningAffinityTerm podToCheck fixedNode multiplier) := by
  unfold termsDelta
  exact shifted_foldlM p.nodes _
    (fun (t : WeightedPodAffinityTerm) s => termDelta p.nodes t.PodAffinityTerm podDefiningAffinityTerm podToCheck fixedNode
      (wrap32 (t.Weight * wrap32 multiplier)) s)
    (fun q t q' hq hstep => by
      have := shifted_processTerm hstep
      rwa [hq] at this)
    terms p p' rfl h

theorem shifted_processHardTerms {p p' : podAffinityPriorityMap} {terms : List PodAffinityTerm}
    {existingPod pod : Pod} {existingPodNode : Node} {weight : Int}
    (h : processHardTerms p terms existingPod pod existingPodNode weight = some p') :
    Shifted p p' (hardTermsDelta p.nodes terms existingPod pod existingPodNode weight) := by
  unfold hardTermsDelta
  exact shifted_foldlM p.nodes _
    (fun (t : PodAffinityTerm) s => termDelta p.nodes t existingPod pod existingPodNode weight s)
    (fun q t q' hq hstep => by
      have := shifted_processTerm hstep
      rwa [hq] at this)
    terms p p' rfl h

theorem processTerms_nil (p : podAffinityPriorityMap) (d c : Pod) (fixedNode : Node)
    (multiplier : Int) : p.processTerms [] d c fixedNode multiplier = some p := rfl

theorem processHardTerms_nil (p : podAffinityPriorityMap) (d c : Pod) (fixedNode : Node)
    (weight : Int) : processHardTerms p [] d c fixedNode weight = some p := rfl

theorem processIncomingTerms_eq (pod : Pod) (pm : podAffinityPriorityMap) (e : Pod)
    (eNode : Node) :
    processIncomingTerms pod pm e eNode
      = (pm.processTerms (preferredAffinityTerms pod) pod e eNode 1).bind
          (fun pm => pm.processTerms (preferredAntiAffinityTerms pod) pod e eNode (-1)) := by
  unfold processIncomingTerms preferredAffinityTerms preferredAntiAffinityTerms
  cases podAffinityOf pod <;> cases podAntiAffinityOf pod <;>
    simp [processTerms_nil]

theorem processExistingTerms_eq (ipa : InterPodAffinity) (pod : Pod)
    (pm : podAffinityPriorityMap) (e : Pod) (eNode : Node) :
    processExistingTerms ipa pod pm e eNode
      = ((if ipa.hardPodAffinityWeight > 0 then
            processHardTerms pm (requiredAffinityTerms e) e pod eNode ipa.hardPodAffinityWeight
          else some pm).bind
          (fun pm => pm.processTerms (preferredAffinityTerms e) e pod eNode 1)).bind
          (fun pm => pm.processTerms (preferredAntiAffinityTerms e) e pod eNode (-1)) := by
  unfold processExistingTerms preferredAffinityTerms preferredAntiAffinityTerms
    requiredAffinityTerms
  cases podAffinityOf e <;> cases podAntiAffinityOf e <;>
    simp [processTerms_nil, processHardTerms_nil]

theorem shifted_processIncomingTerms {pod e : Pod} {pm pm' : podAffinityPriorityMap}
    {eNode : Node} (h : processIncomingTerms pod pm e eNode = some pm') :
    Shifted pm pm' (incomingDelta pod pm.nodes e eNode) := by
  rw [processIncomingTerms_eq, Option.bind_eq_some] at h
  obtain ⟨q, h1, h2⟩ := h
  have s1 := shifted_processTerms h1
  have s2 := shifted_processTerms h2
  rw [s1.nodes_eq] at s2
  exact (s1.trans s2).congr (fun s => rfl)

theorem shifted_processExistingTerms {ipa : InterPodAffinity} {pod e : Pod}
    {pm pm' : podAffinityPriorityMap} {eNode : Node}
    (h : processExistingTerms ipa pod pm e eNode = some pm') :
    Shifted pm pm' (existingDelta ipa pod pm.nodes e eNode) := by
  rw [processExistingTerms_eq, Option.bind_eq_some] at h
  obtain ⟨q2, h12, h3⟩ := h
  rw [Option.bind_eq_some] at h12
  obtain ⟨q1, h1, h2⟩ := h12
  have s1 : Shifted pm q1 (fun s =>
      if ipa.hardPodAffinityWeight > 0 then
        hardTermsDelta pm.nodes (requiredAffinityTerms e) e pod eNode ipa.hardPodAffinityWeight s
      else 0) := by
    by_cases hw : ipa.hardPodAffinityWeight > 0
    · rw [if_pos hw] at h1
      exact (shifted_processHardTerms h1).congr (fun s => by simp [hw])
    · rw [if_neg hw] at h1
      simp only [Option.some.injEq] at h1
      subst h1
      exact (Shifted.refl pm).congr (fun s => by simp [hw])
  have s2 := shifted_processTerms h2
  have s3 := shifted_processTerms h3
  rw [s2.nodes_eq, s1.nodes_eq] at s3
  rw [s1.nodes_eq] at s2
  exact ((s1.trans s2).trans s3).congr (fun s => rfl)

theorem shifted_processPodStep {ipa : InterPodAffinity} {pod e : Pod}
    {pm pm' : podAffinityPriorityMap} (h : processPodStep ipa pod pm e = some pm') :
    Shifted pm pm' (podDelta ipa pod pm.nodes e) := by
  unfold processPodStep processPod at h
  cases hinfo : ipa.info e.NodeName with
  | error err =>
    simp only [hinfo] at h
    by_cases hnf : err.IsNotFound = true
    · simp only [hnf, if_true, Option.some.injEq] at h
      subst h
      exact (Shifted.refl pm).congr (fun s => by simp [podDelta, hinfo])
    · simp only [hnf, Option.some.injEq] at h
      simp at h
      subst h
      exact (shifted_setError pm err).congr (fun s => by simp [podDelta, hinfo])
  | ok eNode =>
    simp only [hinfo] at h
    cases h1 : processIncomingTerms pod pm e eNode with
    | none => simp [h1] at h
    | some q1 =>
      cases h2 : processExistingTerms ipa pod q1 e eNode with
      | none => simp [h1, h2] at h
      | some q2 =>
        simp [h1, h2] at h
        subst h
        have s1 := shifted_processIncomingTerms h1
        have s2 := shifted_processExistingTerms h2
        rw [s1.nodes_eq] at s2
        exact (s1.trans s2).congr (fun s => by simp [podDelta, hinfo])

theorem shifted_processNode {ipa : InterPodAffinity} {pod : Pod}
    {nodeNameToInfo : List (String × NodeInfo)} {pm pm' : podAffinityPriorityMap}
    {name : String} (h : processNode ipa pod nodeNameToInfo pm name = some pm') :
    Shifted pm pm' (fun s =>
      ((nodePods pod nodeNameToInfo name).map (fun e => podDelta ipa pod pm.nodes e s)).sum) := by
  unfold processNode at h
  unfold nodePods
  cases hl : nodeNameToInfo.lookup name with
  | none =>
    simp only [hl, Option.some.injEq] at h
    subst h
    simpa using Shifted.refl pm
  | some nodeInfo =>
    simp only [hl] at h
    exact shifted_foldlM pm.nodes _ (fun e s => podDelta ipa pod pm.nodes e s)
      (fun q e q' hq hstep => by
        have := shifted_processPodStep hstep
        rwa [hq] at this)
      _ pm pm' rfl h

theorem initCounts_nodes (pod : Pod) (nodeNameToInfo : List (String × NodeInfo))
    (pm : podAffinityPriorityMap) : (initCounts pod nodeNameToInfo pm).nodes = pm.nodes := by
  unfold initCounts
  generalize allNodeNames nodeNameToInfo = names
  induction names generalizing pm with
  | nil => rfl
  | cons name names ih =>
    simp only [List.foldl_cons]
    rw [ih]
    cases nodeNameToInfo.lookup name <;> simp only [] <;> split_ifs <;> rfl

theorem initCounts_firstError (pod : Pod) (nodeNameToInfo : List (String × NodeInfo))
    (pm : podAffinityPriorityMap) :
    (initCounts pod nodeNameToInfo pm).firstError = pm.firstError := by
  unfold initCounts
  generalize allNodeNames nodeNameToInfo = names
  induction names generalizing pm with
  | nil => rfl
  | cons name names ih =>
    simp only [List.foldl_cons]
    rw [ih]
    cases nodeNameToInfo.lookup name <;> simp only [] <;> split_ifs <;> rfl

theorem initCounts_counts (pod : Pod) (nodeNameToInfo : List (String × NodeInfo))
    (pm : podAffinityPriorityMap) (hpm : ∀ s c, pm.counts s = some c → c = 0) :
    ∀ s c, (initCounts pod nodeNameToInfo pm).counts s = some c → c = 0 := by
  unfold initCounts
  generalize allNodeNames nodeNameToInfo = names
  induction names generalizing pm with
  | nil => exact hpm
  | cons name names ih =>
    simp only [List.foldl_cons]
    apply ih
    intro s c
    have halloc : (pm.alloc name).counts s = some c → c = 0 := by
      unfold podAffinityPriorityMap.alloc
      by_cases hs : s = name
      · simp only [hs, if_true, Option.some.injEq]
        exact fun h => h.symm
      · simp only [hs, if_false]
        exact hpm s c
    cases nodeNameToInfo.lookup name <;> simp only [] <;> split_ifs <;>
      first | exact halloc | exact hpm s c

theorem sum_map_flatten {α : Type} (f : α → Int) (L : List (List α)) :
    (L.flatten.map f).sum = (L.map (fun l => (l.map f).sum)).sum := by
  induction L with
  | nil => rfl
  | cons l L ih =>
    simp only [List.flatten_cons, List.map_append, List.sum_append, List.map_cons, List.sum_cons, ih]

theorem shifted_scan {ipa : InterPodAffinity} {pod : Pod}
    {nodeNameToInfo : List (String × NodeInfo)} {nodes : List Node}
    {pm : podAffinityPriorityMap} (h : scan ipa pod nodeNameToInfo nodes = some pm) :
    Shifted (initCounts pod nodeNameToInfo (newPodAffinityPriorityMap nodes)) pm
      (fun s => ((scannedPods pod nodeNameToInfo).map (fun e => podDelta ipa pod nodes e s)).sum) := by
  unfold scan at h
  have hn : (initCounts pod nodeNameToInfo (newPodAffinityPriorityMap nodes)).nodes = nodes :=
    initCounts_nodes _ _ _
  have := shifted_foldlM nodes (processNode ipa pod nodeNameToInfo)
    (fun name s => ((nodePods pod nodeNameToInfo name).map (fun e => podDelta ipa pod nodes e s)).sum)
    (fun q name q' hq hstep => by
      have := shifted_processNode hstep
      rwa [hq] at this)
    _ _ pm hn h
  exact this.congr (fun s => by
    unfold scannedPods
    rw [sum_map_flatten, List.map_map]
    rfl)

/-- After the scan an allocated counter holds the sum of what the scanned pods add to its
name, in `int64` arithmetic. -/
theorem scan_counts {ipa : InterPodAffinity} {pod : Pod}
    {nodeNameToInfo : List (String × NodeInfo)} {nodes : List Node}
    {pm : podAffinityPriorityMap} (h : scan ipa pod nodeNameToInfo nodes = some pm)
    {s : String} {c : Int} (hc : pm.counts s = some c) :
    c = wrap64 (((scannedPods pod nodeNameToInfo).map
      (fun e => podDelta ipa pod nodes e s)).sum) := by
  have hs := shifted_scan h
  have h0 : ∀ s c, (initCounts pod nodeNameToInfo (newPodAffinityPriorityMap nodes)).counts s
      = some c → c = 0 :=
    initCounts_counts pod nodeNameToInfo _ (by simp [newPodAffinityPriorityMap])
  have hw : CountsInt64 (initCounts pod nodeNameToInfo (newPodAffinityPriorityMap nodes)) := by
    intro s c hsc
    rw [h0 s c hsc]
    unfold isInt64
    norm_num
  cases hi : (initCounts pod nodeNameToInfo (newPodAffinityPriorityMap nodes)).counts s with
  | none =>
    rw [hs.none_of_none s hi] at hc
    cases hc
  | some c0 =>
    have := hs.counts_eq hw s c0 hi
    rw [hc, h0 s c0 hi] at this
    simp only [Option.some.injEq, Int.zero_add] at this
    exact this

theorem scan_countsInt64 {ipa : InterPodAffinity} {pod : Pod}
    {nodeNameToInfo : List (String × NodeInfo)} {nodes : List Node}
    {pm : podAffinityPriorityMap} (h : scan ipa pod nodeNameToInfo nodes = some pm) :
    CountsInt64 pm := by
  apply (shifted_scan h).int64
  intro s c hsc
  rw [initCounts_counts pod nodeNameToInfo _ (by simp [newPodAffinityPriorityMap]) s c hsc]
  unfold isInt64
  norm_num

/-! ## Counters of nodes with distinct names -/

theorem sum_ite_name {nodes : List Node} (hnd : (nodes.map Node.Name).Nodup) {n : Node}
    (hn : n ∈ nodes) (P : Node → Prop) [DecidablePred P] (w : Int) :
    (nodes.map (fun node => if node.Name = n.Name ∧ P node then w else 0)).sum
      = if P n then w else 0 := by
  induction nodes with
  | nil => cases hn
  | cons a l ih =>
    rw [List.map_cons, List.nodup_cons] at hnd
    obtain ⟨hna, hl⟩ := hnd
    rw [List.map_cons, List.sum_cons]
    rcases List.mem_cons.mp hn with rfl | hmem
    · have hz : (l.map (fun node => if node.Name = n.Name ∧ P node then w else 0)).sum = 0 := by
        apply List.sum_eq_zero
        intro x hx
        obtain ⟨b, hb, rfl⟩ := List.mem_map.mp hx
        have : b.Name ≠ n.Name := fun e => hna (e ▸ List.mem_map_of_mem Node.Name hb)
        simp [this]
      rw [hz]
      simp
    · have hne : a.Name ≠ n.Name := fun e => hna (e ▸ List.mem_map_of_mem Node.Name hmem)
      rw [ih hl hmem]
      simp [hne]

theorem termDelta_eq {nodes : List Node} (hnd : (nodes.map Node.Name).Nodup) {n : Node}
    (hn : n ∈ nodes) (term : PodAffinityTerm) (d c : Pod) (fixedNode : Node) (w : Int) :
    termDelta nodes term d c fixedNode w n.Name
      = if termCounts term d c n fixedNode then w else 0 := by
  unfold termDelta termCounts
  by_cases hm : termMatches term d c = true
  · rw [if_pos hm, sum_ite_name hnd hn
      (fun node => NodesHaveSameTopologyKey node fixedNode term.TopologyKey = true) w]
    simp [hm]
  · simp [hm]

theorem wrap32_one : wrap32 1 = 1 := by decide

theorem wrap32_neg_one : wrap32 (-1) = -1 := by decide

theorem wrap32_mul_one {w : Int} (h : weightOk w) : wrap32 (w * wrap32 1) = w := by
  rw [wrap32_one]
  unfold weightOk at h
  unfold wrap32
  omega

theorem wrap32_mul_neg_one {w : Int} (h : weightOk w) : wrap32 (w * wrap32 (-1)) = -w := by
  rw [wrap32_neg_one]
  unfold weightOk at h
  unfold wrap32
  omega

theorem termsDelta_one {nodes : List Node} (hnd : (nodes.map Node.Name).Nodup) {n : Node}
    (hn : n ∈ nodes) (terms : List WeightedPodAffinityTerm) (d c : Pod) (fixedNode : Node)
    (hw : ∀ t ∈ terms, weightOk t.Weight) :
    termsDelta nodes terms d c fixedNode 1 n.Name = weightedSum terms d c n fixedNode := by
  unfold termsDelta weightedSum
  induction terms with
  | nil => rfl
  | cons t ts ih =>
    simp only [List.map_cons, List.sum_cons]
    rw [ih (fun t ht => hw t (List.mem_cons_of_mem _ ht)), termDelta_eq hnd hn,
      wrap32_mul_one (hw t (List.mem_cons_self _ _))]

theorem termsDelta_neg_one {nodes : List Node} (hnd : (nodes.map Node.Name).Nodup) {n : Node}
    (hn : n ∈ nodes) (terms : List WeightedPodAffinityTerm) (d c : Pod) (fixedNode : Node)
    (hw : ∀ t ∈ terms, weightOk t.Weight) :
    termsDelta nodes terms d c fixedNode (-1) n.Name = -weightedSum terms d c n fixedNode := by
  unfold termsDelta weightedSum
  induction terms with
  | nil => rfl
  | cons t ts ih =>
    simp only [List.map_cons, List.sum_cons]
    rw [ih (fun t ht => hw t (List.mem_cons_of_mem _ ht)), termDelta_eq hnd hn,
      wrap32_mul_neg_one (hw t (List.mem_cons_self _ _))]
    split_ifs <;> ring

theorem hardTermsDelta_eq {nodes : List Node} (hnd : (nodes.map Node.Name).Nodup) {n : Node}
    (hn : n ∈ nodes) (terms : List PodAffinityTerm) (d c : Pod) (fixedNode : Node) (w : Int) :
    hardTermsDelta nodes terms d c fixedNode w n.Name
      = w * countingTerms terms d c n fixedNode := by
  unfold hardTermsDelta countingTerms
  induction terms with
  | nil => simp
  | cons t ts ih =>
    simp only [List.map_cons, List.sum_cons]
    rw [ih, termDelta_eq hnd hn]
    split_ifs <;> ring

theorem podDelta_eq {nodes : List Node} (hnd : (nodes.map Node.Name).Nodup) {n : Node}
    (hn : n ∈ nodes) (ipa : InterPodAffinity) (pod e : Pod) (hw : weightsOk pod)
    (hwe : weightsOk e) : podDelta ipa pod nodes e n.Name = podContribution ipa pod e n := by
  unfold podDelta podContribution
  cases ipa.info e.NodeName with
  | error err => rfl
  | ok eNode =>
    simp only [incomingDelta, existingDelta, contribution]
    rw [termsDelta_one hnd hn _ _ _ _ hw.1, termsDelta_neg_one hnd hn _ _ _ _ hw.2,
      termsDelta_one hnd hn _ _ _ _ hwe.1, termsDelta_neg_one hnd hn _ _ _ _ hwe.2,
      hardTermsDelta_eq hnd hn]
    split_ifs <;> ring

/-! ## The raw counters after the scan -/

/-- C1: on the pairwise-scan path, when the scan finishes (in particular with no recorded
error), the raw counter of every candidate node that has an allocated counter is the
(`int64`) sum, over the scanned existing pods whose node lookup succeeds, of the
contributions of the pod: the weights of the matching preferred affinity terms of the
incoming pod, minus those of its matching preferred anti-affinity terms, plus
`hardPodAffinityWeight` (when positive) for each matching required affinity term of the
existing pod, plus and minus the weights of the matching preferred affinity and
anti-affinity terms of the existing pod, a term being counted for the node only when the
node shares the value of the topology key with the existing pod's node. The candidate nodes
have distinct names and the weights are `int32` values other than the least one. -/
theorem scan_raw_counter (ipa : InterPodAffinity) (pod : Pod)
    (nodeNameToInfo : List (String × NodeInfo)) (nodes : List Node)
    (pm : podAffinityPriorityMap) (hscan : scan ipa pod nodeNameToInfo nodes = some pm)
    (hnd : (nodes.map Node.Name).Nodup)
    (hw : weightsOk pod) (hwe : ∀ e ∈ scannedPods pod nodeNameToInfo, weightsOk e)
    (n : Node) (hn : n ∈ nodes) (c : Int) (hc : pm.counts n.Name = some c) :
    c = wrap64 (expectedCount ipa pod nodeNameToInfo n)
      ∧ (isInt64 (expectedCount ipa pod nodeNameToInfo n)
          → c = expectedCount ipa pod nodeNameToInfo n) := by
  have hsum : ((scannedPods pod nodeNameToInfo).map (fun e => podDelta ipa pod nodes e n.Name)).sum
      = expectedCount ipa pod nodeNameToInfo n := by
    unfold expectedCount
    congr 1
    apply List.map_congr_left
    intro e he
    exact podDelta_eq hnd hn ipa pod e hw (hwe e he)
  have hc' := scan_counts hscan hc
  rw [hsum] at hc'
  exact ⟨hc', fun hi => hc'.trans (wrap64_of_isInt64 hi)⟩

/-! ## The result list -/

theorem calculate_precomputed (ipa : InterPodAffinity) {nodeScore : List (String × Int)}
    (pod : Pod) (nodeNameToInfo : List (String × NodeInfo)) (nodes : List Node)
    (h : nodeScore.length > 0) :
    CalculateInterPodAffinityPriority ipa nodeScore pod nodeNameToInfo nodes
      = some (.ok (precomputedScores nodeScore nodes)) := by
  unfold CalculateInterPodAffinityPriority
  rw [if_pos h]

theorem calculate_scan {ipa : InterPodAffinity} {pod : Pod}
    {nodeNameToInfo : List (String × NodeInfo)} {nodes : List Node}
    {pm : podAffinityPriorityMap} (hscan : scan ipa pod nodeNameToInfo nodes = some pm) :
    CalculateInterPodAffinityPriority ipa [] pod nodeNameToInfo nodes
      = match pm.firstError with
        | some err => some (.error err)
        | none => some (.ok (countsScores pm nodes)) := by
  unfold CalculateInterPodAffinityPriority
  simp [hscan]

theorem calculate_cases {ipa : InterPodAffinity} {nodeScore : List (String × Int)} {pod : Pod}
    {nodeNameToInfo : List (String × NodeInfo)} {nodes : List Node} {l : List HostPriority}
    (h : CalculateInterPodAffinityPriority ipa nodeScore pod nodeNameToInfo nodes = some (.ok l)) :
    (nodeScore.length > 0 ∧ l = precomputedScores nodeScore nodes)
      ∨ (nodeScore.length = 0 ∧ ∃ pm, scan ipa pod nodeNameToInfo nodes = some pm
          ∧ pm.firstError = none ∧ l = countsScores pm nodes) := by
  unfold CalculateInterPodAffinityPriority at h
  by_cases hlen : nodeScore.length > 0
  · left
    rw [if_pos hlen] at h
    simp only [Option.some.injEq, Except.ok.injEq] at h
    exact ⟨hlen, h.symm⟩
  · right
    rw [if_neg hlen] at h
    refine ⟨by omega, ?_⟩
    cases hs : scan ipa pod nodeNameToInfo nodes with
    | none => simp [hs] at h
    | some pm =>
      simp only [hs] at h
      cases he : pm.firstError with
      | some err => simp [he] at h
      | none =>
        simp only [he, Option.some.injEq, Except.ok.injEq] at h
        exact ⟨pm, rfl, he, h.symm⟩

theorem mem_counterValues {pm : podAffinityPriorityMap} {nodes : List Node} {n : Node}
    (hn : n ∈ nodes) {c : Int} (hc : pm.counts n.Name = some c) :
    c ∈ counterValues pm nodes :=
  List.mem_filterMap.mpr ⟨n, hn, hc⟩

theorem isInt64_of_mem_counterValues {pm : podAffinityPriorityMap} (hpm : CountsInt64 pm)
    {nodes : List Node} {v : Int} (hv : v ∈ counterValues pm nodes) : isInt64 v := by
  obtain ⟨n, _, hc⟩ := List.mem_filterMap.mp hv
  exact hpm _ _ hc

theorem isInt64_zero : isInt64 0 := by
  unfold isInt64
  norm_num

theorem isInt64_of_mem_insert {S : List Int} (hS : ∀ v ∈ S, isInt64 v) {x : Int}
    (hx : x ∈ insert (0 : Int) {v | v ∈ S}) : isInt64 x := by
  rcases hx with h | h
  · rw [h]
    exact isInt64_zero
  · exact hS x h

theorem isInt64_nodeScoreOf {nodeScore : List (String × Int)}
    (hns : ∀ kv ∈ nodeScore, isInt64 kv.2) (name : String) :
    isInt64 (nodeScoreOf nodeScore name) := by
  unfold nodeScoreOf
  induction nodeScore with
  | nil => exact isInt64_zero
  | cons kv rest ih =>
    obtain ⟨k, v⟩ := kv
    rw [List.lookup_cons]
    cases hk : name == k with
    | true => exact hns (k, v) (List.mem_cons_self _ _)
    | false => exact ih (fun kv hkv => hns kv (List.mem_cons_of_mem _ hkv))

/-- C5: on either path, every score of a returned list is an integer from `0` to
`MaxPriority` (10), also when the `int64` subtraction `maxCount - minCount` wraps around.
The values of the precomputed map are `int64` values. -/
theorem score_in_range (ipa : InterPodAffinity) (nodeScore : List (String × Int)) (pod : Pod)
    (nodeNameToInfo : List (String × NodeInfo)) (nodes : List Node) (l : List HostPriority)
    (hns : ∀ kv ∈ nodeScore, isInt64 kv.2)
    (h : CalculateInterPodAffinityPriority ipa nodeScore pod nodeNameToInfo nodes
      = some (.ok l)) :
    ∀ hp ∈ l, 0 ≤ hp.Score ∧ hp.Score ≤ MaxPriority := by
  intro hp hmem
  rcases calculate_cases h with ⟨_, hl⟩ | ⟨_, pm, hscan, _, hl⟩
  · rw [hl] at hmem
    unfold precomputedScores at hmem
    obtain ⟨n, hn, rfl⟩ := List.mem_map.mp hmem
    simp only
    have hvals : ∀ v ∈ precomputedValues nodeScore nodes, isInt64 v := by
      intro v hv
      obtain ⟨n', _, rfl⟩ := List.mem_map.mp hv
      exact isInt64_nodeScoreOf hns _
    have hM := precomputedMaxMin_fst nodeScore nodes
    have hm := precomputedMaxMin_snd nodeScore nodes
    have hv0 : nodeScoreOf nodeScore n.Name ∈ precomputedValues nodeScore nodes :=
      List.mem_map.mpr ⟨n, hn, rfl⟩
    have hv : nodeScoreOf nodeScore n.Name
        ∈ insert (0 : Int) {v | v ∈ precomputedValues nodeScore nodes} :=
      Set.mem_insert_of_mem _ hv0
    split_ifs with hd
    · have := scaledScore_of_between (isInt64_of_mem_insert hvals hm.1)
        (isInt64_of_mem_insert hvals hM.1) (hm.2 hv) (hM.2 hv) hd
      exact ⟨this.2.1, this.2.2⟩
    · rw [f64toInt_zero]
      decide
  · rw [hl] at hmem
    unfold countsScores at hmem
    obtain ⟨n, hn, rfl⟩ := List.mem_map.mp hmem
    simp only
    have hpm := scan_countsInt64 hscan
    have hvals : ∀ v ∈ counterValues pm nodes, isInt64 v :=
      fun v hv => isInt64_of_mem_counterValues hpm hv
    have hM := countsMaxMin_fst pm nodes
    have hm := countsMaxMin_snd pm nodes
    cases hc : pm.counts n.Name with
    | none =>
      simp only
      rw [f64toInt_zero]
      decide
    | some c =>
      simp only
      have hv : c ∈ insert (0 : Int) {v | v ∈ counterValues pm nodes} :=
        Set.mem_insert_of_mem _ (mem_counterValues hn hc)
      split_ifs with hd
      · have := scaledScore_of_between (isInt64_of_mem_insert hvals hm.1)
          (isInt64_of_mem_insert hvals hM.1) (hm.2 hv) (hM.2 hv) hd
        exact ⟨this.2.1, this.2.2⟩
      · rw [f64toInt_zero]
        decide

/-- C6: a list returned without error has one entry for every node of the input slice,
with the name of that node, in the order of the slice. -/
theorem result_hosts (ipa : InterPodAffinity) (nodeScore : List (String × Int)) (pod : Pod)
    (nodeNameToInfo : List (String × NodeInfo)) (nodes : List Node) (l : List HostPriority)
    (h : CalculateInterPodAffinityPriority ipa nodeScore pod nodeNameToInfo nodes
      = some (.ok l)) :
    l.length = nodes.length ∧ l.map HostPriority.Host = nodes.map Node.Name := by
  rcases calculate_cases h with ⟨_, hl⟩ | ⟨_, pm, _, _, hl⟩
  · rw [hl]
    unfold precomputedScores
    simp [List.map_map, Function.comp_def]
  · rw [hl]
    unfold countsScores
    simp [List.map_map, Function.comp_def]

/-! ## Scores of the scan path -/

theorem scaledScore_exact {c M m : Int} (hm : isInt64 m) (hM : isInt64 M) (hc1 : m ≤ c)
    (hc2 : c ≤ M) (hpos : 0 < M - m) (hb : M - m ≤ 2 ^ 49) :
    scaledScore c M m = MaxPriority * (c - m) / (M - m) := by
  have hd : wrap64 (M - m) > 0 := by
    unfold wrap64
    omega
  rw [(scaledScore_of_between hm hM hc1 hc2 hd).1,
    floor_scaled (a := c - m) (b := M - m) (by omega) (by omega) hpos hb]
  rfl

theorem scaledScore_min {M m : Int} (hm : isInt64 m) (hM : isInt64 M)
    (hd : wrap64 (M - m) > 0) (hle : m ≤ M) : scaledScore m M m = 0 := by
  rw [(scaledScore_of_between hm hM le_rfl hle hd).1]
  simp [toFloat64_zero]

theorem scaledScore_max {M m : Int} (hm : isInt64 m) (hM : isInt64 M)
    (hd : wrap64 (M - m) > 0) (hle : m ≤ M) : scaledScore M M m = 10 := by
  rw [(scaledScore_of_between hm hM hle le_rfl hd).1]
  have hpos : 0 < M - m := by
    unfold isInt64 at hm hM
    unfold wrap64 at hd
    omega
  have hq : (0 : ℚ) < ((M - m : ℤ) : ℚ) := by exact_mod_cast hpos
  have hf := toFloat64_pos hq
  rw [div_self hf.ne', toFloat64_one, mul_one, toFloat64_ten]
  exact Int.floor_intCast 10

theorem firstError_of_calculate {ipa : InterPodAffinity} {pod : Pod}
    {nodeNameToInfo : List (String × NodeInfo)} {nodes : List Node}
    {pm : podAffinityPriorityMap} {l : List HostPriority}
    (hscan : scan ipa pod nodeNameToInfo nodes = some pm)
    (hl : CalculateInterPodAffinityPriority ipa [] pod nodeNameToInfo nodes = some (.ok l)) :
    pm.firstError = none ∧ l = countsScores pm nodes := by
  rw [calculate_scan hscan] at hl
  cases he : pm.firstError with
  | some err => simp [he] at hl
  | none =>
    simp only [he, Option.some.injEq, Except.ok.injEq] at hl
    exact ⟨rfl, hl.symm⟩

/-- C3 (amended): on the scan path, when the scan finishes without error and `M ≠ m`,
where `m` is the least and `M` the greatest among `0` and the raw counters of the candidate
nodes, the returned list gives each candidate node with an allocated counter the score
`floor(MaxPriority * (raw - m) / (M - m))` and each node without a counter the score `0`,
as long as `M - m ≤ 2 ^ 49`. -/
theorem scan_scores_floor (ipa : InterPodAffinity) (pod : Pod)
    (nodeNameToInfo : List (String × NodeInfo)) (nodes : List Node)
    (pm : podAffinityPriorityMap) (l : List HostPriority)
    (hscan : scan ipa pod nodeNameToInfo nodes = some pm)
    (hl : CalculateInterPodAffinityPriority ipa [] pod nodeNameToInfo nodes = some (.ok l))
    (M m : Int) (hM : IsGreatest (insert 0 {v | v ∈ counterValues pm nodes}) M)
    (hm : IsLeast (insert 0 {v | v ∈ counterValues pm nodes}) m) (hne : M ≠ m)
    (hb : M - m ≤ 2 ^ 49) :
    l = nodes.map (fun n =>
      { Host := n.Name
        Score := match pm.counts n.Name with
          | some c => MaxPriority * (c - m) / (M - m)
          | none => 0 }) := by
  obtain ⟨_, hl'⟩ := firstError_of_calculate hscan hl
  rw [hl']
  have hM' := (countsMaxMin_fst pm nodes).unique hM
  have hm' := (countsMaxMin_snd pm nodes).unique hm
  have hvals : ∀ v ∈ counterValues pm nodes, isInt64 v :=
    fun v hv => isInt64_of_mem_counterValues (scan_countsInt64 hscan) hv
  have hMi := isInt64_of_mem_insert hvals hM.1
  have hmi := isInt64_of_mem_insert hvals hm.1
  have hle : m ≤ M := hm.2 hM.1
  have hpos : 0 < M - m := by omega
  have hd : wrap64 (M - m) > 0 := by
    unfold wrap64
    omega
  unfold countsScores
  simp only [hM', hm']
  apply List.map_congr_left
  intro n hn
  cases hc : pm.counts n.Name with
  | none => simp [f64toInt_zero]
  | some c =>
    have hv : c ∈ insert (0 : Int) {v | v ∈ counterValues pm nodes} :=
      Set.mem_insert_of_mem _ (mem_counterValues hn hc)
    simp only [hd, if_true]
    rw [scaledScore_exact hmi hMi (hm.2 hv) (hM.2 hv) hpos hb]

theorem tie_scores_aux (ipa : InterPodAffinity) (pod : Pod)
    (nodeNameToInfo : List (String × NodeInfo)) (nodes : List Node)
    (pm : podAffinityPriorityMap) (l : List HostPriority)
    (hscan : scan ipa pod nodeNameToInfo nodes = some pm)
    (hl : CalculateInterPodAffinityPriority ipa [] pod nodeNameToInfo nodes = some (.ok l))
    (v : Int) (htie : ∀ n ∈ nodes, ∀ c, pm.counts n.Name = some c → c = v) :
    (v ≤ 0 → ∀ hp ∈ l, hp.Score = 0)
      ∧ (0 < v → l = nodes.map (fun n =>
          { Host := n.Name, Score := if (pm.counts n.Name).isSome then MaxPriority else 0 })) := by
  obtain ⟨_, hl'⟩ := firstError_of_calculate hscan hl
  have hM := countsMaxMin_fst pm nodes
  have hm := countsMaxMin_snd pm nodes
  have hvals : ∀ x ∈ counterValues pm nodes, isInt64 x :=
    fun x hx => isInt64_of_mem_counterValues (scan_countsInt64 hscan) hx
  have hMi := isInt64_of_mem_insert hvals hM.1
  have hmi := isInt64_of_mem_insert hvals hm.1
  have hall : ∀ x ∈ counterValues pm nodes, x = v := by
    intro x hx
    obtain ⟨n, hn, hc⟩ := List.mem_filterMap.mp hx
    exact htie n hn x hc
  constructor
  · intro hv hp hmem
    rw [hl'] at hmem
    unfold countsScores at hmem
    obtain ⟨n, hn, rfl⟩ := List.mem_map.mp hmem
    simp only
    cases hc : pm.counts n.Name with
    | none => simp [f64toInt_zero]
    | some c =>
      simp only
      have hcv : c = v := htie n hn c hc
      have hmem_v : v ∈ insert (0 : Int) {x | x ∈ counterValues pm nodes} :=
        Set.mem_insert_of_mem _ (hcv ▸ mem_counterValues hn hc)
      have hmv : (countsMaxMin pm nodes).2 = v := by
        apply le_antisymm (hm.2 hmem_v)
        rcases hm.1 with h0 | hx
        · rw [h0]; exact hv
        · exact (hall _ hx).ge
      split_ifs with hd
      · rw [hcv, ← hmv]
        exact scaledScore_min hmi hMi hd (hm.2 hM.1)
      · exact f64toInt_zero
  · intro hv
    rw [hl']
    unfold countsScores
    apply List.map_congr_left
    intro n hn
    cases hc : pm.counts n.Name with
    | none => simp [f64toInt_zero]
    | some c =>
      have hcv : c = v := htie n hn c hc
      have hmem_v : v ∈ insert (0 : Int) {x | x ∈ counterValues pm nodes} :=
        Set.mem_insert_of_mem _ (hcv ▸ mem_counterValues hn hc)
      have hMv : (countsMaxMin pm nodes).1 = v := by
        apply le_antisymm _ (hM.2 hmem_v)
        rcases hM.1 with h0 | hx
        · rw [h0]; exact hv.le
        · exact (hall _ hx).le
      have hm0 : (countsMaxMin pm nodes).2 = 0 := by
        apply le_antisymm (hm.2 (Set.mem_insert _ _))
        rcases hm.1 with h0 | hx
        · rw [h0]
        · rw [hall _ hx]; exact hv.le
      have hvi : isInt64 v := hcv ▸ scan_countsInt64 hscan _ _ hc
      have hd : wrap64 ((countsMaxMin pm nodes).1 - (countsMaxMin pm nodes).2) > 0 := by
        rw [hMv, hm0]
        unfold isInt64 at hvi
        unfold wrap64
        omega
      simp only [hd, if_true, Option.isSome_some]
      have := scaledScore_max hmi hMi hd (hm.2 hM.1)
      rw [hMv] at this
      rw [hcv, hMv]
      simp only [HostPriority.mk.injEq, true_and]
      exact this

/-- C4 (amended): on the scan path, when the scan finishes without error and every
candidate node with an allocated counter ends with the same raw value `v`, every returned
score is `0` if `v ≤ 0`; if `v > 0`, the nodes with a counter score `MaxPriority` and
the nodes without one score `0`. -/
theorem tie_scores (ipa : InterPodAffinity) (pod : Pod)
    (nodeNameToInfo : List (String × NodeInfo)) (nodes : List Node)
    (pm : podAffinityPriorityMap) (l : List HostPriority)
    (hscan : scan ipa pod nodeNameToInfo nodes = some pm)
    (hl : CalculateInterPodAffinityPriority ipa [] pod nodeNameToInfo nodes = some (.ok l))
    (v : Int) (htie : ∀ n ∈ nodes, ∀ c, pm.counts n.Name = some c → c = v) :
    (v ≤ 0 → ∀ hp ∈ l, hp.Score = 0)
      ∧ (0 < v → l = nodes.map (fun n =>
          { Host := n.Name, Score := if (pm.counts n.Name).isSome then MaxPriority else 0 })) :=
  tie_scores_aux ipa pod nodeNameToInfo nodes pm l hscan hl v htie

/-! ## Scans in which no term matches -/

theorem foldlM_isSome {α β : Type} (f : β → α → Option β) (xs : List α)
    (h : ∀ b, ∀ x ∈ xs, ∃ b', f b x = some b') : ∀ b, ∃ b', xs.foldlM f b = some b' := by
  induction xs with
  | nil => exact fun b => ⟨b, rfl⟩
  | cons x xs ih =>
    intro b
    obtain ⟨b1, hb1⟩ := h b x (List.mem_cons_self _ _)
    obtain ⟨b2, hb2⟩ := ih (fun b y hy => h b y (List.mem_cons_of_mem _ hy)) b1
    exact ⟨b2, by simp [List.foldlM_cons, hb1, hb2]⟩

theorem processTerm_of_not_matches (p : podAffinityPriorityMap) {term : PodAffinityTerm}
    {d c : Pod} (h : termMatches term d c = false) (fixedNode : Node) (weight : Int) :
    ∃ p', p.processTerm term d c fixedNode weight = some p' := by
  unfold termMatches at h
  unfold podAffinityPriorityMap.processTerm
  cases hsel : LabelSelectorAsSelector term.LabelSelector with
  | error err => exact ⟨_, rfl⟩
  | ok selector =>
    simp only [hsel] at h
    simp [h]

theorem processTerms_of_not_matches (p : podAffinityPriorityMap)
    {terms : List WeightedPodAffinityTerm} {d c : Pod}
    (h : ∀ t ∈ terms, termMatches t.PodAffinityTerm d c = false) (fixedNode : Node)
    (multiplier : Int) : ∃ p', p.processTerms terms d c fixedNode multiplier = some p' :=
  foldlM_isSome _ terms (fun b t ht => processTerm_of_not_matches b (h t ht) _ _) p

theorem processHardTerms_of_not_matches (p : podAffinityPriorityMap)
    {terms : List PodAffinityTerm} {d c : Pod}
    (h : ∀ t ∈ terms, termMatches t d c = false) (fixedNode : Node) (weight : Int) :
    ∃ p', processHardTerms p terms d c fixedNode weight = some p' :=
  foldlM_isSome _ terms (fun b t ht => processTerm_of_not_matches b (h t ht) _ _) p

theorem processPodStep_of_not_matches (ipa : InterPodAffinity) (pod e : Pod)
    (pm : podAffinityPriorityMap)
    (h : ∀ eNode, ipa.info e.NodeName = .ok eNode → noTermMatches ipa pod e) :
    ∃ pm', processPodStep ipa pod pm e = some pm' := by
  unfold processPodStep processPod
  cases hinfo : ipa.info e.NodeName with
  | error err => by_cases hnf : err.IsNotFound = true <;> simp [hnf]
  | ok eNode =>
    obtain ⟨h1, h2, h3, h4, h5⟩ := h eNode hinfo
    obtain ⟨q1, hq1⟩ := processTerms_of_not_matches pm h1 eNode 1
    obtain ⟨q2, hq2⟩ := processTerms_of_not_matches q1 h2 eNode (-1)
    have hq3 : ∃ q3, (if ipa.hardPodAffinityWeight > 0 then
        processHardTerms q2 (requiredAffinityTerms e) e pod eNode ipa.hardPodAffinityWeight
        else some q2) = some q3 := by
      by_cases hw : ipa.hardPodAffinityWeight > 0
      · rw [if_pos hw]
        exact processHardTerms_of_not_matches q2 (h3 hw) eNode _
      · rw [if_neg hw]
        exact ⟨q2, rfl⟩
    obtain ⟨q3, hq3⟩ := hq3
    obtain ⟨q4, hq4⟩ := processTerms_of_not_matches q3 h4 eNode 1
    obtain ⟨q5, hq5⟩ := processTerms_of_not_matches q4 h5 eNode (-1)
    refine ⟨q5, ?_⟩
    simp [processIncomingTerms_eq, processExistingTerms_eq, hq1, hq2, hq3, hq4, hq5]

theorem mem_scannedPods {pod : Pod} {nodeNameToInfo : List (String × NodeInfo)} {name : String}
    (hname : name ∈ allNodeNames nodeNameToInfo) {e : Pod}
    (he : e ∈ nodePods pod nodeNameToInfo name) : e ∈ scannedPods pod nodeNameToInfo := by
  unfold scannedPods
  exact List.mem_flatten.mpr ⟨_, List.mem_map_of_mem _ hname, he⟩

theorem processNode_eq (ipa : InterPodAffinity) (pod : Pod)
    (nodeNameToInfo : List (String × NodeInfo)) (pm : podAffinityPriorityMap) (name : String) :
    processNode ipa pod nodeNameToInfo pm name
      = (nodePods pod nodeNameToInfo name).foldlM (processPodStep ipa pod) pm := by
  unfold processNode nodePods
  cases nodeNameToInfo.lookup name <;> rfl

theorem scan_of_not_matches (ipa : InterPodAffinity) (pod : Pod)
    (nodeNameToInfo : List (String × NodeInfo)) (nodes : List Node)
    (h : ∀ e ∈ scannedPods pod nodeNameToInfo,
      ∀ eNode, ipa.info e.NodeName = .ok eNode → noTermMatches ipa pod e) :
    ∃ pm, scan ipa pod nodeNameToInfo nodes = some pm := by
  unfold scan
  apply foldlM_isSome
  intro b name hname
  rw [processNode_eq]
  apply foldlM_isSome
  intro b' e he
  exact processPodStep_of_not_matches ipa pod e b' (h e (mem_scannedPods hname he))

theorem termDelta_of_not_matches {term : PodAffinityTerm} {d c : Pod}
    (h : termMatches term d c = false) (nodes : List Node) (fixedNode : Node) (w : Int)
    (s : String) : termDelta nodes term d c fixedNode w s = 0 := by
  simp [termDelta, h]

theorem termsDelta_of_not_matches {terms : List WeightedPodAffinityTerm} {d c : Pod}
    (h : ∀ t ∈ terms, termMatches t.PodAffinityTerm d c = false) (nodes : List Node)
    (fixedNode : Node) (multiplier : Int) (s : String) :
    termsDelta nodes terms d c fixedNode multiplier s = 0 := by
  unfold termsDelta
  apply List.sum_eq_zero
  intro x hx
  obtain ⟨t, ht, rfl⟩ := List.mem_map.mp hx
  exact termDelta_of_not_matches (h t ht) _ _ _ _

theorem podDelta_of_not_matches {ipa : InterPodAffinity} {pod e : Pod}
    (h : ∀ eNode, ipa.info e.NodeName = .ok eNode → noTermMatches ipa pod e)
    (nodes : List Node) (s : String) : podDelta ipa pod nodes e s = 0 := by
  unfold podDelta
  cases hinfo : ipa.info e.NodeName with
  | error err => rfl
  | ok eNode =>
    obtain ⟨h1, h2, h3, h4, h5⟩ := h eNode hinfo
    simp only [incomingDelta, existingDelta]
    rw [termsDelta_of_not_matches h1, termsDelta_of_not_matches h2,
      termsDelta_of_not_matches h4, termsDelta_of_not_matches h5]
    by_cases hw : ipa.hardPodAffinityWeight > 0
    · rw [if_pos hw]
      have : hardTermsDelta nodes (requiredAffinityTerms e) e pod eNode
          ipa.hardPodAffinityWeight s = 0 := by
        unfold hardTermsDelta
        apply List.sum_eq_zero
        intro x hx
        obtain ⟨t, ht, rfl⟩ := List.mem_map.mp hx
        exact termDelta_of_not_matches (h3 hw t ht) _ _ _ _
      rw [this]
      rfl
    · rw [if_neg hw]
      rfl

/-- C10: on the scan path, when no processed term matches the pod it is checked against
(in particular when no pod declares affinity or anti-affinity), the scan completes and,
when it records no error, every candidate node gets the score `0`. -/
theorem zero_signal (ipa : InterPodAffinity) (pod : Pod)
    (nodeNameToInfo : List (String × NodeInfo)) (nodes : List Node)
    (h : ∀ e ∈ scannedPods pod nodeNameToInfo,
      ∀ eNode, ipa.info e.NodeName = .ok eNode → noTermMatches ipa pod e) :
    ∃ pm, scan ipa pod nodeNameToInfo nodes = some pm
      ∧ (pm.firstError = none →
          CalculateInterPodAffinityPriority ipa [] pod nodeNameToInfo nodes
            = some (.ok (nodes.map (fun n => { Host := n.Name, Score := 0 })))) := by
  obtain ⟨pm, hscan⟩ := scan_of_not_matches ipa pod nodeNameToInfo nodes h
  refine ⟨pm, hscan, fun herr => ?_⟩
  rw [calculate_scan hscan, herr]
  simp only [Option.some.injEq, Except.ok.injEq]
  have hzero : ∀ s c, pm.counts s = some c → c = 0 := by
    intro s c hc
    rw [scan_counts hscan hc]
    have : ((scannedPods pod nodeNameToInfo).map (fun e => podDelta ipa pod nodes e s)).sum = 0 := by
      apply List.sum_eq_zero
      intro x hx
      obtain ⟨e, he, rfl⟩ := List.mem_map.mp hx
      exact podDelta_of_not_matches (h e he) nodes s
    rw [this]
    decide
  have hl : CalculateInterPodAffinityPriority ipa [] pod nodeNameToInfo nodes
      = some (.ok (countsScores pm nodes)) := by
    rw [calculate_scan hscan, herr]
  have := (tie_scores_aux ipa pod nodeNameToInfo nodes pm _ hscan hl 0
    (fun n _ c hc => hzero _ c hc)).1 le_rfl
  unfold countsScores at this ⊢
  apply List.map_congr_left
  intro n hn
  have hs := this _ (List.mem_map_of_mem _ hn)
  simp only at hs
  simp only [HostPriority.mk.injEq, true_and]
  exact hs

/-! ## Selectors that cannot be parsed -/

theorem setError_firstError (p : podAffinityPriorityMap) (err : Error) :
    (p.setError err).firstError ≠ none := by
  unfold podAffinityPriorityMap.setError
  split_ifs with h
  · simp
  · exact h

theorem processTerm_unparsable {p p' : podAffinityPriorityMap} {term : PodAffinityTerm}
    (hbad : unparsable term) {d c : Pod} {fixedNode : Node} {weight : Int}
    (h : p.processTerm term d c fixedNode weight = some p') : p'.firstError ≠ none := by
  obtain ⟨err, herr⟩ := hbad
  unfold podAffinityPriorityMap.processTerm at h
  simp only [herr, Option.some.injEq] at h
  rw [← h]
  exact setError_firstError p err

theorem foldlM_firstError {α : Type}
    (f : podAffinityPriorityMap → α → Option podAffinityPriorityMap)
    (hmono : ∀ p x p', f p x = some p' → p.firstError ≠ none → p'.firstError ≠ none)
    {a : α} (hbad : ∀ p p', f p a = some p' → p'.firstError ≠ none) :
    ∀ (xs : List α) (p p' : podAffinityPriorityMap),
      xs.foldlM f p = some p' → (a ∈ xs ∨ p.firstError ≠ none) → p'.firstError ≠ none := by
  intro xs
  induction xs with
  | nil =>
    intro p p' h hx
    simp only [List.foldlM_nil, Option.pure_def, Option.some.injEq] at h
    subst h
    rcases hx with hx | hx
    · cases hx
    · exact hx
  | cons x xs ih =>
    intro p p' h hx
    simp only [List.foldlM_cons, Option.bind_eq_bind, Option.bind_eq_some] at h
    obtain ⟨q, hq, hrest⟩ := h
    apply ih q p' hrest
    rcases hx with hx | hx
    · rcases List.mem_cons.mp hx with rfl | hmem
      · exact Or.inr (hbad p q hq)
      · exact Or.inl hmem
    · exact Or.inr (hmono p x q hq hx)

theorem processTerms_unparsable {p p' : podAffinityPriorityMap}
    {terms : List WeightedPodAffinityTerm} {d c : Pod} {fixedNode : Node} {multiplier : Int}
    (h : p.processTerms terms d c fixedNode multiplier = some p')
    (hbad : ∃ t ∈ terms, unparsable t.PodAffinityTerm) : p'.firstError ≠ none := by
  obtain ⟨t, ht, hu⟩ := hbad
  unfold podAffinityPriorityMap.processTerms at h
  exact foldlM_firstError
    (fun acc (term : WeightedPodAffinityTerm) =>
      acc.processTerm term.PodAffinityTerm d c fixedNode (wrap32 (term.Weight * wrap32 multiplier)))
    (fun q x q' hq => (shifted_processTerm hq).error_mono)
    (a := t) (fun q q' hq => processTerm_unparsable hu hq) terms p p' h (Or.inl ht)

theorem processHardTerms_unparsable {p p' : podAffinityPriorityMap}
    {terms : List PodAffinityTerm} {d c : Pod} {fixedNode : Node} {weight : Int}
    (h : processHardTerms p terms d c fixedNode weight = some p')
    (hbad : ∃ t ∈ terms, unparsable t) : p'.firstError ≠ none := by
  obtain ⟨t, ht, hu⟩ := hbad
  unfold processHardTerms at h
  exact foldlM_firstError (fun acc term => acc.processTerm term d c fixedNode weight)
    (fun q x q' hq => (shifted_processTerm hq).error_mono)
    (a := t) (fun q q' hq => processTerm_unparsable hu hq) terms p p' h (Or.inl ht)

theorem processPodStep_stages {ipa : InterPodAffinity} {pod e : Pod}
    {pm pm' : podAffinityPriorityMap} {eNode : Node} (hinfo : ipa.info e.NodeName = .ok eNode)
    (h : processPodStep ipa pod pm e = some pm') :
    ∃ q1 q2 q3 q4,
      pm.processTerms (preferredAffinityTerms pod) pod e eNode 1 = some q1
      ∧ q1.processTerms (preferredAntiAffinityTerms pod) pod e eNode (-1) = some q2
      ∧ (if ipa.hardPodAffinityWeight > 0 then
            processHardTerms q2 (requiredAffinityTerms e) e pod eNode ipa.hardPodAffinityWeight
          else some q2) = some q3
      ∧ q3.processTerms (preferredAffinityTerms e) e pod eNode 1 = some q4
      ∧ q4.processTerms (preferredAntiAffinityTerms e) e pod eNode (-1) = some pm' := by
  unfold processPodStep processPod at h
  simp only [hinfo] at h
  cases h1 : processIncomingTerms pod pm e eNode with
  | none => simp [h1] at h
  | some r1 =>
    cases h2 : processExistingTerms ipa pod r1 e eNode with
    | none => simp [h1, h2] at h
    | some r2 =>
      simp [h1, h2] at h
      subst h
      rw [processIncomingTerms_eq, Option.bind_eq_some] at h1
      obtain ⟨q1, hq1, hq2⟩ := h1
      rw [processExistingTerms_eq, Option.bind_eq_some] at h2
      obtain ⟨q4, h34, hq5⟩ := h2
      rw [Option.bind_eq_some] at h34
      obtain ⟨q3, hq3, hq4⟩ := h34
      exact ⟨q1, r1, q3, q4, hq1, hq2, hq3, hq4, hq5⟩

theorem processPodStep_unparsable {ipa : InterPodAffinity} {pod e : Pod}
    {pm pm' : podAffinityPriorityMap} {eNode : Node} (hinfo : ipa.info e.NodeName = .ok eNode)
    (hbad : hasUnparsableTerm ipa pod e) (h : processPodStep ipa pod pm e = some pm') :
    pm'.firstError ≠ none := by
  obtain ⟨q1, q2, q3, q4, h1, h2, h3, h4, h5⟩ := processPodStep_stages hinfo h
  have m2 := (shifted_processTerms h2).error_mono
  have m4 := (shifted_processTerms h4).error_mono
  have m5 := (shifted_processTerms h5).error_mono
  have m3 : q2.firstError ≠ none → q3.firstError ≠ none := by
    by_cases hw : ipa.hardPodAffinityWeight > 0
    · rw [if_pos hw] at h3
      exact (shifted_processHardTerms h3).error_mono
    · rw [if_neg hw] at h3
      simp only [Option.some.injEq] at h3
      subst h3
      exact id
  rcases hbad with hb | hb | ⟨hw, hb⟩ | hb | hb
  · exact m5 (m4 (m3 (m2 (processTerms_unparsable h1 hb))))
  · exact m5 (m4 (m3 (processTerms_unparsable h2 hb)))
  · rw [if_pos hw] at h3
    exact m5 (m4 (processHardTerms_unparsable h3 hb))
  · exact m5 (processTerms_unparsable h4 hb)
  · exact processTerms_unparsable h5 hb

theorem scan_unparsable {ipa : InterPodAffinity} {pod : Pod}
    {nodeNameToInfo : List (String × NodeInfo)} {nodes : List Node}
    {pm : podAffinityPriorityMap} (hscan : scan ipa pod nodeNameToInfo nodes = some pm)
    {e : Pod} (he : e ∈ scannedPods pod nodeNameToInfo) {eNode : Node}
    (hinfo : ipa.info e.NodeName = .ok eNode) (hbad : hasUnparsableTerm ipa pod e) :
    pm.firstError ≠ none := by
  unfold scannedPods at he
  obtain ⟨podsOfName, hmem, hepods⟩ := List.mem_flatten.mp he
  obtain ⟨name, hname, rfl⟩ := List.mem_map.mp hmem
  unfold scan at hscan
  refine foldlM_firstError (processNode ipa pod nodeNameToInfo)
    (fun q x q' hq => (shifted_processNode hq).error_mono) (a := name) ?_ _ _ _ hscan
    (Or.inl hname)
  intro q q' hq
  rw [processNode_eq] at hq
  exact foldlM_firstError (processPodStep ipa pod)
    (fun r x r' hr => (shifted_processPodStep hr).error_mono) (a := e)
    (fun r r' hr => processPodStep_unparsable hinfo hbad hr) _ _ _ hq (Or.inl hepods)

/-- C7 (amended): on the scan path, when the scan completes and a term processed for a
scanned pod whose node lookup succeeds (a preferred term of the incoming pod, a required
affinity term of the scanned pod while `hardPodAffinityWeight > 0`, or a preferred term of
the scanned pod) has a label selector that cannot be parsed, the call returns a non-nil
error and no list. -/
theorem unparsable_selector_error (ipa : InterPodAffinity) (pod : Pod)
    (nodeNameToInfo : List (String × NodeInfo)) (nodes : List Node)
    (pm : podAffinityPriorityMap) (hscan : scan ipa pod nodeNameToInfo nodes = some pm)
    (e : Pod) (he : e ∈ scannedPods pod nodeNameToInfo) (eNode : Node)
    (hinfo : ipa.info e.NodeName = .ok eNode) (hbad : hasUnparsableTerm ipa pod e) :
    ∃ err, CalculateInterPodAffinityPriority ipa [] pod nodeNameToInfo nodes
      = some (.error err) := by
  have hne := scan_unparsable hscan he hinfo hbad
  rw [calculate_scan hscan]
  cases herr : pm.firstError with
  | none => exact absurd herr hne
  | some err => exact ⟨err, rfl⟩

/-! ## One term -/

theorem foldlM_add_isSome (cond : Node → Bool) (w : Int) :
    ∀ (ns : List Node) (acc : podAffinityPriorityMap),
      (∀ n ∈ ns, cond n = true → (acc.counts n.Name).isSome) →
      ∃ acc', ns.foldlM (fun acc n => if cond n = true then acc.add n.Name w else some acc) acc
        = some acc' := by
  intro ns
  induction ns with
  | nil => exact fun acc _ => ⟨acc, rfl⟩
  | cons n ns ih =>
    intro acc h
    by_cases hc : cond n = true
    · have hsome := h n (List.mem_cons_self _ _) hc
      obtain ⟨c, hcn⟩ := Option.isSome_iff_exists.mp hsome
      have hadd : ∃ acc1, acc.add n.Name w = some acc1 := by
        unfold podAffinityPriorityMap.add
        rw [hcn]
        exact ⟨_, rfl⟩
      obtain ⟨acc1, hacc1⟩ := hadd
      have hsh := shifted_add hacc1
      obtain ⟨acc2, hacc2⟩ := ih acc1 (fun m hm hcm => by
        obtain ⟨c', hc'⟩ := Option.isSome_iff_exists.mp (h m (List.mem_cons_of_mem _ hm) hcm)
        obtain ⟨c'', hc''⟩ := hsh.some_of_some _ _ hc'
        rw [hc'']
        rfl)
      exact ⟨acc2, by simp [List.foldlM_cons, hc, hacc1, hacc2]⟩
    · obtain ⟨acc2, hacc2⟩ := ih acc (fun m hm hcm => h m (List.mem_cons_of_mem _ hm) hcm)
      exact ⟨acc2, by simp [List.foldlM_cons, hc, hacc2]⟩

/-- The processing of a term completes when every candidate node in the topology domain of
the fixed node holds a counter. -/
theorem processTerm_isSome (p : podAffinityPriorityMap) (term : PodAffinityTerm) (d c : Pod)
    (fixedNode : Node) (weight : Int)
    (h : ∀ n ∈ p.nodes, NodesHaveSameTopologyKey n fixedNode term.TopologyKey = true →
      (p.counts n.Name).isSome) :
    ∃ p', p.processTerm term d c fixedNode weight = some p' := by
  unfold podAffinityPriorityMap.processTerm
  cases LabelSelectorAsSelector term.LabelSelector with
  | error err => exact ⟨_, rfl⟩
  | ok selector =>
    simp only
    split_ifs
    · exact foldlM_add_isSome
        (fun n => NodesHaveSameTopologyKey n fixedNode term.TopologyKey) weight p.nodes p h
    · exact ⟨p, rfl⟩

theorem sameTopology_self {N : Node} {key : String} (h : (N.Labels.lookup key).isSome) :
    NodesHaveSameTopologyKey N N key = true := by
  obtain ⟨v, hv⟩ := Option.isSome_iff_exists.mp h
  simp [NodesHaveSameTopologyKey, hv]

theorem processTerms_singleton (p : podAffinityPriorityMap) (t : WeightedPodAffinityTerm)
    (d c : Pod) (fixedNode : Node) (multiplier : Int) :
    p.processTerms [t] d c fixedNode multiplier
      = p.processTerm t.PodAffinityTerm d c fixedNode (wrap32 (t.Weight * wrap32 multiplier)) := by
  unfold podAffinityPriorityMap.processTerms
  simp [List.foldlM_cons]

theorem processTerms_append (p : podAffinityPriorityMap)
    (l1 l2 : List WeightedPodAffinityTerm) (d c : Pod) (fixedNode : Node) (multiplier : Int) :
    p.processTerms (l1 ++ l2) d c fixedNode multiplier
      = (p.processTerms l1 d c fixedNode multiplier).bind
          (fun q => q.processTerms l2 d c fixedNode multiplier) := by
  unfold podAffinityPriorityMap.processTerms
  rw [List.foldlM_append]
  rfl

/-- The step of `processTerms` with the multiplier `-1` for a term that matches: the counter
of the fixed node goes down by the weight of the term. -/
theorem processTerms_anti_step {p p' : podAffinityPriorityMap} {t : WeightedPodAffinityTerm}
    {pod existingPod : Pod} {N : Node} {c : Int}
    (hstep : p.processTerms [t] pod existingPod N (-1) = some p')
    (hN : N ∈ p.nodes) (hnd : (p.nodes.map Node.Name).Nodup) (hint : CountsInt64 p)
    (hkey : (N.Labels.lookup t.PodAffinityTerm.TopologyKey).isSome)
    (hc : p.counts N.Name = some c)
    (hmatch : termMatches t.PodAffinityTerm pod existingPod = true)
    (hw0 : 0 ≤ t.Weight) (hw : t.Weight < 2 ^ 31) :
    p'.counts N.Name = some (wrap64 (c - t.Weight)) := by
  rw [processTerms_singleton] at hstep
  have hsh := shifted_processTerm hstep
  rw [hsh.counts_eq hint _ _ hc, termDelta_eq hnd hN]
  have hcnt : termCounts t.PodAffinityTerm pod existingPod N N = true := by
    simp [termCounts, hmatch, sameTopology_self hkey]
  rw [if_pos hcnt, wrap32_mul_neg_one ⟨by omega, hw⟩, ← sub_eq_add_neg]

/-- C8: the incoming pod has the preferred anti-affinity term `t` with a weight `w` (a
non-negative `int32`), after the terms `pre` and before the terms `post`; the term matches
the existing pod, which is placed on the candidate node `N`; `N` carries the topology key of
the term and holds a counter. Then a call of `processPod` for the existing pod that returns
has processed the term in a step of its own: from the accumulator `q`, reached after the
affinity terms of the incoming pod and the anti-affinity terms `pre`, to the accumulator
`q'`, from which the call goes on with the terms `post` and the terms of the existing pod.
That step lowers the raw counter of `N` by exactly `w` (in `int64` arithmetic) and never
raises it. The candidate nodes have distinct names and the counters hold `int64` values. -/
theorem anti_affinity_lowers (ipa : InterPodAffinity) (pod existingPod : Pod)
    (pre post : List WeightedPodAffinityTerm) (t : WeightedPodAffinityTerm)
    (pm final : podAffinityPriorityMap) (N : Node) (c : Int)
    (hterms : preferredAntiAffinityTerms pod = pre ++ t :: post)
    (hplaced : ipa.info existingPod.NodeName = .ok N)
    (hrun : processPod ipa pod pm existingPod = some (final, none))
    (hN : N ∈ pm.nodes) (hnd : (pm.nodes.map Node.Name).Nodup) (hint : CountsInt64 pm)
    (hkey : (N.Labels.lookup t.PodAffinityTerm.TopologyKey).isSome)
    (hc : pm.counts N.Name = some c)
    (hmatch : termMatches t.PodAffinityTerm pod existingPod = true)
    (hw0 : 0 ≤ t.Weight) (hw : t.Weight < 2 ^ 31) :
    ∃ pm1 q q' pm2 cq,
      pm.processTerms (preferredAffinityTerms pod) pod existingPod N 1 = some pm1
      ∧ pm1.processTerms pre pod existingPod N (-1) = some q
      ∧ q.processTerms [t] pod existingPod N (-1) = some q'
      ∧ q'.processTerms post pod existingPod N (-1) = some pm2
      ∧ processIncomingTerms pod pm existingPod N = some pm2
      ∧ processExistingTerms ipa pod pm2 existingPod N = some final
      ∧ q.counts N.Name = some cq
      ∧ q'.counts N.Name = some (wrap64 (cq - t.Weight))
      ∧ (-2 ^ 63 ≤ cq - t.Weight →
          q'.counts N.Name = some (cq - t.Weight) ∧ cq - t.Weight ≤ cq) := by
  unfold processPod at hrun
  rw [hplaced] at hrun
  simp only [Option.bind_eq_bind, Option.bind_eq_some, Option.some.injEq, Prod.mk.injEq,
    and_true] at hrun
  obtain ⟨pm2, hinc, pm3, hex, hfin⟩ := hrun
  subst hfin
  have hinc2 : (pm.processTerms (preferredAffinityTerms pod) pod existingPod N 1).bind
      (fun pm1 => pm1.processTerms (preferredAntiAffinityTerms pod) pod existingPod N (-1))
      = some pm2 := by
    rw [← hinc]
    unfold processIncomingTerms preferredAffinityTerms preferredAntiAffinityTerms
    cases podAffinityOf pod <;> cases podAntiAffinityOf pod <;> simp [processTerms_nil]
  rw [Option.bind_eq_some] at hinc2
  obtain ⟨pm1, h1, h2⟩ := hinc2
  rw [hterms, processTerms_append, Option.bind_eq_some] at h2
  obtain ⟨q, hq, h3⟩ := h2
  rw [show t :: post = [t] ++ post from rfl, processTerms_append, Option.bind_eq_some] at h3
  obtain ⟨q', hq', h4⟩ := h3
  have s1 := shifted_processTerms h1
  have s2 := shifted_processTerms hq
  have hint1 := s1.int64 hint
  have hintq := s2.int64 hint1
  have hnodes : q.nodes = pm.nodes := by rw [s2.nodes_eq, s1.nodes_eq]
  obtain ⟨c1, hc1⟩ := s1.some_of_some _ _ hc
  obtain ⟨cq, hcq⟩ := s2.some_of_some _ _ hc1
  have hstep := processTerms_anti_step hq' (by rw [hnodes]; exact hN) (by rw [hnodes]; exact hnd)
    hintq hkey hcq hmatch hw0 hw
  refine ⟨pm1, q, q', pm2, cq, h1, hq, hq', h4, hinc, hex, hcq, hstep, fun hlow => ?_⟩
  have hci := hintq _ _ hcq
  unfold isInt64 at hci
  refine ⟨?_, by omega⟩
  rw [hstep, wrap64_of_isInt64 ⟨hlow, by omega⟩]

/-! ## Scans that record no error -/

theorem foldlM_firstError_eq {α : Type}
    (f : podAffinityPriorityMap → α → Option podAffinityPriorityMap) (xs : List α)
    (hstep : ∀ b, ∀ x ∈ xs, ∀ b', f b x = some b' → b'.firstError = b.firstError) :
    ∀ b b', xs.foldlM f b = some b' → b'.firstError = b.firstError := by
  induction xs with
  | nil =>
    intro b b' h
    simp only [List.foldlM_nil, Option.pure_def, Option.some.injEq] at h
    rw [h]
  | cons x xs ih =>
    intro b b' h
    simp only [List.foldlM_cons, Option.bind_eq_bind, Option.bind_eq_some] at h
    obtain ⟨q, hq, hrest⟩ := h
    rw [ih (fun b y hy => hstep b y (List.mem_cons_of_mem _ hy)) q b' hrest,
      hstep b x (List.mem_cons_self _ _) q hq]

theorem add_firstError {p p' : podAffinityPriorityMap} {name : String} {w : Int}
    (h : p.add name w = some p') : p'.firstError = p.firstError := by
  unfold podAffinityPriorityMap.add at h
  cases hc : p.counts name with
  | none => simp [hc] at h
  | some c =>
    simp only [hc, Option.some.injEq] at h
    rw [← h]

theorem processTerm_firstError {p p' : podAffinityPriorityMap} {term : PodAffinityTerm}
    (hparse : ¬ unparsable term) {d c : Pod} {fixedNode : Node} {weight : Int}
    (h : p.processTerm term d c fixedNode weight = some p') :
    p'.firstError = p.firstError := by
  unfold podAffinityPriorityMap.processTerm at h
  cases hsel : LabelSelectorAsSelector term.LabelSelector with
  | error err => exact absurd ⟨err, hsel⟩ hparse
  | ok selector =>
    simp only [hsel] at h
    split_ifs at h
    · refine foldlM_firstError_eq _ p.nodes (fun b n _ b' hb => ?_) p p' h
      beta_reduce at hb
      split_ifs at hb
      · exact add_firstError hb
      · simp only [Option.some.injEq] at hb
        rw [hb]
    · simp only [Option.some.injEq] at h
      rw [h]

theorem processTerms_firstError {p p' : podAffinityPriorityMap}
    {terms : List WeightedPodAffinityTerm} (hparse : ∀ t ∈ terms, ¬ unparsable t.PodAffinityTerm)
    {d c : Pod} {fixedNode : Node} {multiplier : Int}
    (h : p.processTerms terms d c fixedNode multiplier = some p') :
    p'.firstError = p.firstError := by
  unfold podAffinityPriorityMap.processTerms at h
  exact foldlM_firstError_eq _ terms
    (fun b t ht b' hb => processTerm_firstError (hparse t ht) hb) p p' h

theorem processHardTerms_firstError {p p' : podAffinityPriorityMap}
    {terms : List PodAffinityTerm} (hparse : ∀ t ∈ terms, ¬ unparsable t)
    {d c : Pod} {fixedNode : Node} {weight : Int}
    (h : processHardTerms p terms d c fixedNode weight = some p') :
    p'.firstError = p.firstError := by
  unfold processHardTerms at h
  exact foldlM_firstError_eq _ terms
    (fun b t ht b' hb => processTerm_firstError (hparse t ht) hb) p p' h

theorem processPodStep_firstError {ipa : InterPodAffinity} {pod e : Pod}
    {pm pm' : podAffinityPriorityMap} (hclean : podClean ipa pod e)
    (h : processPodStep ipa pod pm e = some pm') : pm'.firstError = pm.firstError := by
  unfold podClean at hclean
  cases hinfo : ipa.info e.NodeName with
  | error err =>
    simp only [hinfo] at hclean
    unfold processPodStep processPod at h
    simp only [hinfo, hclean, if_true, Option.some.injEq] at h
    rw [h]
  | ok eNode =>
    simp only [hinfo] at hclean
    obtain ⟨p1, p2, p3, p4, p5⟩ := hclean
    obtain ⟨q1, q2, q3, q4, h1, h2, h3, h4, h5⟩ := processPodStep_stages hinfo h
    have e3 : q3.firstError = q2.firstError := by
      by_cases hw : ipa.hardPodAffinityWeight > 0
      · rw [if_pos hw] at h3
        exact processHardTerms_firstError (p3 hw) h3
      · rw [if_neg hw] at h3
        simp only [Option.some.injEq] at h3
        rw [h3]
    rw [processTerms_firstError p5 h5, processTerms_firstError p4 h4, e3,
      processTerms_firstError p2 h2, processTerms_firstError p1 h1]

/-- A scan in which every lookup succeeds or fails with a not-found error and every
processed term parses records no error. -/
theorem scan_firstError {ipa : InterPodAffinity} {pod : Pod}
    {nodeNameToInfo : List (String × NodeInfo)} {nodes : List Node}
    {pm : podAffinityPriorityMap} (hscan : scan ipa pod nodeNameToInfo nodes = some pm)
    (hclean : ∀ e ∈ scannedPods pod nodeNameToInfo, podClean ipa pod e) :
    pm.firstError = none := by
  unfold scan at hscan
  have := foldlM_firstError_eq (processNode ipa pod nodeNameToInfo) _
    (fun b name hname b' hb => by
      rw [processNode_eq] at hb
      exact foldlM_firstError_eq (processPodStep ipa pod) _
        (fun r e he r' hr => processPodStep_firstError (hclean e (mem_scannedPods hname he)) hr)
        b b' hb)
    _ pm hscan
  rw [this, initCounts_firstError]
  rfl

/-! ## Scans that complete -/

theorem foldlM_isSome_inv {α β : Type} (I : β → Prop) (f : β → α → Option β) (xs : List α)
    (hstep : ∀ b, I b → ∀ x ∈ xs, ∃ b', f b x = some b' ∧ I b') :
    ∀ b, I b → ∃ b', xs.foldlM f b = some b' ∧ I b' := by
  induction xs with
  | nil => exact fun b hb => ⟨b, rfl, hb⟩
  | cons x xs ih =>
    intro b hb
    obtain ⟨b1, hb1, hI1⟩ := hstep b hb x (List.mem_cons_self _ _)
    obtain ⟨b2, hb2, hI2⟩ := ih (fun b hb y hy => hstep b hb y (List.mem_cons_of_mem _ hy)) b1 hI1
    exact ⟨b2, by simp [List.foldlM_cons, hb1, hb2], hI2⟩

theorem covers_of_shifted {counts : String → Option Int} {nodes : List Node}
    {b b' : podAffinityPriorityMap} {d : String → Int} (hc : Covers counts nodes b)
    (hs : Shifted b b' d) : Covers counts nodes b' := by
  refine ⟨hs.nodes_eq.trans hc.1, fun s hsome => ?_⟩
  obtain ⟨c, hcs⟩ := Option.isSome_iff_exists.mp (hc.2 s hsome)
  obtain ⟨c', hc'⟩ := hs.some_of_some s c hcs
  rw [hc']
  rfl

theorem processTerm_safe {counts : String → Option Int} {nodes : List Node}
    {b : podAffinityPriorityMap} (hc : Covers counts nodes b) {term : PodAffinityTerm}
    {d c : Pod} {fixedNode : Node} (hsafe : termSafe counts nodes term d c fixedNode)
    (weight : Int) :
    ∃ b', b.processTerm term d c fixedNode weight = some b' ∧ Covers counts nodes b' := by
  have hex : ∃ b', b.processTerm term d c fixedNode weight = some b' := by
    cases hm : termMatches term d c with
    | false => exact processTerm_of_not_matches b hm fixedNode weight
    | true =>
      apply processTerm_isSome
      intro n hn htop
      rw [hc.1] at hn
      exact hc.2 _ (hsafe hm n hn htop)
  obtain ⟨b', hb'⟩ := hex
  exact ⟨b', hb', covers_of_shifted hc (shifted_processTerm hb')⟩

theorem processTerms_safe {counts : String → Option Int} {nodes : List Node}
    {b : podAffinityPriorityMap} (hc : Covers counts nodes b)
    {terms : List WeightedPodAffinityTerm} {d c : Pod} {fixedNode : Node}
    (hsafe : ∀ t ∈ terms, termSafe counts nodes t.PodAffinityTerm d c fixedNode)
    (multiplier : Int) :
    ∃ b', b.processTerms terms d c fixedNode multiplier = some b' ∧ Covers counts nodes b' :=
  foldlM_isSome_inv (Covers counts nodes) _ terms
    (fun _ hq t ht => processTerm_safe hq (hsafe t ht) _) b hc

theorem processHardTerms_safe {counts : String → Option Int} {nodes : List Node}
    {b : podAffinityPriorityMap} (hc : Covers counts nodes b)
    {terms : List PodAffinityTerm} {d c : Pod} {fixedNode : Node}
    (hsafe : ∀ t ∈ terms, termSafe counts nodes t d c fixedNode) (weight : Int) :
    ∃ b', processHardTerms b terms d c fixedNode weight = some b' ∧ Covers counts nodes b' :=
  foldlM_isSome_inv (Covers counts nodes) _ terms
    (fun _ hq t ht => processTerm_safe hq (hsafe t ht) _) b hc

theorem processPodStep_safe {counts : String → Option Int} {nodes : List Node}
    {pm : podAffinityPriorityMap} (hc : Covers counts nodes pm) {ipa : InterPodAffinity}
    {pod e : Pod} (hsafe : podSafe ipa pod counts nodes e) :
    ∃ pm', processPodStep ipa pod pm e = some pm' ∧ Covers counts nodes pm' := by
  have hex : ∃ pm', processPodStep ipa pod pm e = some pm' := by
    unfold processPodStep processPod
    cases hinfo : ipa.info e.NodeName with
    | error err => by_cases hnf : err.IsNotFound = true <;> simp [hnf]
    | ok eNode =>
      obtain ⟨h1, h2, h3, h4, h5⟩ := hsafe eNode hinfo
      obtain ⟨q1, hq1, c1⟩ := processTerms_safe hc h1 1
      obtain ⟨q2, hq2, c2⟩ := processTerms_safe c1 h2 (-1)
      have hq3 : ∃ q3, (if ipa.hardPodAffinityWeight > 0 then
          processHardTerms q2 (requiredAffinityTerms e) e pod eNode ipa.hardPodAffinityWeight
          else some q2) = some q3 ∧ Covers counts nodes q3 := by
        by_cases hw : ipa.hardPodAffinityWeight > 0
        · rw [if_pos hw]
          exact processHardTerms_safe c2 (h3 hw) _
        · rw [if_neg hw]
          exact ⟨q2, rfl, c2⟩
      obtain ⟨q3, hq3, c3⟩ := hq3
      obtain ⟨q4, hq4, c4⟩ := processTerms_safe c3 h4 1
      obtain ⟨q5, hq5, _⟩ := processTerms_safe c4 h5 (-1)
      refine ⟨q5, ?_⟩
      simp [processIncomingTerms_eq, processExistingTerms_eq, hq1, hq2, hq3, hq4, hq5]
  obtain ⟨pm', hpm'⟩ := hex
  exact ⟨pm', hpm', covers_of_shifted hc (shifted_processPodStep hpm')⟩

/-- The scan completes when every term processed for a scanned pod only touches candidate
nodes that hold a counter after the pre-allocation. -/
theorem scan_isSome (ipa : InterPodAffinity) (pod : Pod)
    (nodeNameToInfo : List (String × NodeInfo)) (nodes : List Node)
    (h : ∀ e ∈ scannedPods pod nodeNameToInfo,
      podSafe ipa pod (initCounts pod nodeNameToInfo (newPodAffinityPriorityMap nodes)).counts
        nodes e) :
    ∃ pm, scan ipa pod nodeNameToInfo nodes = some pm := by
  unfold scan
  have hinit : Covers (initCounts pod nodeNameToInfo (newPodAffinityPriorityMap nodes)).counts
      nodes (initCounts pod nodeNameToInfo (newPodAffinityPriorityMap nodes)) :=
    ⟨initCounts_nodes _ _ _, fun _ hs => hs⟩
  obtain ⟨pm, hpm, _⟩ := foldlM_isSome_inv
    (Covers (initCounts pod nodeNameToInfo (newPodAffinityPriorityMap nodes)).counts nodes)
    (processNode ipa pod nodeNameToInfo) (allNodeNames nodeNameToInfo)
    (fun b hb name hname => by
      rw [processNode_eq]
      exact foldlM_isSome_inv _ (processPodStep ipa pod) _
        (fun r hr e he => processPodStep_safe hr (h e (mem_scannedPods hname he))) b hb)
    _ hinit
  exact ⟨pm, hpm⟩

/-! ## The end-to-end scenario -/

theorem exTerm_parses (topologyKey : String) : ¬ unparsable (exTerm topologyKey) := by
  rintro ⟨err, herr⟩
  cases herr

theorem weightsOk_exPodP : weightsOk exPodP := by
  constructor <;> intro t ht <;> cases ht

theorem weightsOk_exPodQ (topologyKey : String) : weightsOk (exPodQ topologyKey) := by
  constructor <;> intro t ht <;> cases ht

theorem countsScores_two {pm : podAffinityPriorityMap} {a b : Node} {hw : Int}
    (ha : pm.counts a.Name = some hw) (hb : pm.counts b.Name = none) (hpos : 0 < hw)
    (hint : isInt64 hw) :
    countsScores pm [a, b] = [{ Host := a.Name, Score := 10 }, { Host := b.Name, Score := 0 }] := by
  have hmm : countsMaxMin pm [a, b] = (hw, 0) := by
    simp [countsMaxMin, ha, hb, updateMaxMin, hpos, not_lt.mpr hpos.le]
  have hd : wrap64 (hw - 0) > 0 := by
    unfold isInt64 at hint
    unfold wrap64
    omega
  have hs := scaledScore_max (M := hw) (m := 0) isInt64_zero hint hd hpos.le
  simp only [countsScores, hmm, List.map_cons, List.map_nil, ha, hb, hd, if_true, hs,
    f64toInt_zero]

/-- C9: the incoming pod `P` (namespace `ns`, label `app=P`, no affinity) is scored against
the nodes `n1` and `n2`, where `n1` hosts the pod `Q` (namespace `ns`, one required
pod-affinity term selecting `app=P` with the host name as topology key) and `n2` hosts no
pod; for every positive `hardPodAffinityWeight` the raw counter of `n1` is that weight,
`n2` has no counter, and the call returns `[n1: 10, n2: 0]` with no error. -/
theorem end_to_end (hw : Int) (hpos : 0 < hw) (hint : hw < 2 ^ 31) :
    ∃ pm, scan (exIpa hw) exPodP (exSnapshot hostnameKey) [exNode1, exNode2] = some pm
      ∧ pm.counts "n1" = some hw ∧ pm.counts "n2" = none
      ∧ CalculateInterPodAffinityPriority (exIpa hw) [] exPodP (exSnapshot hostnameKey)
          [exNode1, exNode2]
        = some (.ok [{ Host := "n1", Score := 10 }, { Host := "n2", Score := 0 }]) := by
  have hscanned : scannedPods exPodP (exSnapshot hostnameKey) = [exPodQ hostnameKey] := rfl
  have hinfo : (exIpa hw).info (exPodQ hostnameKey).NodeName = .ok exNode1 := rfl
  have hsafe : ∀ e ∈ scannedPods exPodP (exSnapshot hostnameKey),
      podSafe (exIpa hw) exPodP
        (initCounts exPodP (exSnapshot hostnameKey)
          (newPodAffinityPriorityMap [exNode1, exNode2])).counts [exNode1, exNode2] e := by
    intro e he
    rw [hscanned, List.mem_singleton] at he
    subst he
    intro eNode heNode
    rw [hinfo] at heNode
    cases heNode
    refine ⟨fun t ht => (List.not_mem_nil t ht).elim, fun t ht => (List.not_mem_nil t ht).elim, fun _ t ht => ?_,
      fun t ht => (List.not_mem_nil t ht).elim, fun t ht => (List.not_mem_nil t ht).elim⟩
    have : t = exTerm hostnameKey := List.mem_singleton.mp ht
    subst this
    unfold termSafe
    decide
  obtain ⟨pm, hscan⟩ := scan_isSome _ _ _ _ hsafe
  have hsh := shifted_scan hscan
  have h1 : ∃ c, pm.counts "n1" = some c :=
    hsh.some_of_some "n1" 0 (by decide)
  obtain ⟨c, hc⟩ := h1
  have h2 : pm.counts "n2" = none := hsh.none_of_none "n2" (by decide)
  have hcv : c = hw := by
    have hsum := scan_counts hscan hc
    rw [hscanned] at hsum
    have hd := @podDelta_eq [exNode1, exNode2] (by decide) exNode1 (by decide)
      (exIpa hw) exPodP (exPodQ hostnameKey) weightsOk_exPodP (weightsOk_exPodQ _)
    have hn1 : exNode1.Name = "n1" := rfl
    rw [hn1] at hd
    simp only [List.map_cons, List.map_nil, List.sum_cons, List.sum_nil, Int.add_zero] at hsum
    rw [hd] at hsum
    have hcontr : podContribution (exIpa hw) exPodP (exPodQ hostnameKey) exNode1 = hw := by
      unfold podContribution
      rw [hinfo]
      simp only [contribution]
      have e1 : weightedSum (preferredAffinityTerms exPodP) exPodP (exPodQ hostnameKey)
          exNode1 exNode1 = 0 := rfl
      have e2 : weightedSum (preferredAntiAffinityTerms exPodP) exPodP (exPodQ hostnameKey)
          exNode1 exNode1 = 0 := rfl
      have e3 : weightedSum (preferredAffinityTerms (exPodQ hostnameKey)) (exPodQ hostnameKey)
          exPodP exNode1 exNode1 = 0 := rfl
      have e4 : weightedSum (preferredAntiAffinityTerms (exPodQ hostnameKey))
          (exPodQ hostnameKey) exPodP exNode1 exNode1 = 0 := rfl
      have e5 : countingTerms (requiredAffinityTerms (exPodQ hostnameKey)) (exPodQ hostnameKey)
          exPodP exNode1 exNode1 = 1 := by decide
      have e6 : (exIpa hw).hardPodAffinityWeight = hw := rfl
      rw [e1, e2, e3, e4, e5, e6, if_pos hpos]
      ring
    rw [hcontr] at hsum
    rw [hsum]
    unfold wrap64
    omega
  subst hcv
  have herr : pm.firstError = none := by
    apply scan_firstError hscan
    intro e he
    rw [hscanned, List.mem_singleton] at he
    subst he
    unfold podClean
    rw [hinfo]
    refine ⟨fun t ht => (List.not_mem_nil t ht).elim, fun t ht => (List.not_mem_nil t ht).elim, fun _ t ht => ?_,
      fun t ht => (List.not_mem_nil t ht).elim, fun t ht => (List.not_mem_nil t ht).elim⟩
    have : t = exTerm hostnameKey := List.mem_singleton.mp ht
    rw [this]
    exact exTerm_parses _
  refine ⟨pm, hscan, hc, h2, ?_⟩
  rw [calculate_scan hscan, herr]
  have hi : isInt64 c := by
    unfold isInt64
    omega
  have := @countsScores_two pm exNode1 exNode2 c hc h2 hpos hi
  simp only [this]
  rfl

/-! ## Concrete runs -/

theorem scan_eq_scanResult {ipa : InterPodAffinity} {pod : Pod}
    {nodeNameToInfo : List (String × NodeInfo)} {nodes : List Node}
    (h : (scan ipa pod nodeNameToInfo nodes).isSome = true) :
    scan ipa pod nodeNameToInfo nodes = some (scanResult ipa pod nodeNameToInfo nodes) := by
  unfold scanResult
  obtain ⟨pm, hpm⟩ := Option.isSome_iff_exists.mp h
  rw [hpm]
  rfl

theorem roundHalfEven_tie_even {y : ℚ} {f : ℤ} (hy : y = f + 1 / 2) (hf : f % 2 = 0) :
    roundHalfEven y = f := by
  have hfl : ⌊y⌋ = f := Int.floor_eq_iff.mpr ⟨by rw [hy]; linarith, by rw [hy]; linarith⟩
  unfold roundHalfEven
  rw [hfl, if_neg (by rw [hy]; norm_num), if_neg (by rw [hy]; norm_num), if_pos hf]

/-- The conversion of `10 * 2 ^ 50 + 1` to `float64` drops the last bit. -/
theorem toFloat64_large : toFloat64 11258999068426241 = 11258999068426240 := by
  rw [toFloat64_of_pos (by norm_num)]
  unfold roundPos
  rw [log_eq_of_bounds (e := 53) (by norm_num) (by norm_num) (by norm_num),
    roundHalfEven_tie_even (f := 5629499534213120) (by norm_num) (by norm_num)]
  norm_num

/-- With the counters `2 ^ 50` and `10 * 2 ^ 50 + 1` the rounded score is `1`, above the
exact quotient. -/
theorem scaledScore_large : scaledScore (2 ^ 50) (10 * 2 ^ 50 + 1) 0 = 1 := by
  rw [(scaledScore_of_between (c := 2 ^ 50) (M := 10 * 2 ^ 50 + 1) (m := 0) (by decide)
    (by decide) (by decide) (by decide) (by decide)).1]
  have h1 : toFloat64 (((2 ^ 50 - 0 : ℤ)) : ℚ) = 1125899906842624 := by
    have := toFloat64_natCast (n := 1125899906842624) (by norm_num)
    norm_num at this ⊢
    exact this
  have h2 : toFloat64 (((10 * 2 ^ 50 + 1 - 0 : ℤ)) : ℚ) = 11258999068426240 := by
    have := toFloat64_large
    norm_num at this ⊢
    exact this
  rw [h1, h2]
  have h3 : (1125899906842624 : ℚ) / 11258999068426240 = 1 / 10 := by norm_num
  rw [h3, tenths_1]
  norm_num

theorem ex259_scan :
    scan (exIpa 1) exPodP exSnapshot259 [exNode1, exNode2, exNode3]
      = some (scanResult (exIpa 1) exPodP exSnapshot259 [exNode1, exNode2, exNode3]) :=
  scan_eq_scanResult (by decide)

theorem ex259_calculate :
    CalculateInterPodAffinityPriority (exIpa 1) [] exPodP exSnapshot259
        [exNode1, exNode2, exNode3]
      = some (.ok [{ Host := "n1", Score := 2 }, { Host := "n2", Score := 5 },
          { Host := "n3", Score := 10 }]) := by
  have h1 : (scanResult (exIpa 1) exPodP exSnapshot259 [exNode1, exNode2, exNode3]).counts
      exNode1.Name = some 2 := by decide
  have h2 : (scanResult (exIpa 1) exPodP exSnapshot259 [exNode1, exNode2, exNode3]).counts
      exNode2.Name = some 5 := by decide
  have h3 : (scanResult (exIpa 1) exPodP exSnapshot259 [exNode1, exNode2, exNode3]).counts
      exNode3.Name = some 9 := by decide
  have herr : (scanResult (exIpa 1) exPodP exSnapshot259
      [exNode1, exNode2, exNode3]).firstError = none := by decide
  have hmm : countsMaxMin (scanResult (exIpa 1) exPodP exSnapshot259 [exNode1, exNode2, exNode3])
      [exNode1, exNode2, exNode3] = (9, 0) := by
    simp [countsMaxMin, h1, h2, h3, updateMaxMin]
  have hd : wrap64 (9 - 0) > 0 := by decide
  have s1 : scaledScore 2 9 0 = 2 := by
    rw [scaledScore_exact (by decide) (by decide) (by decide) (by decide) (by decide) (by decide)]
    decide
  have s2 : scaledScore 5 9 0 = 5 := by
    rw [scaledScore_exact (by decide) (by decide) (by decide) (by decide) (by decide) (by decide)]
    decide
  have s3 : scaledScore 9 9 0 = 10 := by
    rw [scaledScore_exact (by decide) (by decide) (by decide) (by decide) (by decide) (by decide)]
    decide
  rw [calculate_scan ex259_scan, herr]
  simp only [countsScores, hmm, List.map_cons, List.map_nil, h1, h2, h3, hd, if_true, s1, s2, s3]
  rfl

theorem ex55_scan :
    scan (exIpa 1) exPodP exSnapshot55 [exNode1, exNode2]
      = some (scanResult (exIpa 1) exPodP exSnapshot55 [exNode1, exNode2]) :=
  scan_eq_scanResult (by decide)

theorem ex55_calculate :
    CalculateInterPodAffinityPriority (exIpa 1) [] exPodP exSnapshot55 [exNode1, exNode2]
      = some (.ok [{ Host := "n1", Score := 10 }, { Host := "n2", Score := 10 }]) := by
  have h1 : (scanResult (exIpa 1) exPodP exSnapshot55 [exNode1, exNode2]).counts
      exNode1.Name = some 5 := by decide
  have h2 : (scanResult (exIpa 1) exPodP exSnapshot55 [exNode1, exNode2]).counts
      exNode2.Name = some 5 := by decide
  have herr : (scanResult (exIpa 1) exPodP exSnapshot55 [exNode1, exNode2]).firstError
      = none := by decide
  have hmm : countsMaxMin (scanResult (exIpa 1) exPodP exSnapshot55 [exNode1, exNode2])
      [exNode1, exNode2] = (5, 0) := by
    simp [countsMaxMin, h1, h2, updateMaxMin]
  have hd : wrap64 (5 - 0) > 0 := by decide
  have s1 : scaledScore 5 5 0 = 10 := by
    rw [scaledScore_exact (by decide) (by decide) (by decide) (by decide) (by decide) (by decide)]
    decide
  rw [calculate_scan ex55_scan, herr]
  simp only [countsScores, hmm, List.map_cons, List.map_nil, h1, h2, hd, if_true, s1]
  rfl

theorem exBadRequired_scan :
    scan (exIpa 1) exPodBadRequired exSnapshotS [exNode1, exNode2]
      = some (scanResult (exIpa 1) exPodBadRequired exSnapshotS [exNode1, exNode2]) :=
  scan_eq_scanResult (by decide)

theorem exBadRequired_calculate :
    CalculateInterPodAffinityPriority (exIpa 1) [] exPodBadRequired exSnapshotS
        [exNode1, exNode2]
      = some (.ok [{ Host := "n1", Score := 0 }, { Host := "n2", Score := 0 }]) := by
  have h1 : (scanResult (exIpa 1) exPodBadRequired exSnapshotS [exNode1, exNode2]).counts
      exNode1.Name = some 0 := by decide
  have h2 : (scanResult (exIpa 1) exPodBadRequired exSnapshotS [exNode1, exNode2]).counts
      exNode2.Name = some 0 := by decide
  have herr : (scanResult (exIpa 1) exPodBadRequired exSnapshotS
      [exNode1, exNode2]).firstError = none := by decide
  have hmm : countsMaxMin (scanResult (exIpa 1) exPodBadRequired exSnapshotS [exNode1, exNode2])
      [exNode1, exNode2] = (0, 0) := by
    simp [countsMaxMin, h1, h2, updateMaxMin]
  have hd : ¬ wrap64 (0 - 0) > 0 := by decide
  rw [calculate_scan exBadRequired_scan, herr]
  simp only [countsScores, hmm, List.map_cons, List.map_nil, h1, h2, hd, if_false,
    f64toInt_zero]
  rfl

/-! ## Statements at concrete inputs -/

/-- C1 (witness): the incoming pod with a preferred anti-affinity term of weight 5 against
the pod `S` on `n1`: the counter of `n1` is `-5`, the sum of the contributions. -/
theorem scan_raw_counter_witness :
    (-5 : Int) = wrap64 (expectedCount (exIpa 1) exPodAnti exSnapshotS exNode1)
      ∧ (isInt64 (expectedCount (exIpa 1) exPodAnti exSnapshotS exNode1)
          → (-5 : Int) = expectedCount (exIpa 1) exPodAnti exSnapshotS exNode1) :=
  scan_raw_counter (exIpa 1) exPodAnti exSnapshotS [exNode1, exNode2]
    (scanResult (exIpa 1) exPodAnti exSnapshotS [exNode1, exNode2])
    (scan_eq_scanResult (by decide)) (by decide) (by decide) (by decide) exNode1 (by decide)
    (-5) (by decide)

/-- C2: evaluation at the failing input. The incoming pod `P` declares no affinity; `n1`
hosts `Q`, whose required affinity term matches `P` with the zone as topology key; `n2` is
in the same zone and hosts no pod, so the pre-allocation gives it no counter, and the call
panics on the nil counter of `n2` instead of raising it by `hardPodAffinityWeight`. -/
theorem hard_affinity_zone_panic :
    termMatches (exTerm "zone") (exPodQ "zone") exPodP = true
      ∧ NodesHaveSameTopologyKey exNode2 exNode1 "zone" = true
      ∧ (initCounts exPodP (exSnapshot "zone")
          (newPodAffinityPriorityMap [exNode1, exNode2])).counts "n2" = none
      ∧ CalculateInterPodAffinityPriority (exIpa 1) [] exPodP (exSnapshot "zone")
          [exNode1, exNode2] = none :=
  ⟨by decide, by decide, by decide, Option.isNone_iff_eq_none.mp (by decide)⟩

/-- C3 (counterexample): three nodes with the raw counters 2, 5 and 9 get the scores 2, 5
and 10, not 0, 4 and 10: the minimum of the normalization starts at 0. Moreover the
rounded score of the counters `2 ^ 50` and `10 * 2 ^ 50 + 1` is 1 although the floor of
the exact quotient is 0. -/
theorem raw_2_5_9_scores :
    counterValues (scanResult (exIpa 1) exPodP exSnapshot259 [exNode1, exNode2, exNode3])
        [exNode1, exNode2, exNode3] = [2, 5, 9]
      ∧ scan (exIpa 1) exPodP exSnapshot259 [exNode1, exNode2, exNode3]
          = some (scanResult (exIpa 1) exPodP exSnapshot259 [exNode1, exNode2, exNode3])
      ∧ (scanResult (exIpa 1) exPodP exSnapshot259 [exNode1, exNode2, exNode3]).firstError
          = none
      ∧ CalculateInterPodAffinityPriority (exIpa 1) [] exPodP exSnapshot259
          [exNode1, exNode2, exNode3]
        = some (.ok [{ Host := "n1", Score := 2 }, { Host := "n2", Score := 5 },
            { Host := "n3", Score := 10 }])
      ∧ CalculateInterPodAffinityPriority (exIpa 1) [] exPodP exSnapshot259
          [exNode1, exNode2, exNode3]
        ≠ some (.ok [{ Host := "n1", Score := 0 }, { Host := "n2", Score := 4 },
            { Host := "n3", Score := 10 }])
      ∧ scaledScore (2 ^ 50) (10 * 2 ^ 50 + 1) 0 = 1
      ∧ MaxPriority * (2 ^ 50 - 0) / (10 * 2 ^ 50 + 1 - 0) = 0 := by
  refine ⟨by decide, ex259_scan, by decide, ex259_calculate, ?_, scaledScore_large, by decide⟩
  rw [ex259_calculate]
  intro h
  have h' := Except.ok.inj (Option.some.inj h)
  revert h'
  decide

/-- C3 (witness): the scores of the raw counters 2, 5 and 9, with `M = 9` and `m = 0`. -/
theorem scan_scores_floor_witness :
    [({ Host := "n1", Score := 2 } : HostPriority), { Host := "n2", Score := 5 },
        { Host := "n3", Score := 10 }]
      = [exNode1, exNode2, exNode3].map (fun n =>
          { Host := n.Name
            Score := match (scanResult (exIpa 1) exPodP exSnapshot259
                [exNode1, exNode2, exNode3]).counts n.Name with
              | some c => MaxPriority * (c - 0) / (9 - 0)
              | none => 0 }) :=
  scan_scores_floor (exIpa 1) exPodP exSnapshot259 [exNode1, exNode2, exNode3]
    (scanResult (exIpa 1) exPodP exSnapshot259 [exNode1, exNode2, exNode3]) _
    ex259_scan ex259_calculate 9 0
    (by
      have hv : counterValues (scanResult (exIpa 1) exPodP exSnapshot259
          [exNode1, exNode2, exNode3]) [exNode1, exNode2, exNode3] = [2, 5, 9] := by decide
      rw [hv]
      constructor
      · simp
      · intro x hx
        simp at hx
        omega)
    (by
      have hv : counterValues (scanResult (exIpa 1) exPodP exSnapshot259
          [exNode1, exNode2, exNode3]) [exNode1, exNode2, exNode3] = [2, 5, 9] := by decide
      rw [hv]
      constructor
      · simp
      · intro x hx
        simp at hx
        omega)
    (by decide) (by decide)

/-- C4 (counterexample): two nodes whose raw counters are both 5 get the score 10 each,
not 0. -/
theorem tie_5_5_scores :
    counterValues (scanResult (exIpa 1) exPodP exSnapshot55 [exNode1, exNode2])
        [exNode1, exNode2] = [5, 5]
      ∧ (scanResult (exIpa 1) exPodP exSnapshot55 [exNode1, exNode2]).firstError = none
      ∧ CalculateInterPodAffinityPriority (exIpa 1) [] exPodP exSnapshot55 [exNode1, exNode2]
        = some (.ok [{ Host := "n1", Score := 10 }, { Host := "n2", Score := 10 }]) :=
  ⟨by decide, by decide, ex55_calculate⟩

/-- C4 (witness): the tie of two counters at the value 5. -/
theorem tie_scores_witness :
    ((5 : Int) ≤ 0 → ∀ hp ∈ [({ Host := "n1", Score := 10 } : HostPriority),
        { Host := "n2", Score := 10 }], hp.Score = 0)
      ∧ ((0 : Int) < 5 →
          [({ Host := "n1", Score := 10 } : HostPriority), { Host := "n2", Score := 10 }]
            = [exNode1, exNode2].map (fun n =>
                { Host := n.Name
                  Score := if ((scanResult (exIpa 1) exPodP exSnapshot55
                    [exNode1, exNode2]).counts n.Name).isSome then MaxPriority else 0 })) :=
  tie_scores (exIpa 1) exPodP exSnapshot55 [exNode1, exNode2]
    (scanResult (exIpa 1) exPodP exSnapshot55 [exNode1, exNode2]) _ ex55_scan ex55_calculate 5
    (by
      have h1 : (scanResult (exIpa 1) exPodP exSnapshot55 [exNode1, exNode2]).counts
          exNode1.Name = some 5 := by decide
      have h2 : (scanResult (exIpa 1) exPodP exSnapshot55 [exNode1, exNode2]).counts
          exNode2.Name = some 5 := by decide
      intro n hn c hc
      simp only [List.mem_cons, List.mem_singleton, List.not_mem_nil, or_false] at hn
      rcases hn with rfl | rfl
      · rw [h1] at hc
        exact (Option.some.inj hc).symm
      · rw [h2] at hc
        exact (Option.some.inj hc).symm)

/-- C5 (witness): the scores of a precomputed map with the greatest and the least `int64`
value, for which `maxCount - minCount` wraps around. -/
theorem score_in_range_witness :
    wrap64 ((2 ^ 63 - 1) - (-2 ^ 63)) = -1
      ∧ ∀ hp ∈ precomputedScores [("n1", 2 ^ 63 - 1), ("n2", -2 ^ 63)] [exNode1, exNode2],
        0 ≤ hp.Score ∧ hp.Score ≤ MaxPriority :=
  ⟨by decide,
    score_in_range (exIpa 1) [("n1", 2 ^ 63 - 1), ("n2", -2 ^ 63)] exPodP exSnapshotS
      [exNode1, exNode2] _ (by decide) (calculate_precomputed _ _ _ _ (by decide))⟩

/-- C6 (witness): the hosts of the list returned for the nodes `n1`, `n2` and `n3`. -/
theorem result_hosts_witness :
    [({ Host := "n1", Score := 2 } : HostPriority), { Host := "n2", Score := 5 },
        { Host := "n3", Score := 10 }].length = [exNode1, exNode2, exNode3].length
      ∧ [({ Host := "n1", Score := 2 } : HostPriority), { Host := "n2", Score := 5 },
          { Host := "n3", Score := 10 }].map HostPriority.Host
        = [exNode1, exNode2, exNode3].map Node.Name :=
  result_hosts (exIpa 1) [] exPodP exSnapshot259 [exNode1, exNode2, exNode3] _ ex259_calculate

/-- C7 (counterexample): the only term of the incoming pod is a required pod-affinity term
whose selector cannot be parsed; the scan never parses it and the call returns a list and
no error. -/
theorem unparsable_required_term_ignored :
    unparsable exBadTerm
      ∧ exBadTerm ∈ requiredAffinityTerms exPodBadRequired
      ∧ CalculateInterPodAffinityPriority (exIpa 1) [] exPodBadRequired exSnapshotS
          [exNode1, exNode2]
        = some (.ok [{ Host := "n1", Score := 0 }, { Host := "n2", Score := 0 }]) :=
  ⟨⟨_, rfl⟩, List.mem_singleton.mpr rfl, exBadRequired_calculate⟩

/-- C7 (witness): a preferred term of the incoming pod that cannot be parsed is processed
against the pod `S` on `n1`. -/
theorem unparsable_selector_error_witness :
    ∃ err, CalculateInterPodAffinityPriority (exIpa 1) [] exPodBadPreferred exSnapshotS
      [exNode1, exNode2] = some (.error err) :=
  unparsable_selector_error (exIpa 1) exPodBadPreferred exSnapshotS [exNode1, exNode2]
    (scanResult (exIpa 1) exPodBadPreferred exSnapshotS [exNode1, exNode2])
    (scan_eq_scanResult (by decide)) (exPodS "n1") (List.mem_singleton.mpr rfl) exNode1 rfl
    (Or.inl ⟨⟨1, exBadTerm⟩, List.mem_singleton.mpr rfl, ⟨_, rfl⟩⟩)

/-- C8 (witness): the incoming pod whose only term is the anti-affinity term of weight 5,
and the pod `S` on `n1`: the call of `processPod` returns, and the step for the term takes
the counter of `n1` from 0 to -5. -/
theorem anti_affinity_lowers_witness :
    ∃ pm1 q q' pm2 cq,
      (initCounts exPodAnti exSnapshotS (newPodAffinityPriorityMap [exNode1, exNode2])).processTerms
          (preferredAffinityTerms exPodAnti) exPodAnti (exPodS "n1") exNode1 1 = some pm1
      ∧ pm1.processTerms [] exPodAnti (exPodS "n1") exNode1 (-1) = some q
      ∧ q.processTerms [exAntiTerm] exPodAnti (exPodS "n1") exNode1 (-1) = some q'
      ∧ q'.processTerms [] exPodAnti (exPodS "n1") exNode1 (-1) = some pm2
      ∧ processIncomingTerms exPodAnti
          (initCounts exPodAnti exSnapshotS (newPodAffinityPriorityMap [exNode1, exNode2]))
          (exPodS "n1") exNode1 = some pm2
      ∧ processExistingTerms (exIpa 1) exPodAnti pm2 (exPodS "n1") exNode1
          = some { initCounts exPodAnti exSnapshotS
              (newPodAffinityPriorityMap [exNode1, exNode2]) with
            counts := fun s => if s = "n1" then some (-5)
              else (initCounts exPodAnti exSnapshotS
                (newPodAffinityPriorityMap [exNode1, exNode2])).counts s }
      ∧ q.counts exNode1.Name = some cq
      ∧ q'.counts exNode1.Name = some (wrap64 (cq - exAntiTerm.Weight))
      ∧ (-2 ^ 63 ≤ cq - exAntiTerm.Weight →
          q'.counts exNode1.Name = some (cq - exAntiTerm.Weight)
            ∧ cq - exAntiTerm.Weight ≤ cq) :=
  anti_affinity_lowers (exIpa 1) exPodAnti (exPodS "n1") [] [] exAntiTerm
    (initCounts exPodAnti exSnapshotS (newPodAffinityPriorityMap [exNode1, exNode2]))
    { initCounts exPodAnti exSnapshotS (newPodAffinityPriorityMap [exNode1, exNode2]) with
      counts := fun s => if s = "n1" then some (-5)
        else (initCounts exPodAnti exSnapshotS
          (newPodAffinityPriorityMap [exNode1, exNode2])).counts s }
    exNode1 0 rfl rfl rfl (by decide) (by decide)
    (fun s c h => by
      rw [initCounts_counts _ _ _ (by simp [newPodAffinityPriorityMap]) s c h]
      exact isInt64_zero)
    (by decide) (by decide) (by decide) (by decide) (by decide)

/-- C9 (witness): the end-to-end scenario with `hardPodAffinityWeight = 1`. -/
theorem end_to_end_witness :
    (0 : Int) < 1 ∧ (1 : Int) < 2 ^ 31
      ∧ ∃ pm, scan (exIpa 1) exPodP (exSnapshot hostnameKey) [exNode1, exNode2] = some pm
        ∧ pm.counts "n1" = some 1 ∧ pm.counts "n2" = none
        ∧ CalculateInterPodAffinityPriority (exIpa 1) [] exPodP (exSnapshot hostnameKey)
            [exNode1, exNode2]
          = some (.ok [{ Host := "n1", Score := 10 }, { Host := "n2", Score := 0 }]) :=
  ⟨by decide, by decide, end_to_end 1 (by decide) (by decide)⟩

/-- C10 (witness): the incoming pod with the anti-affinity term selecting `app=P` against
the pod `Q`, which carries no label and whose required term does not match the incoming
pod: no term matches and every score is 0. -/
theorem zero_signal_witness :
    ∃ pm, scan (exIpa 1) exPodAnti (exSnapshot hostnameKey) [exNode1, exNode2] = some pm
      ∧ (pm.firstError = none →
          CalculateInterPodAffinityPriority (exIpa 1) [] exPodAnti (exSnapshot hostnameKey)
              [exNode1, exNode2]
            = some (.ok ([exNode1, exNode2].map (fun n => { Host := n.Name, Score := 0 })))) :=
  zero_signal (exIpa 1) exPodAnti (exSnapshot hostnameKey) [exNode1, exNode2]
    (by
      intro e he eNode _
      have hs : scannedPods exPodAnti (exSnapshot hostnameKey) = [exPodQ hostnameKey] := rfl
      rw [hs, List.mem_singleton] at he
      subst he
      unfold noTermMatches
      decide)

/-! ## Stale nodes and the hosts of the result -/

theorem hosts_eq {ipa : InterPodAffinity} {nodeScore : List (String × Int)} {pod : Pod}
    {nodeNameToInfo : List (String × NodeInfo)} {nodes : List Node} {l : List HostPriority}
    (h : CalculateInterPodAffinityPriority ipa nodeScore pod nodeNameToInfo nodes
      = some (.ok l)) : l.map HostPriority.Host = nodes.map Node.Name := by
  rcases calculate_cases h with ⟨_, hl⟩ | ⟨_, pm, _, _, hl⟩
  · rw [hl]
    unfold precomputedScores
    simp [List.map_map, Function.comp_def]
  · rw [hl]
    unfold countsScores
    simp [List.map_map, Function.comp_def]

/-- C18 (amended): in a list returned without error every candidate node name occurs
exactly once as a `Host`, whether or not the node holds a counter or received an
increment, and a name that is not a candidate does not occur, even when it holds a
counter. The candidate nodes have distinct names. -/
theorem candidate_hosts_once (ipa : InterPodAffinity) (nodeScore : List (String × Int))
    (pod : Pod) (nodeNameToInfo : List (String × NodeInfo)) (nodes : List Node)
    (l : List HostPriority)
    (h : CalculateInterPodAffinityPriority ipa nodeScore pod nodeNameToInfo nodes
      = some (.ok l))
    (hnd : (nodes.map Node.Name).Nodup) :
    (∀ n ∈ nodes, (l.map HostPriority.Host).count n.Name = 1)
      ∧ ∀ name, name ∉ nodes.map Node.Name → (l.map HostPriority.Host).count name = 0 := by
  rw [hosts_eq h]
  constructor
  · intro n hn
    exact List.count_eq_one_of_mem hnd (List.mem_map_of_mem _ hn)
  · intro name hname
    exact List.count_eq_zero_of_not_mem hname

theorem processPod_stale {ipa : InterPodAffinity} {e : Pod} {err : Error}
    (hinfo : ipa.info e.NodeName = .error err) (hnf : err.IsNotFound = true) (pod : Pod)
    (pm : podAffinityPriorityMap) :
    processPod ipa pod pm e = some (pm, none) ∧ processPodStep ipa pod pm e = some pm := by
  unfold processPodStep processPod
  simp [hinfo, hnf]

theorem podClean_stale {ipa : InterPodAffinity} {e : Pod} {err : Error}
    (hinfo : ipa.info e.NodeName = .error err) (hnf : err.IsNotFound = true) (pod : Pod) :
    podClean ipa pod e := by
  unfold podClean
  rw [hinfo]
  exact hnf

theorem podSafe_stale {ipa : InterPodAffinity} {e : Pod} {err : Error}
    (hinfo : ipa.info e.NodeName = .error err) (pod : Pod) (counts : String → Option Int)
    (nodes : List Node) : podSafe ipa pod counts nodes e := by
  intro eNode hok
  rw [hinfo] at hok
  cases hok

/-- A scan whose pods are all safe and clean returns a list. -/
theorem calculate_ok_of_safe_clean (ipa : InterPodAffinity) (pod : Pod)
    (nodeNameToInfo : List (String × NodeInfo)) (nodes : List Node)
    (hsafe : ∀ e ∈ scannedPods pod nodeNameToInfo,
      podSafe ipa pod (initCounts pod nodeNameToInfo (newPodAffinityPriorityMap nodes)).counts
        nodes e)
    (hclean : ∀ e ∈ scannedPods pod nodeNameToInfo, podClean ipa pod e) :
    ∃ pm, scan ipa pod nodeNameToInfo nodes = some pm ∧ pm.firstError = none
      ∧ CalculateInterPodAffinityPriority ipa [] pod nodeNameToInfo nodes
        = some (.ok (countsScores pm nodes)) := by
  obtain ⟨pm, hscan⟩ := scan_isSome ipa pod nodeNameToInfo nodes hsafe
  have herr := scan_firstError hscan hclean
  refine ⟨pm, hscan, herr, ?_⟩
  rw [calculate_scan hscan, herr]

/-- C13: an existing pod whose node lookup returns a not-found error changes no counter and
records no error (`processPod` returns the accumulator as it was and a nil error), the loop
goes on with the remaining pods, and the call returns a list when every scanned pod is
either such a pod or a pod whose processing touches only allocated counters, with terms
that parse and a lookup that succeeds. -/
theorem stale_node_skipped (ipa : InterPodAffinity) (pod : Pod)
    (nodeNameToInfo : List (String × NodeInfo)) (nodes : List Node) (e : Pod) (err : Error)
    (hinfo : ipa.info e.NodeName = .error err) (hnf : err.IsNotFound = true)
    (hrest : ∀ e' ∈ scannedPods pod nodeNameToInfo,
      (∃ err', ipa.info e'.NodeName = .error err' ∧ err'.IsNotFound = true)
        ∨ (podSafe ipa pod
            (initCounts pod nodeNameToInfo (newPodAffinityPriorityMap nodes)).counts nodes e'
          ∧ podClean ipa pod e')) :
    (∀ pm, processPod ipa pod pm e = some (pm, none))
      ∧ (∀ pm rest, (e :: rest).foldlM (processPodStep ipa pod) pm
          = rest.foldlM (processPodStep ipa pod) pm)
      ∧ ∃ l, CalculateInterPodAffinityPriority ipa [] pod nodeNameToInfo nodes
          = some (.ok l) := by
  refine ⟨fun pm => (processPod_stale hinfo hnf pod pm).1, fun pm rest => ?_, ?_⟩
  · simp [List.foldlM_cons, (processPod_stale hinfo hnf pod pm).2]
  · obtain ⟨pm, _, _, hcalc⟩ := calculate_ok_of_safe_clean ipa pod nodeNameToInfo nodes
      (fun e' he' => by
        rcases hrest e' he' with ⟨err', h1, _⟩ | ⟨h, _⟩
        · exact podSafe_stale h1 pod _ nodes
        · exact h)
      (fun e' he' => by
        rcases hrest e' he' with ⟨err', h1, h2⟩ | ⟨_, h⟩
        · exact podClean_stale h1 h2 pod
        · exact h)
    exact ⟨_, hcalc⟩

theorem podSafe_nil (ipa : InterPodAffinity) (pod : Pod) (counts : String → Option Int)
    (e : Pod) : podSafe ipa pod counts [] e := by
  intro eNode _
  refine ⟨?_, ?_, ?_, ?_, ?_⟩ <;> intros <;> intro _ n hn <;> cases hn

theorem countsScores_nil (pm : podAffinityPriorityMap) : countsScores pm [] = [] := rfl

/-- C19 (amended): for an empty candidate node list the call never panics (no counter is
touched and nothing is divided); it returns the empty list and no error on the precomputed
path and whenever the scan records no error, and otherwise the error recorded by the scan,
which still runs over every pod of the snapshot. -/
theorem empty_candidates (ipa : InterPodAffinity) (nodeScore : List (String × Int)) (pod : Pod)
    (nodeNameToInfo : List (String × NodeInfo)) :
    ∃ r, CalculateInterPodAffinityPriority ipa nodeScore pod nodeNameToInfo [] = some r
      ∧ (r = .ok [] ∨ ∃ err, r = .error err)
      ∧ (nodeScore.length > 0 → r = .ok [])
      ∧ ((∀ e ∈ scannedPods pod nodeNameToInfo, podClean ipa pod e) → r = .ok []) := by
  by_cases hlen : nodeScore.length > 0
  · refine ⟨.ok [], ?_, Or.inl rfl, fun _ => rfl, fun _ => rfl⟩
    rw [calculate_precomputed _ _ _ _ hlen]
    rfl
  · have hnil : nodeScore = [] := by
      cases nodeScore with
      | nil => rfl
      | cons a as => simp at hlen
    subst hnil
    obtain ⟨pm, hscan⟩ := scan_isSome ipa pod nodeNameToInfo []
      (fun e _ => podSafe_nil ipa pod _ e)
    cases herr : pm.firstError with
    | none =>
      refine ⟨.ok [], ?_, Or.inl rfl, fun _ => rfl, fun _ => rfl⟩
      rw [calculate_scan hscan, herr]
      rfl
    | some err =>
      refine ⟨.error err, ?_, Or.inr ⟨err, rfl⟩, fun h => absurd h hlen, fun hclean => ?_⟩
      · rw [calculate_scan hscan, herr]
      · rw [scan_firstError hscan hclean] at herr
        cases herr

/-! ## Concrete runs of the lazy allocation -/

theorem scanAll_eq_scanAllResult {ipa : InterPodAffinity} {pod : Pod}
    {nodeNameToInfo : List (String × NodeInfo)} {nodes : List Node}
    (h : (scanAllCounters ipa pod nodeNameToInfo nodes).isSome = true) :
    scanAllCounters ipa pod nodeNameToInfo nodes
      = some (scanAllResult ipa pod nodeNameToInfo nodes) := by
  unfold scanAllResult
  obtain ⟨pm, hpm⟩ := Option.isSome_iff_exists.mp h
  rw [hpm]
  rfl

theorem calculateAll_scan {ipa : InterPodAffinity} {pod : Pod}
    {nodeNameToInfo : List (String × NodeInfo)} {nodes : List Node}
    {pm : podAffinityPriorityMap}
    (hscan : scanAllCounters ipa pod nodeNameToInfo nodes = some pm) :
    CalculateAllCounters ipa pod nodeNameToInfo nodes
      = match pm.firstError with
        | some err => some (.error err)
        | none => some (.ok (countsScores pm nodes)) := by
  unfold CalculateAllCounters
  simp [hscan]

theorem exAway_calculate :
    CalculateInterPodAffinityPriority (exIpa 1) [] exPodP exSnapshotAway [exNode1, exNode2]
      = some (.ok [{ Host := "n1", Score := 0 }, { Host := "n2", Score := 0 }]) := by
  have hscan : scan (exIpa 1) exPodP exSnapshotAway [exNode1, exNode2]
      = some (scanResult (exIpa 1) exPodP exSnapshotAway [exNode1, exNode2]) :=
    scan_eq_scanResult (by decide)
  have h1 : (scanResult (exIpa 1) exPodP exSnapshotAway [exNode1, exNode2]).counts
      exNode1.Name = some (-5) := by decide
  have h2 : (scanResult (exIpa 1) exPodP exSnapshotAway [exNode1, exNode2]).counts
      exNode2.Name = none := by decide
  have herr : (scanResult (exIpa 1) exPodP exSnapshotAway [exNode1, exNode2]).firstError
      = none := by decide
  have hmm : countsMaxMin (scanResult (exIpa 1) exPodP exSnapshotAway [exNode1, exNode2])
      [exNode1, exNode2] = (0, -5) := by
    simp [countsMaxMin, h1, h2, updateMaxMin]
  have hd : wrap64 (0 - -5) > 0 := by decide
  have s1 : scaledScore (-5) 0 (-5) = 0 := by
    rw [scaledScore_exact (by decide) (by decide) (by decide) (by decide) (by decide) (by decide)]
    decide
  rw [calculate_scan hscan, herr]
  simp only [countsScores, hmm, List.map_cons, List.map_nil, h1, h2, hd, if_true, s1,
    f64toInt_zero]
  rfl

theorem exAway_calculateAll :
    CalculateAllCounters (exIpa 1) exPodP exSnapshotAway [exNode1, exNode2]
      = some (.ok [{ Host := "n1", Score := 0 }, { Host := "n2", Score := 10 }]) := by
  have hscan : scanAllCounters (exIpa 1) exPodP exSnapshotAway [exNode1, exNode2]
      = some (scanAllResult (exIpa 1) exPodP exSnapshotAway [exNode1, exNode2]) :=
    scanAll_eq_scanAllResult (by decide)
  have h1 : (scanAllResult (exIpa 1) exPodP exSnapshotAway [exNode1, exNode2]).counts
      exNode1.Name = some (-5) := by decide
  have h2 : (scanAllResult (exIpa 1) exPodP exSnapshotAway [exNode1, exNode2]).counts
      exNode2.Name = some 0 := by decide
  have herr : (scanAllResult (exIpa 1) exPodP exSnapshotAway [exNode1, exNode2]).firstError
      = none := by decide
  have hmm : countsMaxMin (scanAllResult (exIpa 1) exPodP exSnapshotAway [exNode1, exNode2])
      [exNode1, exNode2] = (0, -5) := by
    simp [countsMaxMin, h1, h2, updateMaxMin]
  have hd : wrap64 (0 - -5) > 0 := by decide
  have s1 : scaledScore (-5) 0 (-5) = 0 := by
    rw [scaledScore_exact (by decide) (by decide) (by decide) (by decide) (by decide) (by decide)]
    decide
  have s2 : scaledScore 0 0 (-5) = 10 := by
    rw [scaledScore_exact (by decide) (by decide) (by decide) (by decide) (by decide) (by decide)]
    decide
  rw [calculateAll_scan hscan, herr]
  simp only [countsScores, hmm, List.map_cons, List.map_nil, h1, h2, hd, if_true, s1, s2]
  rfl

theorem exAntiOne_calculate :
    CalculateInterPodAffinityPriority (exIpa 1) [] exPodAnti exSnapshotS [exNode1]
      = some (.ok [{ Host := "n1", Score := 0 }]) := by
  have hscan : scan (exIpa 1) exPodAnti exSnapshotS [exNode1]
      = some (scanResult (exIpa 1) exPodAnti exSnapshotS [exNode1]) :=
    scan_eq_scanResult (by decide)
  have h1 : (scanResult (exIpa 1) exPodAnti exSnapshotS [exNode1]).counts
      exNode1.Name = some (-5) := by decide
  have herr : (scanResult (exIpa 1) exPodAnti exSnapshotS [exNode1]).firstError
      = none := by decide
  have hmm : countsMaxMin (scanResult (exIpa 1) exPodAnti exSnapshotS [exNode1])
      [exNode1] = (0, -5) := by
    simp [countsMaxMin, h1, updateMaxMin]
  have hd : wrap64 (0 - -5) > 0 := by decide
  have s1 : scaledScore (-5) 0 (-5) = 0 := by
    rw [scaledScore_exact (by decide) (by decide) (by decide) (by decide) (by decide) (by decide)]
    decide
  rw [calculate_scan hscan, herr]
  simp only [countsScores, hmm, List.map_cons, List.map_nil, h1, hd, if_true, s1]
  rfl

theorem exBadPreferred_empty :
    CalculateInterPodAffinityPriority (exIpa 1) [] exPodBadPreferred exSnapshotS []
      = some (.error ⟨"==", false⟩) := by
  have hscan : scan (exIpa 1) exPodBadPreferred exSnapshotS []
      = some (scanResult (exIpa 1) exPodBadPreferred exSnapshotS []) :=
    scan_eq_scanResult (by decide)
  have herr : (scanResult (exIpa 1) exPodBadPreferred exSnapshotS []).firstError
      = some ⟨"==", false⟩ := by decide
  rw [calculate_scan hscan, herr]

/-! ## The namespaces of a term come from the declaring pod -/

theorem getNamespaces_eq_resolved (pod : Pod) (term : PodAffinityTerm) :
    GetNamespacesFromPodAffinityTerm pod term = resolvedNamespaces pod term := by
  unfold GetNamespacesFromPodAffinityTerm resolvedNamespaces
  by_cases h : term.Namespaces = []
  · simp [h]
  · have : ¬ term.Namespaces.length = 0 := fun hl => h (List.length_eq_zero.mp hl)
    simp [h, this]

theorem termDelta_eq_termDeltaIn (nodes : List Node) (term : PodAffinityTerm) (d c : Pod)
    (fixedNode : Node) (w : Int) (s : String) :
    termDelta nodes term d c fixedNode w s
      = termDeltaIn nodes term (resolvedNamespaces d term) c fixedNode w s := by
  unfold termDelta termDeltaIn termMatches
  rw [getNamespaces_eq_resolved]
  cases LabelSelectorAsSelector term.LabelSelector with
  | error err => simp
  | ok selector => simp

theorem termsDelta_eq_declaredDelta (nodes : List Node) (terms : List WeightedPodAffinityTerm)
    (d c : Pod) (fixedNode : Node) (multiplier : Int) (s : String) :
    termsDelta nodes terms d c fixedNode multiplier s
      = declaredDelta nodes terms d c fixedNode multiplier s := by
  unfold termsDelta declaredDelta
  congr 1
  apply List.map_congr_left
  intro t _
  exact termDelta_eq_termDeltaIn _ _ _ _ _ _ _

theorem hardTermsDelta_eq_declaredHardDelta (nodes : List Node) (terms : List PodAffinityTerm)
    (d c : Pod) (fixedNode : Node) (w : Int) (s : String) :
    hardTermsDelta nodes terms d c fixedNode w s
      = declaredHardDelta nodes terms d c fixedNode w s := by
  unfold hardTermsDelta declaredHardDelta
  congr 1
  apply List.map_congr_left
  intro t _
  exact termDelta_eq_termDeltaIn _ _ _ _ _ _ _

theorem termDeltaIn_other_namespace (nodes : List Node) (term : PodAffinityTerm)
    (declaringPod matchedPod : Pod) (fixedNode : Node) (w : Int) (s : String)
    (hns : term.Namespaces = []) (hne : matchedPod.Namespace ≠ declaringPod.Namespace) :
    termDeltaIn nodes term (resolvedNamespaces declaringPod term) matchedPod fixedNode w s
      = 0 := by
  unfold termDeltaIn resolvedNamespaces PodMatchesTermsNamespaceAndSelector
  rw [if_pos hns]
  cases LabelSelectorAsSelector term.LabelSelector with
  | error err => rfl
  | ok selector =>
    simp only [List.contains_cons, List.contains_nil, Bool.or_false]
    have : (matchedPod.Namespace == declaringPod.Namespace) = false := by
      simp [hne]
    simp [this]

/-- C14: in the processing of an existing pod `e` whose node lookup succeeds, every counter
grows by the sum of the effects of the terms, where the namespace set of each term is
resolved from the pod that declares it: from the incoming pod for its preferred terms,
which are matched against `e`, and from `e` for its required and preferred terms, which
are matched against the incoming pod. In particular a term that names no namespace has
no effect when the matched pod is in another namespace than the declaring pod. -/
theorem namespaces_of_declaring_pod (ipa : InterPodAffinity) (pod e : Pod)
    (pm pm' : podAffinityPriorityMap) (eNode : Node)
    (hinfo : ipa.info e.NodeName = .ok eNode)
    (h : processPodStep ipa pod pm e = some pm') (hint : CountsInt64 pm)
    (s : String) (c : Int) (hc : pm.counts s = some c) :
    pm'.counts s = some (wrap64 (c +
        (declaredDelta pm.nodes (preferredAffinityTerms pod) pod e eNode 1 s
          + declaredDelta pm.nodes (preferredAntiAffinityTerms pod) pod e eNode (-1) s
          + (if ipa.hardPodAffinityWeight > 0 then
              declaredHardDelta pm.nodes (requiredAffinityTerms e) e pod eNode
                ipa.hardPodAffinityWeight s
            else 0)
          + declaredDelta pm.nodes (preferredAffinityTerms e) e pod eNode 1 s
          + declaredDelta pm.nodes (preferredAntiAffinityTerms e) e pod eNode (-1) s)))
      ∧ ∀ (term : PodAffinityTerm) (declaringPod matchedPod : Pod) (fixedNode : Node)
          (w : Int), term.Namespaces = [] → matchedPod.Namespace ≠ declaringPod.Namespace →
          termDeltaIn pm.nodes term (resolvedNamespaces declaringPod term) matchedPod
            fixedNode w s = 0 := by
  refine ⟨?_, fun term d m fixedNode w hns hne =>
    termDeltaIn_other_namespace _ _ _ _ _ _ _ hns hne⟩
  have hsh := shifted_processPodStep h
  rw [hsh.counts_eq hint s c hc]
  congr 2
  unfold podDelta
  rw [hinfo]
  simp only [incomingDelta, existingDelta, termsDelta_eq_declaredDelta,
    hardTermsDelta_eq_declaredHardDelta]
  ring

/-! ## The order of the nodes and of the pods -/

theorem sameAlloc_of_shifted {b b' : podAffinityPriorityMap} {d : String → Int}
    (hs : Shifted b b' d) : SameAlloc b b' := by
  refine ⟨hs.nodes_eq, fun s => ?_⟩
  cases hb : b.counts s with
  | none => rw [hs.none_of_none s hb]
  | some c =>
    obtain ⟨c', hc'⟩ := hs.some_of_some s c hb
    rw [hc']
    rfl

theorem sameAlloc_refl (b : podAffinityPriorityMap) : SameAlloc b b := ⟨rfl, fun _ => rfl⟩

theorem sameAlloc_trans {a b c : podAffinityPriorityMap} (h1 : SameAlloc a b)
    (h2 : SameAlloc b c) : SameAlloc a c :=
  ⟨h2.1.trans h1.1, fun s => (h2.2 s).trans (h1.2 s)⟩

theorem termSafe_congr {counts counts' : String → Option Int}
    (h : ∀ s, (counts' s).isSome = (counts s).isSome) {nodes : List Node}
    {term : PodAffinityTerm} {d c : Pod} {fixedNode : Node}
    (hs : termSafe counts' nodes term d c fixedNode) : termSafe counts nodes term d c fixedNode :=
  fun hm n hn htop => by
    rw [← h]
    exact hs hm n hn htop

theorem podSafe_congr {counts counts' : String → Option Int}
    (h : ∀ s, (counts' s).isSome = (counts s).isSome) {ipa : InterPodAffinity} {pod e : Pod}
    {nodes : List Node} (hs : podSafe ipa pod counts' nodes e) :
    podSafe ipa pod counts nodes e := by
  intro eNode hinfo
  obtain ⟨h1, h2, h3, h4, h5⟩ := hs eNode hinfo
  exact ⟨fun t ht => termSafe_congr h (h1 t ht), fun t ht => termSafe_congr h (h2 t ht),
    fun hw t ht => termSafe_congr h (h3 hw t ht), fun t ht => termSafe_congr h (h4 t ht),
    fun t ht => termSafe_congr h (h5 t ht)⟩

theorem foldlM_add_safe (cond : Node → Bool) (w : Int) :
    ∀ (ns : List Node) (acc acc' : podAffinityPriorityMap),
      ns.foldlM (fun acc n => if cond n = true then acc.add n.Name w else some acc) acc
          = some acc' →
        ∀ n ∈ ns, cond n = true → (acc.counts n.Name).isSome := by
  intro ns
  induction ns with
  | nil => exact fun _ _ _ n hn => (List.not_mem_nil n hn).elim
  | cons a ns ih =>
    intro acc acc' h n hn hc
    simp only [List.foldlM_cons, Option.bind_eq_bind, Option.bind_eq_some] at h
    obtain ⟨acc1, h1, hrest⟩ := h
    by_cases ha : cond a = true
    · rw [if_pos ha] at h1
      have hsa := sameAlloc_of_shifted (shifted_add h1)
      rcases List.mem_cons.mp hn with rfl | hmem
      · unfold podAffinityPriorityMap.add at h1
        cases hcn : acc.counts n.Name with
        | none => simp [hcn] at h1
        | some c => rfl
      · rw [← hsa.2]
        exact ih acc1 acc' hrest n hmem hc
    · rw [if_neg ha] at h1
      simp only [Option.some.injEq] at h1
      subst h1
      rcases List.mem_cons.mp hn with rfl | hmem
      · exact absurd hc ha
      · exact ih acc acc' hrest n hmem hc

theorem processTerm_termSafe {p p' : podAffinityPriorityMap} {term : PodAffinityTerm}
    {d c : Pod} {fixedNode : Node} {weight : Int}
    (h : p.processTerm term d c fixedNode weight = some p') :
    termSafe p.counts p.nodes term d c fixedNode := by
  intro hm n hn htop
  unfold termMatches at hm
  unfold podAffinityPriorityMap.processTerm at h
  cases hsel : LabelSelectorAsSelector term.LabelSelector with
  | error err => simp [hsel] at hm
  | ok selector =>
    simp only [hsel] at hm h
    rw [if_pos hm] at h
    exact foldlM_add_safe (fun n => NodesHaveSameTopologyKey n fixedNode term.TopologyKey)
      weight p.nodes p p' h n hn htop

theorem foldlM_safe_of_some {α : Type}
    (f : podAffinityPriorityMap → α → Option podAffinityPriorityMap)
    (S : (String → Option Int) → List Node → α → Prop)
    (hS : ∀ b x b', f b x = some b' → S b.counts b.nodes x)
    (hsh : ∀ b x b', f b x = some b' → SameAlloc b b')
    (hcongr : ∀ (c c' : String → Option Int) nodes x,
      (∀ s, (c' s).isSome = (c s).isSome) → S c' nodes x → S c nodes x) :
    ∀ (xs : List α) (b b' : podAffinityPriorityMap), xs.foldlM f b = some b' →
      (∀ x ∈ xs, S b.counts b.nodes x) ∧ SameAlloc b b' := by
  intro xs
  induction xs with
  | nil =>
    intro b b' h
    simp only [List.foldlM_nil, Option.pure_def, Option.some.injEq] at h
    subst h
    exact ⟨fun x hx => (List.not_mem_nil x hx).elim, sameAlloc_refl b⟩
  | cons a xs ih =>
    intro b b' h
    simp only [List.foldlM_cons, Option.bind_eq_bind, Option.bind_eq_some] at h
    obtain ⟨q, hq, hrest⟩ := h
    obtain ⟨hxs, hsa⟩ := ih q b' hrest
    have hbq := hsh b a q hq
    refine ⟨fun x hx => ?_, sameAlloc_trans hbq hsa⟩
    rcases List.mem_cons.mp hx with rfl | hmem
    · exact hS b x q hq
    · have := hxs x hmem
      rw [hbq.1] at this
      exact hcongr b.counts q.counts b.nodes x hbq.2 this

theorem processTerms_termSafe {p p' : podAffinityPriorityMap}
    {terms : List WeightedPodAffinityTerm} {d c : Pod} {fixedNode : Node} {multiplier : Int}
    (h : p.processTerms terms d c fixedNode multiplier = some p') :
    (∀ t ∈ terms, termSafe p.counts p.nodes t.PodAffinityTerm d c fixedNode)
      ∧ SameAlloc p p' := by
  unfold podAffinityPriorityMap.processTerms at h
  exact foldlM_safe_of_some
    (fun acc (term : WeightedPodAffinityTerm) =>
      acc.processTerm term.PodAffinityTerm d c fixedNode (wrap32 (term.Weight * wrap32 multiplier)))
    (fun counts nodes (t : WeightedPodAffinityTerm) =>
      termSafe counts nodes t.PodAffinityTerm d c fixedNode)
    (fun b x b' hb => processTerm_termSafe hb)
    (fun b x b' hb => sameAlloc_of_shifted (shifted_processTerm hb))
    (fun _ _ _ _ hc hs => termSafe_congr hc hs) terms p p' h

theorem processHardTerms_termSafe {p p' : podAffinityPriorityMap}
    {terms : List PodAffinityTerm} {d c : Pod} {fixedNode : Node} {weight : Int}
    (h : processHardTerms p terms d c fixedNode weight = some p') :
    (∀ t ∈ terms, termSafe p.counts p.nodes t d c fixedNode) ∧ SameAlloc p p' := by
  unfold processHardTerms at h
  exact foldlM_safe_of_some
    (fun acc (term : PodAffinityTerm) => acc.processTerm term d c fixedNode weight)
    (fun counts nodes (t : PodAffinityTerm) => termSafe counts nodes t d c fixedNode)
    (fun b x b' hb => processTerm_termSafe hb)
    (fun b x b' hb => sameAlloc_of_shifted (shifted_processTerm hb))
    (fun _ _ _ _ hc hs => termSafe_congr hc hs) terms p p' h

theorem termSafe_of_sameAlloc {a b : podAffinityPriorityMap} (h : SameAlloc a b)
    {term : PodAffinityTerm} {d c : Pod} {fixedNode : Node}
    (hs : termSafe b.counts b.nodes term d c fixedNode) :
    termSafe a.counts a.nodes term d c fixedNode := by
  rw [h.1] at hs
  exact termSafe_congr h.2 hs

theorem processPodStep_podSafe {ipa : InterPodAffinity} {pod e : Pod}
    {pm pm' : podAffinityPriorityMap} (h : processPodStep ipa pod pm e = some pm') :
    podSafe ipa pod pm.counts pm.nodes e := by
  intro eNode hinfo
  obtain ⟨q1, q2, q3, q4, h1, h2, h3, h4, h5⟩ := processPodStep_stages hinfo h
  obtain ⟨s1, a1⟩ := processTerms_termSafe h1
  obtain ⟨s2, a2⟩ := processTerms_termSafe h2
  obtain ⟨s4, a4⟩ := processTerms_termSafe h4
  obtain ⟨s5, _⟩ := processTerms_termSafe h5
  have a12 := sameAlloc_trans a1 a2
  have h3' : (ipa.hardPodAffinityWeight > 0 →
      ∀ t ∈ requiredAffinityTerms e, termSafe q2.counts q2.nodes t e pod eNode)
      ∧ SameAlloc q2 q3 := by
    by_cases hw : ipa.hardPodAffinityWeight > 0
    · rw [if_pos hw] at h3
      obtain ⟨s3, a3⟩ := processHardTerms_termSafe h3
      exact ⟨fun _ => s3, a3⟩
    · rw [if_neg hw] at h3
      simp only [Option.some.injEq] at h3
      subst h3
      exact ⟨fun hw' => absurd hw' hw, sameAlloc_refl _⟩
  obtain ⟨s3, a3⟩ := h3'
  have a123 := sameAlloc_trans a12 a3
  have a1234 := sameAlloc_trans a123 a4
  exact ⟨s1, fun t ht => termSafe_of_sameAlloc a1 (s2 t ht),
    fun hw t ht => termSafe_of_sameAlloc a12 (s3 hw t ht),
    fun t ht => termSafe_of_sameAlloc a123 (s4 t ht),
    fun t ht => termSafe_of_sameAlloc a1234 (s5 t ht)⟩

/-- A scan that completes only touches counters that the pre-allocation has allocated. -/
theorem scan_podSafe {ipa : InterPodAffinity} {pod : Pod}
    {nodeNameToInfo : List (String × NodeInfo)} {nodes : List Node}
    {pm : podAffinityPriorityMap} (hscan : scan ipa pod nodeNameToInfo nodes = some pm) :
    ∀ e ∈ scannedPods pod nodeNameToInfo,
      podSafe ipa pod (initCounts pod nodeNameToInfo (newPodAffinityPriorityMap nodes)).counts
        nodes e := by
  unfold scan at hscan
  have hnodeStep : ∀ b name b', processNode ipa pod nodeNameToInfo b name = some b' →
      (∀ e ∈ nodePods pod nodeNameToInfo name, podSafe ipa pod b.counts b.nodes e)
        ∧ SameAlloc b b' := by
    intro b name b' hb
    rw [processNode_eq] at hb
    exact foldlM_safe_of_some (processPodStep ipa pod)
      (fun counts nodes e => podSafe ipa pod counts nodes e)
      (fun r x r' hr => processPodStep_podSafe hr)
      (fun r x r' hr => sameAlloc_of_shifted (shifted_processPodStep hr))
      (fun _ _ _ _ hc hs => podSafe_congr hc hs) _ b b' hb
  have := (foldlM_safe_of_some (processNode ipa pod nodeNameToInfo)
    (fun counts nodes name => ∀ e ∈ nodePods pod nodeNameToInfo name,
      podSafe ipa pod counts nodes e)
    (fun b x b' hb => (hnodeStep b x b' hb).1)
    (fun b x b' hb => (hnodeStep b x b' hb).2)
    (fun _ _ _ _ hc hs e he => podSafe_congr hc (hs e he)) _ _ pm hscan).1
  intro e he
  unfold scannedPods at he
  obtain ⟨podsOfName, hmem, hepods⟩ := List.mem_flatten.mp he
  obtain ⟨name, hname, rfl⟩ := List.mem_map.mp hmem
  have h := this name hname e hepods
  rw [initCounts_nodes] at h
  exact h

theorem processPodStep_not_clean {ipa : InterPodAffinity} {pod e : Pod}
    {pm pm' : podAffinityPriorityMap} (hnc : ¬ podClean ipa pod e)
    (h : processPodStep ipa pod pm e = some pm') : pm'.firstError ≠ none := by
  unfold podClean at hnc
  cases hinfo : ipa.info e.NodeName with
  | error err =>
    simp only [hinfo] at hnc
    unfold processPodStep processPod at h
    simp only [hinfo, hnc, Option.some.injEq] at h
    simp at h
    rw [← h]
    exact setError_firstError pm err
  | ok eNode =>
    simp only [hinfo] at hnc
    apply processPodStep_unparsable hinfo _ h
    unfold hasUnparsableTerm
    by_contra hno
    simp only [not_or, not_and, not_exists] at hno
    obtain ⟨n1, n2, n3, n4, n5⟩ := hno
    exact hnc ⟨fun t ht => n1 t ht, fun t ht => n2 t ht, fun hw t ht => n3 hw t ht,
      fun t ht => n4 t ht, fun t ht => n5 t ht⟩

/-- A scan that records no error has only met lookups that succeed or fail with a
not-found error and terms that parse. -/
theorem scan_podClean {ipa : InterPodAffinity} {pod : Pod}
    {nodeNameToInfo : List (String × NodeInfo)} {nodes : List Node}
    {pm : podAffinityPriorityMap} (hscan : scan ipa pod nodeNameToInfo nodes = some pm)
    (herr : pm.firstError = none) :
    ∀ e ∈ scannedPods pod nodeNameToInfo, podClean ipa pod e := by
  intro e he
  by_contra hnc
  unfold scannedPods at he
  obtain ⟨podsOfName, hmem, hepods⟩ := List.mem_flatten.mp he
  obtain ⟨name, hname, rfl⟩ := List.mem_map.mp hmem
  unfold scan at hscan
  refine foldlM_firstError (processNode ipa pod nodeNameToInfo)
    (fun q x q' hq => (shifted_processNode hq).error_mono) (a := name) ?_ _ _ _ hscan
    (Or.inl hname) herr
  intro q q' hq
  rw [processNode_eq] at hq
  exact foldlM_firstError (processPodStep ipa pod)
    (fun r x r' hr => (shifted_processPodStep hr).error_mono) (a := e)
    (fun r r' hr => processPodStep_not_clean hnc hr) _ _ _ hq (Or.inl hepods)

theorem initCounts_step_eq (pod : Pod) (nodeNameToInfo : List (String × NodeInfo))
    (names : List String) (pm : podAffinityPriorityMap) (s : String) :
    (names.foldl
      (fun acc name =>
        let lazyInit := hasAffinityConstraints pod || hasAntiAffinityConstraints pod
        match nodeNameToInfo.lookup name with
        | some nodeInfo =>
          if lazyInit || nodeInfo.podsWithAffinity.length ≠ 0 then acc.alloc name else acc
        | none => if lazyInit then acc.alloc name else acc)
      pm).counts s
      = if s ∈ names ∧ allocates pod nodeNameToInfo s = true then some 0 else pm.counts s := by
  induction names generalizing pm with
  | nil => simp
  | cons name names ih =>
    rw [List.foldl_cons, ih]
    by_cases hs : s = name
    · subst hs
      unfold allocates
      cases hl : nodeNameToInfo.lookup s with
      | none =>
        by_cases hz : (hasAffinityConstraints pod || hasAntiAffinityConstraints pod) = true
        · simp [hz, podAffinityPriorityMap.alloc]
        · simp [hz]
      | some nodeInfo =>
        by_cases hz : (hasAffinityConstraints pod || hasAntiAffinityConstraints pod) = true
        · simp [hz, podAffinityPriorityMap.alloc]
        · by_cases hp : nodeInfo.podsWithAffinity.length = 0
          · simp [hz, hp]
          · simp [hz, hp, podAffinityPriorityMap.alloc]
    · by_cases hn : s ∈ names ∧ allocates pod nodeNameToInfo s = true
      · have hn2 : s ∈ name :: names ∧ allocates pod nodeNameToInfo s = true :=
          ⟨List.mem_cons_of_mem _ hn.1, hn.2⟩
        rw [if_pos hn, if_pos hn2]
      · have hn2 : ¬ (s ∈ name :: names ∧ allocates pod nodeNameToInfo s = true) := by
          rintro ⟨hm, ha⟩
          rcases List.mem_cons.mp hm with h | h
          · exact hs h
          · exact hn ⟨h, ha⟩
        rw [if_neg hn, if_neg hn2]
        cases hl : nodeNameToInfo.lookup name with
        | none =>
          by_cases hz : (hasAffinityConstraints pod || hasAntiAffinityConstraints pod) = true
          · simp [hz, podAffinityPriorityMap.alloc, hs]
          · simp [hz]
        | some nodeInfo =>
          by_cases hz : (hasAffinityConstraints pod || hasAntiAffinityConstraints pod) = true
          · simp [hz, podAffinityPriorityMap.alloc, hs]
          · by_cases hp : nodeInfo.podsWithAffinity.length = 0
            · simp [hz, hp]
            · simp [hz, hp, podAffinityPriorityMap.alloc, hs]

theorem initCounts_counts_eq (pod : Pod) (nodeNameToInfo : List (String × NodeInfo))
    (pm : podAffinityPriorityMap) (s : String) :
    (initCounts pod nodeNameToInfo pm).counts s
      = if s ∈ allNodeNames nodeNameToInfo ∧ allocates pod nodeNameToInfo s = true then some 0
        else pm.counts s :=
  initCounts_step_eq pod nodeNameToInfo (allNodeNames nodeNameToInfo) pm s

theorem allocates_perm {m m' : List (String × NodeInfo)} (h : SnapshotPerm m m') (pod : Pod)
    (s : String) : allocates pod m s = allocates pod m' s := by
  unfold allocates
  have := h.2 s
  cases h1 : m.lookup s with
  | none =>
    cases h2 : m'.lookup s with
    | none => rfl
    | some b => rw [h1, h2] at this; exact this.elim
  | some a =>
    cases h2 : m'.lookup s with
    | none => rw [h1, h2] at this; exact this.elim
    | some b =>
      rw [h1, h2] at this
      have hlen := this.2.2.length_eq
      simp only [hlen]

theorem initCounts_perm {m m' : List (String × NodeInfo)} (h : SnapshotPerm m m') (pod : Pod)
    (pm : podAffinityPriorityMap) (s : String) :
    (initCounts pod m pm).counts s = (initCounts pod m' pm).counts s := by
  rw [initCounts_counts_eq, initCounts_counts_eq, allocates_perm h]
  have hm : s ∈ allNodeNames m ↔ s ∈ allNodeNames m' := h.1.mem_iff
  simp only [hm]

theorem nodePods_perm {m m' : List (String × NodeInfo)} (h : SnapshotPerm m m') (pod : Pod)
    (name : String) : (nodePods pod m name).Perm (nodePods pod m' name) := by
  unfold nodePods
  have := h.2 name
  cases h1 : m.lookup name with
  | none =>
    cases h2 : m'.lookup name with
    | none => exact List.Perm.refl _
    | some b => rw [h1, h2] at this; exact this.elim
  | some a =>
    cases h2 : m'.lookup name with
    | none => rw [h1, h2] at this; exact this.elim
    | some b =>
      rw [h1, h2] at this
      obtain ⟨hn, hp, hpa⟩ := this
      show (podsToProcess pod a).Perm (podsToProcess pod b)
      unfold podsToProcess
      rw [hn]
      split_ifs
      · exact hp
      · exact hpa
      · exact List.Perm.refl _

theorem mem_scannedPods_iff {pod : Pod} {m : List (String × NodeInfo)} {e : Pod} :
    e ∈ scannedPods pod m ↔ ∃ name ∈ allNodeNames m, e ∈ nodePods pod m name := by
  unfold scannedPods
  constructor
  · intro he
    obtain ⟨l, hl, hel⟩ := List.mem_flatten.mp he
    obtain ⟨name, hname, rfl⟩ := List.mem_map.mp hl
    exact ⟨name, hname, hel⟩
  · rintro ⟨name, hname, hel⟩
    exact List.mem_flatten.mpr ⟨_, List.mem_map_of_mem _ hname, hel⟩

theorem scannedPods_mem_perm {m m' : List (String × NodeInfo)} (h : SnapshotPerm m m')
    (pod e : Pod) : e ∈ scannedPods pod m ↔ e ∈ scannedPods pod m' := by
  rw [mem_scannedPods_iff, mem_scannedPods_iff]
  constructor
  · rintro ⟨name, hname, hel⟩
    exact ⟨name, h.1.mem_iff.mp hname, (nodePods_perm h pod name).mem_iff.mp hel⟩
  · rintro ⟨name, hname, hel⟩
    exact ⟨name, h.1.mem_iff.mpr hname, (nodePods_perm h pod name).mem_iff.mpr hel⟩

theorem scannedPods_sum_perm {m m' : List (String × NodeInfo)} (h : SnapshotPerm m m')
    (pod : Pod) (f : Pod → Int) :
    ((scannedPods pod m).map f).sum = ((scannedPods pod m').map f).sum := by
  unfold scannedPods
  rw [sum_map_flatten, sum_map_flatten, List.map_map, List.map_map]
  have hinner : ∀ name, (((fun l => (List.map f l).sum) ∘ nodePods pod m) name)
      = (((fun l => (List.map f l).sum) ∘ nodePods pod m') name) := by
    intro name
    exact ((nodePods_perm h pod name).map f).sum_eq
  rw [show ((fun l => (List.map f l).sum) ∘ nodePods pod m)
      = ((fun l => (List.map f l).sum) ∘ nodePods pod m') from funext hinner]
  exact (h.1.map _).sum_eq

theorem countsScores_congr {pm pm' : podAffinityPriorityMap}
    (h : ∀ s, pm'.counts s = pm.counts s) (nodes : List Node) :
    countsScores pm' nodes = countsScores pm nodes := by
  have hf : pm'.counts = pm.counts := funext h
  unfold countsScores countsMaxMin
  rw [hf]

theorem scan_order_aux {ipa : InterPodAffinity} {pod : Pod} {m m' : List (String × NodeInfo)}
    {nodes : List Node} {pm : podAffinityPriorityMap} (hperm : SnapshotPerm m m')
    (hscan : scan ipa pod m nodes = some pm) :
    ∃ pm', scan ipa pod m' nodes = some pm'
      ∧ (∀ s, pm'.counts s = pm.counts s)
      ∧ (pm.firstError = none → pm'.firstError = none
          ∧ CalculateInterPodAffinityPriority ipa [] pod m' nodes
            = CalculateInterPodAffinityPriority ipa [] pod m nodes) := by
  have hinit : ∀ s, (initCounts pod m (newPodAffinityPriorityMap nodes)).counts s
      = (initCounts pod m' (newPodAffinityPriorityMap nodes)).counts s :=
    fun s => initCounts_perm hperm pod _ s
  have hsafe := scan_podSafe hscan
  obtain ⟨pm', hscan'⟩ := scan_isSome ipa pod m' nodes (fun e he => by
    have := hsafe e ((scannedPods_mem_perm hperm pod e).mpr he)
    exact podSafe_congr (fun s => by rw [hinit s]) this)
  have hcounts : ∀ s, pm'.counts s = pm.counts s := by
    intro s
    have hs := shifted_scan hscan
    have hs' := shifted_scan hscan'
    cases h0 : (initCounts pod m (newPodAffinityPriorityMap nodes)).counts s with
    | none =>
      rw [hs.none_of_none s h0, hs'.none_of_none s (by rw [← hinit s]; exact h0)]
    | some c0 =>
      obtain ⟨c, hc⟩ := hs.some_of_some s c0 h0
      obtain ⟨c', hc'⟩ := hs'.some_of_some s c0 (by rw [← hinit s]; exact h0)
      rw [hc, hc', scan_counts hscan hc, scan_counts hscan' hc',
        scannedPods_sum_perm hperm pod]
  refine ⟨pm', hscan', hcounts, fun herr => ?_⟩
  have hclean := scan_podClean hscan herr
  have herr' : pm'.firstError = none :=
    scan_firstError hscan' (fun e he => hclean e ((scannedPods_mem_perm hperm pod e).mpr he))
  refine ⟨herr', ?_⟩
  rw [calculate_scan hscan, calculate_scan hscan', herr, herr', countsScores_congr hcounts]

/-- C17: the raw counters after the scan do not depend on the order in which the nodes and
the pods of each node are processed: if the scan completes for one order of the node work
list and of the pod lists, it completes for every other order with the same counters, and
when no error is recorded the two runs return the same list. -/
theorem scan_order_independent (ipa : InterPodAffinity) (pod : Pod)
    (m m' : List (String × NodeInfo)) (nodes : List Node) (pm : podAffinityPriorityMap)
    (hperm : SnapshotPerm m m') (hscan : scan ipa pod m nodes = some pm) :
    ∃ pm', scan ipa pod m' nodes = some pm'
      ∧ (∀ s, pm'.counts s = pm.counts s)
      ∧ (pm.firstError = none → pm'.firstError = none
          ∧ CalculateInterPodAffinityPriority ipa [] pod m' nodes
            = CalculateInterPodAffinityPriority ipa [] pod m nodes) :=
  scan_order_aux hperm hscan

/-! ## The scan as a sequence of writes -/

theorem runActions_nil (pm : podAffinityPriorityMap) : runActions pm [] = some pm := rfl

theorem runActions_cons (pm : podAffinityPriorityMap) (a : Action) (as : List Action) :
    runActions pm (a :: as) = (Action.run pm a).bind (fun q => runActions q as) := by
  unfold runActions
  rw [List.foldlM_cons]
  rfl

theorem runActions_append (pm : podAffinityPriorityMap) (as bs : List Action) :
    runActions pm (as ++ bs) = (runActions pm as).bind (fun q => runActions q bs) := by
  unfold runActions
  rw [List.foldlM_append]
  rfl

theorem shifted_run {pm pm' : podAffinityPriorityMap} {a : Action}
    (h : Action.run pm a = some pm') : Shifted pm pm' (Action.delta a) := by
  cases a with
  | add name weight => exact shifted_add h
  | setError err =>
    simp only [Action.run, Option.some.injEq] at h
    subst h
    exact shifted_setError pm err

theorem shifted_runActions {pm pm' : podAffinityPriorityMap} {as : List Action}
    (h : runActions pm as = some pm') :
    Shifted pm pm' (fun s => (as.map (fun a => Action.delta a s)).sum) :=
  shifted_foldlM pm.nodes Action.run Action.delta (fun _ _ _ _ hq => shifted_run hq)
    as pm pm' rfl h

theorem runActions_bind {p : podAffinityPriorityMap} {as : List Action}
    (k : podAffinityPriorityMap → Option podAffinityPriorityMap) (bs : List Node → List Action)
    (hk : ∀ q, k q = runActions q (bs q.nodes)) :
    (runActions p as).bind k = runActions p (as ++ bs p.nodes) := by
  rw [runActions_append]
  cases h : runActions p as with
  | none => rfl
  | some q =>
    simp only [Option.some_bind]
    rw [hk q, (shifted_runActions h).nodes_eq]

theorem foldlM_run_eq {β : Type}
    (f : podAffinityPriorityMap → β → Option podAffinityPriorityMap)
    (g : List Node → β → List Action) (hf : ∀ p x, f p x = runActions p (g p.nodes x)) :
    ∀ (xs : List β) (p : podAffinityPriorityMap),
      xs.foldlM f p = runActions p ((xs.map (g p.nodes)).flatten) := by
  intro xs
  induction xs with
  | nil => intro p; rfl
  | cons x xs ih =>
    intro p
    rw [List.foldlM_cons, List.map_cons, List.flatten_cons, hf]
    exact runActions_bind (fun q => xs.foldlM f q) (fun ns => ((xs.map (g ns)).flatten))
      (fun q => ih q)

theorem foldlM_add_eq_run (c : Node → Bool) (weight : Int) :
    ∀ (ns : List Node) (acc : podAffinityPriorityMap),
      ns.foldlM (fun acc node => if c node then acc.add node.Name weight else some acc) acc
        = runActions acc ((ns.filter c).map (fun node => Action.add node.Name weight)) := by
  intro ns
  induction ns with
  | nil => intro acc; rfl
  | cons n ns ih =>
    intro acc
    rw [List.foldlM_cons]
    by_cases hc : c n = true
    · rw [List.filter_cons_of_pos hc, List.map_cons, runActions_cons, if_pos hc]
      show (acc.add n.Name weight).bind _ = (acc.add n.Name weight).bind _
      cases acc.add n.Name weight with
      | none => rfl
      | some q => exact ih q
    · rw [List.filter_cons_of_neg hc, if_neg hc]
      exact ih acc

theorem processTerm_eq_run (p : podAffinityPriorityMap) (term : PodAffinityTerm) (d c : Pod)
    (fixedNode : Node) (weight : Int) :
    p.processTerm term d c fixedNode weight
      = runActions p (termActions p.nodes term d c fixedNode weight) := by
  unfold podAffinityPriorityMap.processTerm termActions
  cases LabelSelectorAsSelector term.LabelSelector with
  | error err => rfl
  | ok selector =>
    simp only []
    split_ifs
    · exact foldlM_add_eq_run _ weight p.nodes p
    · rfl

theorem processTerms_eq_run (p : podAffinityPriorityMap) (terms : List WeightedPodAffinityTerm)
    (d c : Pod) (fixedNode : Node) (multiplier : Int) :
    p.processTerms terms d c fixedNode multiplier
      = runActions p (termsActions p.nodes terms d c fixedNode multiplier) :=
  foldlM_run_eq _
    (fun ns (term : WeightedPodAffinityTerm) =>
      termActions ns term.PodAffinityTerm d c fixedNode (wrap32 (term.Weight * wrap32 multiplier)))
    (fun q term => processTerm_eq_run q term.PodAffinityTerm d c fixedNode _) terms p

theorem processHardTerms_eq_run (p : podAffinityPriorityMap) (terms : List PodAffinityTerm)
    (d c : Pod) (fixedNode : Node) (weight : Int) :
    processHardTerms p terms d c fixedNode weight
      = runActions p (hardTermsActions p.nodes terms d c fixedNode weight) :=
  foldlM_run_eq _ (fun ns (term : PodAffinityTerm) => termActions ns term d c fixedNode weight)
    (fun q term => processTerm_eq_run q term d c fixedNode weight) terms p

theorem processPodStep_ok {ipa : InterPodAffinity} {pod e : Pod} {eNode : Node}
    (hinfo : ipa.info e.NodeName = .ok eNode) (pm : podAffinityPriorityMap) :
    processPodStep ipa pod pm e
      = (processIncomingTerms pod pm e eNode).bind
          (fun q => processExistingTerms ipa pod q e eNode) := by
  unfold processPodStep processPod
  simp only [hinfo]
  cases processIncomingTerms pod pm e eNode with
  | none => rfl
  | some q =>
    simp only [Option.bind_eq_bind, Option.some_bind]
    cases processExistingTerms ipa pod q e eNode with
    | none => rfl
    | some r => rfl

theorem processPodStep_eq_run (ipa : InterPodAffinity) (pod : Pod) (pm : podAffinityPriorityMap)
    (e : Pod) : processPodStep ipa pod pm e = runActions pm (podActions ipa pod pm.nodes e) := by
  cases hinfo : ipa.info e.NodeName with
  | error err =>
    unfold processPodStep processPod podActions
    simp only [hinfo]
    by_cases hnf : err.IsNotFound = true
    · simp only [hnf, if_true]
      rfl
    · simp only [hnf]
      rfl
  | ok eNode =>
    rw [processPodStep_ok hinfo, processIncomingTerms_eq]
    unfold podActions
    simp only [hinfo]
    rw [processTerms_eq_run]
    rw [runActions_bind _
      (fun ns => termsActions ns (preferredAntiAffinityTerms pod) pod e eNode (-1))
      (fun q => processTerms_eq_run q _ _ _ _ _)]
    have hhard : ∀ q : podAffinityPriorityMap,
        (if ipa.hardPodAffinityWeight > 0 then
            processHardTerms q (requiredAffinityTerms e) e pod eNode ipa.hardPodAffinityWeight
          else some q)
          = runActions q ((fun ns => if ipa.hardPodAffinityWeight > 0 then
              hardTermsActions ns (requiredAffinityTerms e) e pod eNode
                ipa.hardPodAffinityWeight
            else []) q.nodes) := by
      intro q
      split_ifs
      · exact processHardTerms_eq_run q _ _ _ _ _
      · rfl
    have hex : ∀ q : podAffinityPriorityMap,
        processExistingTerms ipa pod q e eNode
          = runActions q ((fun ns =>
              (if ipa.hardPodAffinityWeight > 0 then
                hardTermsActions ns (requiredAffinityTerms e) e pod eNode
                  ipa.hardPodAffinityWeight
              else [])
              ++ termsActions ns (preferredAffinityTerms e) e pod eNode 1
              ++ termsActions ns (preferredAntiAffinityTerms e) e pod eNode (-1)) q.nodes) := by
      intro q
      rw [processExistingTerms_eq, hhard q]
      rw [runActions_bind _ (fun ns => termsActions ns (preferredAffinityTerms e) e pod eNode 1)
        (fun r => processTerms_eq_run r _ _ _ _ _)]
      rw [runActions_bind _
        (fun ns => termsActions ns (preferredAntiAffinityTerms e) e pod eNode (-1))
        (fun r => processTerms_eq_run r _ _ _ _ _)]
    rw [runActions_bind _
      (fun ns =>
        (if ipa.hardPodAffinityWeight > 0 then
          hardTermsActions ns (requiredAffinityTerms e) e pod eNode ipa.hardPodAffinityWeight
        else [])
        ++ termsActions ns (preferredAffinityTerms e) e pod eNode 1
        ++ termsActions ns (preferredAntiAffinityTerms e) e pod eNode (-1)) hex]
    simp only [List.append_assoc]

theorem processNode_eq_run (ipa : InterPodAffinity) (pod : Pod)
    (nodeNameToInfo : List (String × NodeInfo)) (pm : podAffinityPriorityMap) (name : String) :
    processNode ipa pod nodeNameToInfo pm name
      = runActions pm (nodeActions ipa pod nodeNameToInfo pm.nodes name) := by
  rw [processNode_eq]
  exact foldlM_run_eq _ (fun ns e => podActions ipa pod ns e)
    (fun q e => processPodStep_eq_run ipa pod q e) _ pm

theorem scan_eq_run (ipa : InterPodAffinity) (pod : Pod)
    (nodeNameToInfo : List (String × NodeInfo)) (nodes : List Node) :
    scan ipa pod nodeNameToInfo nodes
      = runActions (initCounts pod nodeNameToInfo (newPodAffinityPriorityMap nodes))
          (workerActions ipa pod nodeNameToInfo nodes).flatten := by
  unfold scan workerActions
  rw [foldlM_run_eq _ (fun ns name => nodeActions ipa pod nodeNameToInfo ns name)
    (fun q name => processNode_eq_run ipa pod nodeNameToInfo q name)]
  rw [initCounts_nodes]
  rfl

/-! ## Interleavings -/

theorem flatten_perm_of_getElem? :
    ∀ (ws : List (List Action)) (i : Nat) (a : Action) (rest : List Action),
      ws[i]? = some (a :: rest) → (a :: (ws.set i rest).flatten).Perm ws.flatten := by
  intro ws
  induction ws with
  | nil => intro i a rest h; simp at h
  | cons w ws ih =>
    intro i a rest h
    cases i with
    | zero =>
      simp only [List.getElem?_cons_zero, Option.some.injEq] at h
      subst h
      simp
    | succ i =>
      simp only [List.getElem?_cons_succ] at h
      simp only [List.set_cons_succ, List.flatten_cons]
      exact List.perm_middle.symm.trans ((ih i a rest h).append_left w)

theorem interleaving_perm {ws : List (List Action)} {tr : List Action}
    (h : Interleaving ws tr) : tr.Perm ws.flatten := by
  induction h with
  | done ws hall =>
    have : ws.flatten = [] := by
      rw [List.flatten_eq_nil_iff]
      exact hall
    rw [this]
  | step ws i a rest tr hi _ ih =>
    exact (ih.cons a).trans (flatten_perm_of_getElem? ws i a rest hi)

theorem interleaving_cons_nil {ws : List (List Action)} {tr : List Action}
    (h : Interleaving ws tr) : Interleaving ([] :: ws) tr := by
  induction h with
  | done ws hall =>
    refine Interleaving.done _ (fun w hw => ?_)
    rcases List.mem_cons.mp hw with hw | hw
    · exact hw
    · exact hall w hw
  | step ws i a rest tr hi _ ih =>
    exact Interleaving.step _ (i + 1) a rest tr (by simpa using hi) ih

theorem interleaving_head (ws : List (List Action)) (tr : List Action) :
    ∀ w : List Action, Interleaving ([] :: ws) tr → Interleaving (w :: ws) (w ++ tr) := by
  intro w
  induction w with
  | nil => exact fun h => h
  | cons a w ih =>
    intro h
    exact Interleaving.step _ 0 a w (w ++ tr) (List.getElem?_cons_zero) (ih h)

/-- The run of the pieces one after the other is an interleaving. -/
theorem interleaving_sequential (ws : List (List Action)) : Interleaving ws ws.flatten := by
  induction ws with
  | nil => exact Interleaving.done [] (fun w hw => (List.not_mem_nil w hw).elim)
  | cons w ws ih => exact interleaving_head ws ws.flatten w (interleaving_cons_nil ih)

theorem runActions_isSome_iff (as : List Action) :
    ∀ pm : podAffinityPriorityMap,
      (runActions pm as).isSome
        ↔ ∀ name weight, Action.add name weight ∈ as → (pm.counts name).isSome := by
  induction as with
  | nil =>
    intro pm
    simp [runActions_nil]
  | cons a as ih =>
    intro pm
    rw [runActions_cons]
    cases hrun : Action.run pm a with
    | none =>
      simp only [Option.none_bind, Option.isSome_none, Bool.false_eq_true, false_iff,
        not_forall]
      cases a with
      | setError err => simp [Action.run] at hrun
      | add name weight =>
        refine ⟨name, weight, List.mem_cons_self _ _, ?_⟩
        simp only [Action.run, podAffinityPriorityMap.add] at hrun
        cases hc : pm.counts name with
        | none => simp
        | some c => simp [hc] at hrun
    | some q =>
      simp only [Option.some_bind]
      rw [ih q]
      have hsame := sameAlloc_of_shifted (shifted_run hrun)
      constructor
      · intro hall name weight hmem
        rcases List.mem_cons.mp hmem with hmem | hmem
        · subst hmem
          simp only [Action.run, podAffinityPriorityMap.add] at hrun
          cases hc : pm.counts name with
          | none => simp [hc] at hrun
          | some c => simp
        · rw [← hsame.2 name]
          exact hall name weight hmem
      · intro hall name weight hmem
        rw [hsame.2 name]
        exact hall name weight (List.mem_cons_of_mem _ hmem)

theorem runActions_perm_isSome {as bs : List Action} (h : as.Perm bs)
    (pm : podAffinityPriorityMap) : (runActions pm as).isSome = (runActions pm bs).isSome := by
  rw [Bool.eq_iff_iff, runActions_isSome_iff, runActions_isSome_iff]
  exact ⟨fun hall name weight hmem => hall name weight (h.mem_iff.mpr hmem),
    fun hall name weight hmem => hall name weight (h.mem_iff.mp hmem)⟩

theorem runActions_perm_counts {as bs : List Action} (h : as.Perm bs)
    {pm p q : podAffinityPriorityMap} (hint : CountsInt64 pm)
    (hp : runActions pm as = some p) (hq : runActions pm bs = some q) :
    p.counts = q.counts := by
  funext s
  have sp := shifted_runActions hp
  have sq := shifted_runActions hq
  cases h0 : pm.counts s with
  | none => rw [sp.none_of_none s h0, sq.none_of_none s h0]
  | some c =>
    rw [sp.counts_eq hint s c h0, sq.counts_eq hint s c h0]
    rw [(h.map (fun a => Action.delta a s)).sum_eq]

theorem initCounts_countsInt64 (pod : Pod) (nodeNameToInfo : List (String × NodeInfo))
    (nodes : List Node) :
    CountsInt64 (initCounts pod nodeNameToInfo (newPodAffinityPriorityMap nodes)) := by
  intro s c hc
  have := initCounts_counts pod nodeNameToInfo (newPodAffinityPriorityMap nodes)
    (fun s c h => by simp [newPodAffinityPriorityMap] at h) s c hc
  rw [this]
  unfold isInt64
  constructor <;> norm_num

theorem interleaving_counts_aux (ipa : InterPodAffinity) (pod : Pod)
    (nodeNameToInfo : List (String × NodeInfo)) (nodes : List Node) (tr : List Action)
    (h : Interleaving (workerActions ipa pod nodeNameToInfo nodes) tr) :
    (runActions (initCounts pod nodeNameToInfo (newPodAffinityPriorityMap nodes)) tr).map
        (fun pm => pm.counts)
      = (scan ipa pod nodeNameToInfo nodes).map (fun pm => pm.counts) := by
  rw [scan_eq_run]
  have hperm := interleaving_perm h
  have hsome := runActions_perm_isSome hperm
    (initCounts pod nodeNameToInfo (newPodAffinityPriorityMap nodes))
  cases hp : runActions (initCounts pod nodeNameToInfo (newPodAffinityPriorityMap nodes)) tr with
  | none =>
    rw [hp] at hsome
    cases hq : runActions (initCounts pod nodeNameToInfo (newPodAffinityPriorityMap nodes))
        (workerActions ipa pod nodeNameToInfo nodes).flatten with
    | none => rfl
    | some q => rw [hq] at hsome; simp at hsome
  | some p =>
    rw [hp] at hsome
    cases hq : runActions (initCounts pod nodeNameToInfo (newPodAffinityPriorityMap nodes))
        (workerActions ipa pod nodeNameToInfo nodes).flatten with
    | none => rw [hq] at hsome; simp at hsome
    | some q =>
      simp only [Option.map_some']
      rw [runActions_perm_counts hperm (initCounts_countsInt64 pod nodeNameToInfo nodes) hp hq]

theorem interleaving_sum_aux (ipa : InterPodAffinity) (pod : Pod)
    (nodeNameToInfo : List (String × NodeInfo)) (nodes : List Node) (tr : List Action)
    (h : Interleaving (workerActions ipa pod nodeNameToInfo nodes) tr)
    (pm' : podAffinityPriorityMap)
    (hrun : runActions (initCounts pod nodeNameToInfo (newPodAffinityPriorityMap nodes)) tr
      = some pm') (s : String) (c : Int) (hc : pm'.counts s = some c) :
    c = wrap64 (((workerActions ipa pod nodeNameToInfo nodes).flatten.map
          (fun a => Action.delta a s)).sum) := by
  have hperm := interleaving_perm h
  have sp := shifted_runActions hrun
  cases h0 : (initCounts pod nodeNameToInfo (newPodAffinityPriorityMap nodes)).counts s with
  | none => rw [sp.none_of_none s h0] at hc; cases hc
  | some c0 =>
    have hz := initCounts_counts pod nodeNameToInfo (newPodAffinityPriorityMap nodes)
      (fun s c h => by simp [newPodAffinityPriorityMap] at h) s c0 h0
    rw [sp.counts_eq (initCounts_countsInt64 pod nodeNameToInfo nodes) s c0 h0] at hc
    simp only [Option.some.injEq] at hc
    rw [← hc, hz, Int.zero_add, (hperm.map (fun a => Action.delta a s)).sum_eq]

/-! ## Further concrete runs -/

theorem podStep_eq_podStepResult {ipa : InterPodAffinity} {pod e : Pod}
    {pm : podAffinityPriorityMap} (h : (processPodStep ipa pod pm e).isSome = true) :
    processPodStep ipa pod pm e = some (podStepResult ipa pod pm e) := by
  unfold podStepResult
  obtain ⟨q, hq⟩ := Option.isSome_iff_exists.mp h
  rw [hq]
  rfl

theorem exAway_precomputed :
    CalculateInterPodAffinityPriority (exIpa 1) [("n1", -5)] exPodP exSnapshotAway
        [exNode1, exNode2]
      = some (.ok [{ Host := "n1", Score := 0 }, { Host := "n2", Score := 10 }]) := by
  have h1 : nodeScoreOf [("n1", -5)] exNode1.Name = -5 := by decide
  have h2 : nodeScoreOf [("n1", -5)] exNode2.Name = 0 := by decide
  have hmm : precomputedMaxMin [("n1", -5)] [exNode1, exNode2] = (0, -5) := by
    simp [precomputedMaxMin, h1, h2, updateMaxMin]
  have hd : wrap64 (0 - -5) > 0 := by decide
  have s1 : scaledScore (-5) 0 (-5) = 0 := by
    rw [scaledScore_exact (by decide) (by decide) (by decide) (by decide) (by decide) (by decide)]
    decide
  have s2 : scaledScore 0 0 (-5) = 10 := by
    rw [scaledScore_exact (by decide) (by decide) (by decide) (by decide) (by decide) (by decide)]
    decide
  rw [calculate_precomputed _ _ _ _ (by decide)]
  simp only [precomputedScores, hmm, List.map_cons, List.map_nil, h1, h2, hd, if_true, s1, s2]
  rfl

theorem exStale_rest :
    ∀ e ∈ scannedPods exPodAnti exSnapshotStale,
      (∃ err, (exIpa 1).info e.NodeName = .error err ∧ err.IsNotFound = true)
        ∨ (podSafe (exIpa 1) exPodAnti
            (initCounts exPodAnti exSnapshotStale (newPodAffinityPriorityMap [exNode1])).counts
            [exNode1] e
          ∧ podClean (exIpa 1) exPodAnti e) := by
  intro e he
  have hmem : e = exPodS "n1" ∨ e = exPodS "n4" := by
    have hs : scannedPods exPodAnti exSnapshotStale = [exPodS "n1", exPodS "n4"] := rfl
    rw [hs] at he
    simpa using he
  rcases hmem with rfl | rfl
  · right
    have hinfo : (exIpa 1).info (exPodS "n1").NodeName = .ok exNode1 := rfl
    constructor
    · intro eNode hnode
      rw [hinfo] at hnode
      have hn : eNode = exNode1 := (Except.ok.inj hnode).symm
      subst hn
      unfold termSafe
      refine ⟨by decide, by decide, fun _ => by decide, by decide, by decide⟩
    · unfold podClean
      rw [hinfo]
      unfold termsParse unparsable
      refine ⟨?_, ?_, ?_, ?_, ?_⟩
      · intro t ht
        simp [preferredAffinityTerms, podAffinityOf, exPodAnti] at ht
      · intro t ht
        have ht2 : t = exAntiTerm := by
          simpa [preferredAntiAffinityTerms, podAntiAffinityOf, exPodAnti] using ht
        subst ht2
        rintro ⟨err, herr⟩
        have hp := exTerm_parses hostnameKey
        rw [show exAntiTerm.PodAffinityTerm = exTerm hostnameKey from rfl] at herr
        exact hp ⟨err, herr⟩
      · intro _ t ht
        simp [requiredAffinityTerms, podAffinityOf, exPodS] at ht
      · intro t ht
        simp [preferredAffinityTerms, podAffinityOf, exPodS] at ht
      · intro t ht
        simp [preferredAntiAffinityTerms, podAntiAffinityOf, exPodS] at ht
  · left
    exact ⟨⟨"node not found", true⟩, rfl, rfl⟩

theorem exMix_perm : SnapshotPerm exSnapshotMix exSnapshotMixSwapped := by
  constructor
  · exact List.Perm.swap _ _ _
  · intro name
    by_cases h1 : name = "n1"
    · subst h1
      exact ⟨rfl, List.Perm.swap _ _ _, List.Perm.swap _ _ _⟩
    · by_cases h2 : name = "n2"
      · subst h2
        exact ⟨rfl, List.Perm.refl _, List.Perm.refl _⟩
      · have hb1 : (name == "n1") = false := by simp [h1]
        have hb2 : (name == "n2") = false := by simp [h2]
        simp only [exSnapshotMix, exSnapshotMixSwapped, List.lookup, hb1, hb2]

theorem exMix_scan :
    scan (exIpa 1) exPodP exSnapshotMix [exNode1, exNode2]
      = some (scanResult (exIpa 1) exPodP exSnapshotMix [exNode1, exNode2]) :=
  scan_eq_scanResult (by decide)

theorem exMix_interleaving :
    Interleaving (workerActions (exIpa 1) exPodP exSnapshotMix [exNode1, exNode2])
      [Action.add "n1" 2, Action.add "n2" 5, Action.add "n1" 3, Action.add "n2" 3] := by
  have hw : workerActions (exIpa 1) exPodP exSnapshotMix [exNode1, exNode2]
      = [[Action.add "n1" 2, Action.add "n1" 3, Action.add "n2" 3], [Action.add "n2" 5]] := by
    decide
  rw [hw]
  refine Interleaving.step _ 0 (Action.add "n1" 2) [Action.add "n1" 3, Action.add "n2" 3] _
    rfl ?_
  refine Interleaving.step _ 1 (Action.add "n2" 5) [] _ rfl ?_
  refine Interleaving.step _ 0 (Action.add "n1" 3) [Action.add "n2" 3] _ rfl ?_
  refine Interleaving.step _ 0 (Action.add "n2" 3) [] _ rfl ?_
  exact Interleaving.done _ (by decide)

theorem setErrorValue_foldl (errs : List (Option Error)) :
    ∀ p : podAffinityPriorityMap,
      (errs.foldl podAffinityPriorityMap.setErrorValue p).firstError
        = match p.firstError with
          | some e => some e
          | none => errs.findSome? id := by
  induction errs with
  | nil => intro p; cases h : p.firstError <;> simp [h]
  | cons err errs ih =>
    intro p
    rw [List.foldl_cons, ih]
    unfold podAffinityPriorityMap.setErrorValue
    cases h : p.firstError with
    | some e => simp [h]
    | none =>
      cases err with
      | none => simp [h]
      | some e => simp [h]

/-! ## The claims on the allocation, the weights, the errors and the orders -/

/-- C11: evaluation at the failing input. The incoming pod `P` declares no affinity; `n1`
hosts a pod whose preferred affinity term of weight 3 matches `P` with the zone as topology
key; the candidate node `n2` is in the same zone and hosts only a pod without affinity, so
the pre-allocation gives `n2` no counter although `processTerm` increments it: the call of
`processTerm` for the term panics on the nil counter, and so does the whole call. -/
theorem lazy_allocation_misses_candidate :
    termMatches (exTerm "zone") (exPodZone "n1") exPodP = true
      ∧ exNode2 ∈ [exNode1, exNode2]
      ∧ NodesHaveSameTopologyKey exNode2 exNode1 "zone" = true
      ∧ (initCounts exPodP exSnapshotZone
          (newPodAffinityPriorityMap [exNode1, exNode2])).counts "n2" = none
      ∧ (initCounts exPodP exSnapshotZone
          (newPodAffinityPriorityMap [exNode1, exNode2])).processTerm (exTerm "zone")
          (exPodZone "n1") exPodP exNode1 3 = none
      ∧ CalculateInterPodAffinityPriority (exIpa 0) [] exPodP exSnapshotZone
          [exNode1, exNode2] = none :=
  ⟨by decide, by decide, by decide, by decide, Option.isNone_iff_eq_none.mp (by decide),
    Option.isNone_iff_eq_none.mp (by decide)⟩

/-- C12: evaluation at the failing input. The incoming pod `P` declares no affinity; `n1`
hosts a pod with a preferred anti-affinity term of weight 5 that matches `P`, `n2` hosts a
pod without affinity. With the lazy allocation `n2` has no counter and the call returns the
score 0 for both nodes; with a zeroed counter for every candidate node the scores are 0 for
`n1` and 10 for `n2`, and so are they on the precomputed path for the same raw values. -/
theorem lazy_allocation_changes_scores :
    CalculateInterPodAffinityPriority (exIpa 1) [] exPodP exSnapshotAway [exNode1, exNode2]
        = some (.ok [{ Host := "n1", Score := 0 }, { Host := "n2", Score := 0 }])
      ∧ CalculateAllCounters (exIpa 1) exPodP exSnapshotAway [exNode1, exNode2]
        = some (.ok [{ Host := "n1", Score := 0 }, { Host := "n2", Score := 10 }])
      ∧ CalculateInterPodAffinityPriority (exIpa 1) [] exPodP exSnapshotAway [exNode1, exNode2]
        ≠ CalculateAllCounters (exIpa 1) exPodP exSnapshotAway [exNode1, exNode2]
      ∧ CalculateInterPodAffinityPriority (exIpa 1) [("n1", -5)] exPodP exSnapshotAway
          [exNode1, exNode2]
        = some (.ok [{ Host := "n1", Score := 0 }, { Host := "n2", Score := 10 }]) := by
  refine ⟨exAway_calculate, exAway_calculateAll, ?_, exAway_precomputed⟩
  rw [exAway_calculate, exAway_calculateAll]
  intro h
  have h' := Except.ok.inj (Option.some.inj h)
  revert h'
  decide

/-- C13 (witness): the incoming pod with the anti-affinity term, `n1` hosting the pod `S`
and the node `n4`, unknown to the node lookup, hosting another pod: the pod on `n4` is
skipped and the call returns a list. -/
theorem stale_node_skipped_witness :
    (∀ pm, processPod (exIpa 1) exPodAnti pm (exPodS "n4") = some (pm, none))
      ∧ (∀ pm rest, ((exPodS "n4") :: rest).foldlM (processPodStep (exIpa 1) exPodAnti) pm
          = rest.foldlM (processPodStep (exIpa 1) exPodAnti) pm)
      ∧ ∃ l, CalculateInterPodAffinityPriority (exIpa 1) [] exPodAnti exSnapshotStale
          [exNode1] = some (.ok l) :=
  stale_node_skipped (exIpa 1) exPodAnti exSnapshotStale [exNode1] (exPodS "n4")
    ⟨"node not found", true⟩ rfl rfl exStale_rest

/-- C14 (witness): the incoming pod with the anti-affinity term of weight 5, which names no
namespace, and the pod `S` of the same namespace on `n1`: the counter of `n1` goes from 0
to the sum of the effects of the terms with the namespaces of the declaring pods. -/
theorem namespaces_of_declaring_pod_witness :
    (podStepResult (exIpa 1) exPodAnti
        (initCounts exPodAnti exSnapshotS (newPodAffinityPriorityMap [exNode1, exNode2]))
        (exPodS "n1")).counts "n1"
      = some (wrap64 (0 +
        (declaredDelta
            (initCounts exPodAnti exSnapshotS
              (newPodAffinityPriorityMap [exNode1, exNode2])).nodes
            (preferredAffinityTerms exPodAnti) exPodAnti (exPodS "n1") exNode1 1 "n1"
          + declaredDelta
            (initCounts exPodAnti exSnapshotS
              (newPodAffinityPriorityMap [exNode1, exNode2])).nodes
            (preferredAntiAffinityTerms exPodAnti) exPodAnti (exPodS "n1") exNode1 (-1) "n1"
          + (if (exIpa 1).hardPodAffinityWeight > 0 then
              declaredHardDelta
                (initCounts exPodAnti exSnapshotS
                  (newPodAffinityPriorityMap [exNode1, exNode2])).nodes
                (requiredAffinityTerms (exPodS "n1")) (exPodS "n1") exPodAnti exNode1
                (exIpa 1).hardPodAffinityWeight "n1"
            else 0)
          + declaredDelta
            (initCounts exPodAnti exSnapshotS
              (newPodAffinityPriorityMap [exNode1, exNode2])).nodes
            (preferredAffinityTerms (exPodS "n1")) (exPodS "n1") exPodAnti exNode1 1 "n1"
          + declaredDelta
            (initCounts exPodAnti exSnapshotS
              (newPodAffinityPriorityMap [exNode1, exNode2])).nodes
            (preferredAntiAffinityTerms (exPodS "n1")) (exPodS "n1") exPodAnti exNode1 (-1)
            "n1")))
      ∧ ∀ (term : PodAffinityTerm) (declaringPod matchedPod : Pod) (fixedNode : Node)
          (w : Int), term.Namespaces = [] → matchedPod.Namespace ≠ declaringPod.Namespace →
          termDeltaIn
            (initCounts exPodAnti exSnapshotS
              (newPodAffinityPriorityMap [exNode1, exNode2])).nodes
            term (resolvedNamespaces declaringPod term) matchedPod fixedNode w "n1" = 0 :=
  namespaces_of_declaring_pod (exIpa 1) exPodAnti (exPodS "n1")
    (initCounts exPodAnti exSnapshotS (newPodAffinityPriorityMap [exNode1, exNode2]))
    (podStepResult (exIpa 1) exPodAnti
      (initCounts exPodAnti exSnapshotS (newPodAffinityPriorityMap [exNode1, exNode2]))
      (exPodS "n1"))
    exNode1 rfl (podStep_eq_podStepResult (by decide))
    (initCounts_countsInt64 exPodAnti exSnapshotS [exNode1, exNode2]) "n1" 0 (by decide)

/-- C15 (counterexample): for the weight `-2147483648` and the multiplier `-1` the product
`term.Weight*int32(multiplier)` wraps around in 32 bits: `processTerms` passes the delta
`-2147483648` to `processTerm`, and the counter of `n1` goes from 0 to `-2147483648`, where
`int64(weight) * int64(sign)` is `2147483648`. -/
theorem int32_weight_overflow :
    isInt32 exMinWeightTerm.Weight
      ∧ wrap32 (exMinWeightTerm.Weight * wrap32 (-1)) = -2147483648
      ∧ exMinWeightTerm.Weight * (-1) = 2147483648
      ∧ wrap32 (exMinWeightTerm.Weight * wrap32 (-1)) ≠ exMinWeightTerm.Weight * (-1)
      ∧ termMatches exMinWeightTerm.PodAffinityTerm exPodAnti (exPodS "n1") = true
      ∧ ((((newPodAffinityPriorityMap [exNode1]).alloc "n1").processTerms [exMinWeightTerm]
            exPodAnti (exPodS "n1") exNode1 (-1)).map (fun p => p.counts "n1"))
          = some (some (-2147483648)) :=
  ⟨by decide, by decide, by decide, by decide, by decide, by decide⟩

theorem foldlM_congr_of_mem {α : Type}
    (f g : podAffinityPriorityMap → α → Option podAffinityPriorityMap) (xs : List α)
    (h : ∀ acc, ∀ x ∈ xs, f acc x = g acc x) :
    ∀ p, xs.foldlM f p = xs.foldlM g p := by
  induction xs with
  | nil => intro p; rfl
  | cons x xs ih =>
    intro p
    rw [List.foldlM_cons, List.foldlM_cons, h p x (List.mem_cons_self _ _)]
    cases g p x with
    | none => rfl
    | some q => exact ih (fun acc y hy => h acc y (List.mem_cons_of_mem _ hy)) q

/-- C15 (amended): for every `int32` term weight other than the least one, `-2 ^ 31`, and
for the multipliers `1` and `-1`, the delta that `processTerms` passes to `processTerm` is
the product of the weight and the multiplier, which is an `int32` value: `processTerms` is
the loop of `processTerm` with these products. -/
theorem processTerms_delta (p : podAffinityPriorityMap) (terms : List WeightedPodAffinityTerm)
    (podDefiningAffinityTerm podToCheck : Pod) (fixedNode : Node) (multiplier : Int)
    (hm : multiplier = 1 ∨ multiplier = -1)
    (hw : ∀ t ∈ terms, isInt32 t.Weight ∧ t.Weight ≠ -2 ^ 31) :
    (∀ t ∈ terms, wrap32 (t.Weight * wrap32 multiplier) = t.Weight * multiplier
        ∧ isInt32 (t.Weight * multiplier))
      ∧ p.processTerms terms podDefiningAffinityTerm podToCheck fixedNode multiplier
        = terms.foldlM
            (fun acc term =>
              acc.processTerm term.PodAffinityTerm podDefiningAffinityTerm podToCheck fixedNode
                (term.Weight * multiplier))
            p := by
  have hdelta : ∀ t ∈ terms, wrap32 (t.Weight * wrap32 multiplier) = t.Weight * multiplier
      ∧ isInt32 (t.Weight * multiplier) := by
    intro t ht
    obtain ⟨hi, hne⟩ := hw t ht
    have hok : weightOk t.Weight := by
      unfold isInt32 at hi
      unfold weightOk
      omega
    unfold weightOk at hok
    rcases hm with rfl | rfl
    · rw [wrap32_mul_one ⟨hok.1, hok.2⟩, mul_one]
      exact ⟨rfl, hi⟩
    · rw [wrap32_mul_neg_one ⟨hok.1, hok.2⟩, mul_neg_one]
      refine ⟨rfl, ?_⟩
      unfold isInt32
      omega
  refine ⟨hdelta, ?_⟩
  unfold podAffinityPriorityMap.processTerms
  exact foldlM_congr_of_mem _ _ terms (fun acc t ht => by rw [(hdelta t ht).1]) p

/-- C15 (witness): the anti-affinity term of weight 5 with the multiplier `-1`. -/
theorem processTerms_delta_witness :
    (∀ t ∈ [exAntiTerm], wrap32 (t.Weight * wrap32 (-1)) = t.Weight * (-1)
        ∧ isInt32 (t.Weight * (-1)))
      ∧ ((newPodAffinityPriorityMap [exNode1]).alloc "n1").processTerms [exAntiTerm] exPodAnti
          (exPodS "n1") exNode1 (-1)
        = [exAntiTerm].foldlM
            (fun acc term =>
              acc.processTerm term.PodAffinityTerm exPodAnti (exPodS "n1") exNode1
                (term.Weight * (-1)))
            ((newPodAffinityPriorityMap [exNode1]).alloc "n1") :=
  processTerms_delta ((newPodAffinityPriorityMap [exNode1]).alloc "n1") [exAntiTerm] exPodAnti
    (exPodS "n1") exNode1 (-1) (Or.inr rfl)
    (fun t ht => by
      rw [List.mem_singleton.mp ht]
      decide)

/-- C16: `setError` records only the first error: a call on an accumulator that holds an
error leaves `firstError` as it is, and after any sequence of calls, with error values that
may be nil, `firstError` is the error held before the calls if there was one, and otherwise
the first error passed that is not nil. For an error that is not nil the call is the
`setError` of the scan. -/
theorem setError_keeps_first (p : podAffinityPriorityMap) (errs : List (Option Error)) :
    (∀ e err, (podAffinityPriorityMap.setErrorValue { p with firstError := some e }
        err).firstError = some e)
      ∧ (errs.foldl podAffinityPriorityMap.setErrorValue p).firstError
          = (match p.firstError with
            | some e => some e
            | none => errs.findSome? id)
      ∧ ∀ e, p.setErrorValue (some e) = p.setError e :=
  ⟨fun e err => by simp [podAffinityPriorityMap.setErrorValue],
    setErrorValue_foldl errs p, fun e => rfl⟩

/-- C17 (witness): the snapshot with two nodes and two pods on `n1`, and the same snapshot
with the nodes and the pods in the other order. -/
theorem scan_order_independent_witness :
    ∃ pm', scan (exIpa 1) exPodP exSnapshotMixSwapped [exNode1, exNode2] = some pm'
      ∧ (∀ s, pm'.counts s
          = (scanResult (exIpa 1) exPodP exSnapshotMix [exNode1, exNode2]).counts s)
      ∧ ((scanResult (exIpa 1) exPodP exSnapshotMix [exNode1, exNode2]).firstError = none →
          pm'.firstError = none
          ∧ CalculateInterPodAffinityPriority (exIpa 1) [] exPodP exSnapshotMixSwapped
              [exNode1, exNode2]
            = CalculateInterPodAffinityPriority (exIpa 1) [] exPodP exSnapshotMix
              [exNode1, exNode2]) :=
  scan_order_independent (exIpa 1) exPodP exSnapshotMix exSnapshotMixSwapped [exNode1, exNode2]
    (scanResult (exIpa 1) exPodP exSnapshotMix [exNode1, exNode2]) exMix_perm exMix_scan

/-- C18 (counterexample): the incoming pod declares anti-affinity, so the pre-allocation
gives a counter to `n1` and to `n2`, the names of the snapshot; the only candidate node is
`n1`, and the list returned without error has `n1` as its only `Host`: `n2` holds a counter
and does not occur in the list. -/
theorem counter_without_host :
    scan (exIpa 1) exPodAnti exSnapshotS [exNode1]
        = some (scanResult (exIpa 1) exPodAnti exSnapshotS [exNode1])
      ∧ (scanResult (exIpa 1) exPodAnti exSnapshotS [exNode1]).counts "n2" = some 0
      ∧ CalculateInterPodAffinityPriority (exIpa 1) [] exPodAnti exSnapshotS [exNode1]
        = some (.ok [{ Host := "n1", Score := 0 }])
      ∧ ([({ Host := "n1", Score := 0 } : HostPriority)].map HostPriority.Host).count "n2" = 0
      ∧ ¬ (∀ name, ((scanResult (exIpa 1) exPodAnti exSnapshotS [exNode1]).counts name).isSome →
          ([({ Host := "n1", Score := 0 } : HostPriority)].map HostPriority.Host).count name
            = 1) := by
  refine ⟨scan_eq_scanResult (by decide), by decide, exAntiOne_calculate, by decide, ?_⟩
  intro hall
  have h := hall "n2" (by decide)
  revert h
  decide

/-- C18 (witness): the list returned for the only candidate node `n1`. -/
theorem candidate_hosts_once_witness :
    (∀ n ∈ [exNode1],
        ([({ Host := "n1", Score := 0 } : HostPriority)].map HostPriority.Host).count n.Name
          = 1)
      ∧ ∀ name, name ∉ [exNode1].map Node.Name →
          ([({ Host := "n1", Score := 0 } : HostPriority)].map HostPriority.Host).count name
            = 0 :=
  candidate_hosts_once (exIpa 1) [] exPodAnti exSnapshotS [exNode1] _ exAntiOne_calculate
    (by decide)

/-- C19 (counterexample): with an empty candidate node list the scan still runs; the
preferred term of the incoming pod cannot be parsed, and the call returns the error and no
list. -/
theorem empty_candidates_error :
    CalculateInterPodAffinityPriority (exIpa 1) [] exPodBadPreferred exSnapshotS []
        = some (.error ⟨"==", false⟩)
      ∧ CalculateInterPodAffinityPriority (exIpa 1) [] exPodBadPreferred exSnapshotS []
        ≠ some (.ok []) := by
  refine ⟨exBadPreferred_empty, ?_⟩
  rw [exBadPreferred_empty]
  intro h
  cases Option.some.inj h

/-- C20: no increment is lost under concurrent execution. The writes of the workers to the
accumulator are the calls of `atomic.AddInt64` and of `setError`, each an indivisible step;
the sequential scan is the run of the writes of the pieces one after the other, which is
one of the interleavings. For every interleaving of the pieces the run panics exactly when
the sequential scan panics, and otherwise ends with the counters of the sequential scan:
each counter is the `int64` sum of all deltas added to it in the sequential run. -/
theorem no_lost_update (ipa : InterPodAffinity) (pod : Pod)
    (nodeNameToInfo : List (String × NodeInfo)) (nodes : List Node) (tr : List Action)
    (h : Interleaving (workerActions ipa pod nodeNameToInfo nodes) tr) :
    Interleaving (workerActions ipa pod nodeNameToInfo nodes)
        (workerActions ipa pod nodeNameToInfo nodes).flatten
      ∧ scan ipa pod nodeNameToInfo nodes
        = runActions (initCounts pod nodeNameToInfo (newPodAffinityPriorityMap nodes))
            (workerActions ipa pod nodeNameToInfo nodes).flatten
      ∧ (runActions (initCounts pod nodeNameToInfo (newPodAffinityPriorityMap nodes)) tr).map
            (fun pm => pm.counts)
          = (scan ipa pod nodeNameToInfo nodes).map (fun pm => pm.counts)
      ∧ ∀ pm', runActions (initCounts pod nodeNameToInfo (newPodAffinityPriorityMap nodes)) tr
            = some pm' →
          ∀ s c, pm'.counts s = some c →
            c = wrap64 (((workerActions ipa pod nodeNameToInfo nodes).flatten.map
                (fun a => Action.delta a s)).sum) :=
  ⟨interleaving_sequential _, scan_eq_run ipa pod nodeNameToInfo nodes,
    interleaving_counts_aux ipa pod nodeNameToInfo nodes tr h,
    fun pm' hrun s c hc => interleaving_sum_aux ipa pod nodeNameToInfo nodes tr h pm' hrun s c hc⟩

/-- C20 (witness): the worker of `n1` adds 2 and 3 to the counter of `n1` and 3 to the
counter of `n2`, the worker of `n2` adds 5 to the counter of `n2`; in the interleaving the
write of the worker of `n2` comes between the writes of the worker of `n1`. -/
theorem no_lost_update_witness :
    Interleaving (workerActions (exIpa 1) exPodP exSnapshotMix [exNode1, exNode2])
        (workerActions (exIpa 1) exPodP exSnapshotMix [exNode1, exNode2]).flatten
      ∧ scan (exIpa 1) exPodP exSnapshotMix [exNode1, exNode2]
        = runActions (initCounts exPodP exSnapshotMix (newPodAffinityPriorityMap [exNode1, exNode2]))
            (workerActions (exIpa 1) exPodP exSnapshotMix [exNode1, exNode2]).flatten
      ∧ (runActions (initCounts exPodP exSnapshotMix (newPodAffinityPriorityMap [exNode1, exNode2]))
            [Action.add "n1" 2, Action.add "n2" 5, Action.add "n1" 3, Action.add "n2" 3]).map
            (fun pm => pm.counts)
          = (scan (exIpa 1) exPodP exSnapshotMix [exNode1, exNode2]).map (fun pm => pm.counts)
      ∧ ∀ pm', runActions
            (initCounts exPodP exSnapshotMix (newPodAffinityPriorityMap [exNode1, exNode2]))
            [Action.add "n1" 2, Action.add "n2" 5, Action.add "n1" 3, Action.add "n2" 3]
            = some pm' →
          ∀ s c, pm'.counts s = some c →
            c = wrap64 (((workerActions (exIpa 1) exPodP exSnapshotMix
                [exNode1, exNode2]).flatten.map (fun a => Action.delta a s)).sum) :=
  no_lost_update (exIpa 1) exPodP exSnapshotMix [exNode1, exNode2]
    [Action.add "n1" 2, Action.add "n2" 5, Action.add "n1" 3, Action.add "n2" 3]
    exMix_interleaving

/-! ## One call of `processTerm` -/

theorem termMatches_of_parse {term : PodAffinityTerm} {selector : Labels → Bool}
    (hparse : LabelSelectorAsSelector term.LabelSelector = .ok selector) (d c : Pod) :
    termMatches term d c
      = PodMatchesTermsNamespaceAndSelector c (GetNamespacesFromPodAffinityTerm d term)
          selector := by
  unfold termMatches
  rw [hparse]

theorem not_unparsable_of_parse {term : PodAffinityTerm} {selector : Labels → Bool}
    (hparse : LabelSelectorAsSelector term.LabelSelector = .ok selector) : ¬ unparsable term := by
  rintro ⟨err, herr⟩
  rw [hparse] at herr
  cases herr

theorem processTerm_not_match (p : podAffinityPriorityMap) {term : PodAffinityTerm}
    {selector : Labels → Bool}
    (hparse : LabelSelectorAsSelector term.LabelSelector = .ok selector) (d c : Pod)
    (fixedNode : Node) (weight : Int)
    (hno : PodMatchesTermsNamespaceAndSelector c (GetNamespacesFromPodAffinityTerm d term)
      selector = false) :
    p.processTerm term d c fixedNode weight = some p := by
  unfold podAffinityPriorityMap.processTerm
  simp [hparse, hno]

theorem termDelta_off_domain {nodes : List Node} (term : PodAffinityTerm) (d c : Pod)
    (fixedNode : Node) (w : Int) (s : String)
    (hoff : ∀ n ∈ nodes, n.Name = s →
      NodesHaveSameTopologyKey n fixedNode term.TopologyKey = false) :
    termDelta nodes term d c fixedNode w s = 0 := by
  unfold termDelta
  split_ifs
  · apply List.sum_eq_zero
    intro x hx
    obtain ⟨n, hn, rfl⟩ := List.mem_map.mp hx
    by_cases hs : n.Name = s
    · simp [hoff n hn hs]
    · simp [hs]
  · rfl

theorem processTerm_frame_aux (p : podAffinityPriorityMap) (term : PodAffinityTerm) (d c : Pod)
    (fixedNode : Node) (weight : Int) (selector : Labels → Bool)
    (hparse : LabelSelectorAsSelector term.LabelSelector = .ok selector)
    (hmatch : PodMatchesTermsNamespaceAndSelector c (GetNamespacesFromPodAffinityTerm d term)
      selector = true)
    (hnd : (p.nodes.map Node.Name).Nodup) (hint : CountsInt64 p)
    (halloc : ∀ n ∈ p.nodes, NodesHaveSameTopologyKey n fixedNode term.TopologyKey = true →
      (p.counts n.Name).isSome) :
    ∃ p', p.processTerm term d c fixedNode weight = some p'
      ∧ p'.firstError = p.firstError ∧ p'.nodes = p.nodes
      ∧ (∀ n ∈ p.nodes, NodesHaveSameTopologyKey n fixedNode term.TopologyKey = true →
          ∃ cn, p.counts n.Name = some cn ∧ p'.counts n.Name = some (wrap64 (cn + weight))
            ∧ (isInt64 (cn + weight) → p'.counts n.Name = some (cn + weight)))
      ∧ ∀ s, (∀ n ∈ p.nodes, n.Name = s →
          NodesHaveSameTopologyKey n fixedNode term.TopologyKey = false) →
          p'.counts s = p.counts s := by
  obtain ⟨p', hp'⟩ := processTerm_isSome p term d c fixedNode weight halloc
  have hsh := shifted_processTerm hp'
  refine ⟨p', hp', processTerm_firstError (not_unparsable_of_parse hparse) hp', hsh.nodes_eq,
    fun n hn htopo => ?_, fun s hoff => ?_⟩
  · obtain ⟨cn, hcn⟩ := Option.isSome_iff_exists.mp (halloc n hn htopo)
    have hcount := hsh.counts_eq hint n.Name cn hcn
    have hdelta : termDelta p.nodes term d c fixedNode weight n.Name = weight := by
      rw [termDelta_eq hnd hn]
      unfold termCounts
      rw [termMatches_of_parse hparse, hmatch, htopo]
      rfl
    rw [hdelta] at hcount
    exact ⟨cn, hcn, hcount, fun hfit => by rw [hcount, wrap64_of_isInt64 hfit]⟩
  · cases hc : p.counts s with
    | none => exact hsh.none_of_none s hc
    | some cs =>
      rw [hsh.counts_eq hint s cs hc, termDelta_off_domain term d c fixedNode weight s hoff,
        Int.add_zero, wrap64_of_isInt64 (hint s cs hc)]

/-- C25: when the selector of the term parses and the pod to check matches the term,
`processTerm` returns, and it has added the weight (in `int64` arithmetic) to the counter of
each node of `p.nodes` that has the value of the fixed node for the topology key of the
term, and has left every other counter, the nodes and `firstError` as they were; when the
pod does not match, the accumulator is unchanged. The nodes of `p.nodes` have distinct names,
the counters hold `int64` values, and the nodes of the topology domain hold a counter. -/
theorem processTerm_frame (p : podAffinityPriorityMap) (term : PodAffinityTerm) (d c : Pod)
    (fixedNode : Node) (weight : Int) (selector : Labels → Bool)
    (hparse : LabelSelectorAsSelector term.LabelSelector = .ok selector)
    (hnd : (p.nodes.map Node.Name).Nodup) (hint : CountsInt64 p)
    (halloc : ∀ n ∈ p.nodes, NodesHaveSameTopologyKey n fixedNode term.TopologyKey = true →
      (p.counts n.Name).isSome) :
    (PodMatchesTermsNamespaceAndSelector c (GetNamespacesFromPodAffinityTerm d term) selector
        = true →
      ∃ p', p.processTerm term d c fixedNode weight = some p'
        ∧ p'.firstError = p.firstError ∧ p'.nodes = p.nodes
        ∧ (∀ n ∈ p.nodes, NodesHaveSameTopologyKey n fixedNode term.TopologyKey = true →
            ∃ cn, p.counts n.Name = some cn ∧ p'.counts n.Name = some (wrap64 (cn + weight))
              ∧ (isInt64 (cn + weight) → p'.counts n.Name = some (cn + weight)))
        ∧ ∀ s, (∀ n ∈ p.nodes, n.Name = s →
            NodesHaveSameTopologyKey n fixedNode term.TopologyKey = false) →
            p'.counts s = p.counts s)
      ∧ (PodMatchesTermsNamespaceAndSelector c (GetNamespacesFromPodAffinityTerm d term)
          selector = false →
        p.processTerm term d c fixedNode weight = some p) :=
  ⟨fun hmatch =>
      processTerm_frame_aux p term d c fixedNode weight selector hparse hmatch hnd hint halloc,
    fun hno => processTerm_not_match p hparse d c fixedNode weight hno⟩

/-- C26: when the label selector of the term cannot be parsed, `processTerm` returns the
accumulator after `setError` of the parse error, for every pod to check: every counter and
the nodes are as they were, and `firstError` is the error held before the call if there was
one, and the parse error otherwise. -/
theorem processTerm_parse_error (p : podAffinityPriorityMap) (term : PodAffinityTerm)
    (d c : Pod) (fixedNode : Node) (weight : Int) (err : Error)
    (hbad : LabelSelectorAsSelector term.LabelSelector = .error err) :
    p.processTerm term d c fixedNode weight = some (p.setError err)
      ∧ (p.setError err).counts = p.counts
      ∧ (p.setError err).nodes = p.nodes
      ∧ (p.setError err).firstError
          = (match p.firstError with
            | some e => some e
            | none => some err) := by
  refine ⟨?_, ?_, ?_, ?_⟩
  · unfold podAffinityPriorityMap.processTerm
    simp [hbad]
  · unfold podAffinityPriorityMap.setError
    split_ifs <;> rfl
  · unfold podAffinityPriorityMap.setError
    split_ifs <;> rfl
  · unfold podAffinityPriorityMap.setError
    cases h : p.firstError <;> simp [h]

/-! ## Monotone normalization -/

theorem scaledScore_mono {c1 c2 M m : Int} (hm : isInt64 m) (hM : isInt64 M)
    (h1 : m ≤ c1) (h12 : c1 ≤ c2) (h2 : c2 ≤ M) (hd : wrap64 (M - m) > 0) :
    scaledScore c1 M m ≤ scaledScore c2 M m := by
  rw [(scaledScore_of_between hm hM h1 (h12.trans h2) hd).1,
    (scaledScore_of_between hm hM (h1.trans h12) h2 hd).1]
  have hpos : 0 < M - m := by
    unfold isInt64 at hm hM
    unfold wrap64 at hd
    omega
  have hq : (0 : ℚ) < ((M - m : ℤ) : ℚ) := by exact_mod_cast hpos
  have hden := toFloat64_pos hq
  have hn1 : (0 : ℚ) ≤ ((c1 - m : ℤ) : ℚ) := by
    have : 0 ≤ c1 - m := by omega
    exact_mod_cast this
  have hn12 : ((c1 - m : ℤ) : ℚ) ≤ ((c2 - m : ℤ) : ℚ) := by
    have : c1 - m ≤ c2 - m := by omega
    exact_mod_cast this
  have hnum := toFloat64_mono hn1 hn12
  have hnum0 := toFloat64_nonneg hn1
  have hquot : toFloat64 ((c1 - m : ℤ) : ℚ) / toFloat64 ((M - m : ℤ) : ℚ)
      ≤ toFloat64 ((c2 - m : ℤ) : ℚ) / toFloat64 ((M - m : ℤ) : ℚ) :=
    div_le_div_of_nonneg_right hnum hden.le
  have hquot0 : 0 ≤ toFloat64 ((c1 - m : ℤ) : ℚ) / toFloat64 ((M - m : ℤ) : ℚ) :=
    div_nonneg hnum0 hden.le
  have hr := toFloat64_mono hquot0 hquot
  have hr0 := toFloat64_nonneg hquot0
  have hten : (10 : ℚ) * toFloat64
      (toFloat64 ((c1 - m : ℤ) : ℚ) / toFloat64 ((M - m : ℤ) : ℚ))
      ≤ 10 * toFloat64 (toFloat64 ((c2 - m : ℤ) : ℚ) / toFloat64 ((M - m : ℤ) : ℚ)) :=
    mul_le_mul_of_nonneg_left hr (by norm_num)
  have hten0 : (0 : ℚ) ≤ 10 * toFloat64
      (toFloat64 ((c1 - m : ℤ) : ℚ) / toFloat64 ((M - m : ℤ) : ℚ)) :=
    mul_nonneg (by norm_num) hr0
  exact Int.floor_le_floor (toFloat64_mono hten0 hten)

theorem mem_zip_map {α β : Type} (f : α → β) :
    ∀ (l : List α) (p : α × β), p ∈ l.zip (l.map f) → p.1 ∈ l ∧ p.2 = f p.1 := by
  intro l
  induction l with
  | nil => intro p hp; simp at hp
  | cons a l ih =>
    intro p hp
    simp only [List.map_cons, List.zip_cons_cons, List.mem_cons] at hp
    rcases hp with rfl | hp
    · exact ⟨List.mem_cons_self _ _, rfl⟩
    · exact ⟨List.mem_cons_of_mem _ (ih p hp).1, (ih p hp).2⟩

theorem countsScores_mono {pm : podAffinityPriorityMap} (hint : CountsInt64 pm)
    (nodes : List Node) :
    ∀ p ∈ nodes.zip (countsScores pm nodes), ∀ q ∈ nodes.zip (countsScores pm nodes),
      ∀ ca cb, pm.counts p.1.Name = some ca → pm.counts q.1.Name = some cb → ca ≤ cb →
        p.2.Score ≤ q.2.Score := by
  intro p hp q hq ca cb hca hcb hle
  unfold countsScores at hp hq
  obtain ⟨hpn, hps⟩ := mem_zip_map _ nodes p hp
  obtain ⟨hqn, hqs⟩ := mem_zip_map _ nodes q hq
  rw [hps, hqs]
  simp only [hca, hcb]
  by_cases hd : wrap64 ((countsMaxMin pm nodes).1 - (countsMaxMin pm nodes).2) > 0
  · simp only [hd, if_true]
    have hvals : ∀ v ∈ counterValues pm nodes, isInt64 v :=
      fun v hv => isInt64_of_mem_counterValues hint hv
    have hM := countsMaxMin_fst pm nodes
    have hm := countsMaxMin_snd pm nodes
    have hva : ca ∈ insert (0 : Int) {v | v ∈ counterValues pm nodes} :=
      Set.mem_insert_of_mem _ (mem_counterValues hpn hca)
    have hvb : cb ∈ insert (0 : Int) {v | v ∈ counterValues pm nodes} :=
      Set.mem_insert_of_mem _ (mem_counterValues hqn hcb)
    exact scaledScore_mono (isInt64_of_mem_insert hvals hm.1) (isInt64_of_mem_insert hvals hM.1)
      (hm.2 hva) hle (hM.2 hvb) hd
  · simp only [hd, if_false]
    exact le_rfl

theorem precomputedScores_mono {nodeScore : List (String × Int)}
    (hns : ∀ kv ∈ nodeScore, isInt64 kv.2) (nodes : List Node) :
    ∀ p ∈ nodes.zip (precomputedScores nodeScore nodes),
      ∀ q ∈ nodes.zip (precomputedScores nodeScore nodes),
        nodeScoreOf nodeScore p.1.Name ≤ nodeScoreOf nodeScore q.1.Name →
          p.2.Score ≤ q.2.Score := by
  intro p hp q hq hle
  unfold precomputedScores at hp hq
  obtain ⟨hpn, hps⟩ := mem_zip_map _ nodes p hp
  obtain ⟨hqn, hqs⟩ := mem_zip_map _ nodes q hq
  rw [hps, hqs]
  by_cases hd : wrap64 ((precomputedMaxMin nodeScore nodes).1
      - (precomputedMaxMin nodeScore nodes).2) > 0
  · simp only [hd, if_true]
    have hvals : ∀ v ∈ precomputedValues nodeScore nodes, isInt64 v := by
      intro v hv
      unfold precomputedValues at hv
      obtain ⟨n, _, rfl⟩ := List.mem_map.mp hv
      exact isInt64_nodeScoreOf hns _
    have hM := precomputedMaxMin_fst nodeScore nodes
    have hm := precomputedMaxMin_snd nodeScore nodes
    have hva : nodeScoreOf nodeScore p.1.Name
        ∈ insert (0 : Int) {v | v ∈ precomputedValues nodeScore nodes} :=
      Set.mem_insert_of_mem _
        (show _ ∈ precomputedValues nodeScore nodes from List.mem_map_of_mem _ hpn)
    have hvb : nodeScoreOf nodeScore q.1.Name
        ∈ insert (0 : Int) {v | v ∈ precomputedValues nodeScore nodes} :=
      Set.mem_insert_of_mem _
        (show _ ∈ precomputedValues nodeScore nodes from List.mem_map_of_mem _ hqn)
    exact scaledScore_mono (isInt64_of_mem_insert hvals hm.1) (isInt64_of_mem_insert hvals hM.1)
      (hm.2 hva) hle (hM.2 hvb) hd
  · simp only [hd, if_false]
    exact le_rfl

/-- C28: the normalization is monotone. In a returned list, paired with the candidate nodes
in order: on the precomputed path the node with the smaller value of the map has the
smaller or equal score, and on the scan path, of two nodes that both hold a counter, the
node with the smaller counter has the smaller or equal score. The values of the precomputed
map are `int64` values. -/
theorem normalization_monotone (ipa : InterPodAffinity) (nodeScore : List (String × Int))
    (pod : Pod) (nodeNameToInfo : List (String × NodeInfo)) (nodes : List Node)
    (l : List HostPriority) (hns : ∀ kv ∈ nodeScore, isInt64 kv.2)
    (h : CalculateInterPodAffinityPriority ipa nodeScore pod nodeNameToInfo nodes
      = some (.ok l)) :
    (nodeScore.length > 0 →
        ∀ p ∈ nodes.zip l, ∀ q ∈ nodes.zip l,
          nodeScoreOf nodeScore p.1.Name ≤ nodeScoreOf nodeScore q.1.Name →
            p.2.Score ≤ q.2.Score)
      ∧ (nodeScore.length = 0 →
        ∃ pm, scan ipa pod nodeNameToInfo nodes = some pm
          ∧ ∀ p ∈ nodes.zip l, ∀ q ∈ nodes.zip l, ∀ ca cb,
            pm.counts p.1.Name = some ca → pm.counts q.1.Name = some cb → ca ≤ cb →
              p.2.Score ≤ q.2.Score) := by
  rcases calculate_cases h with ⟨hlen, hl⟩ | ⟨hnil, pm, hscan, _, hl⟩
  · refine ⟨fun _ => ?_, fun h0 => absurd h0 (by omega)⟩
    rw [hl]
    exact precomputedScores_mono hns nodes
  · refine ⟨fun hpos => absurd hpos (by omega), fun _ => ⟨pm, hscan, ?_⟩⟩
    rw [hl]
    exact countsScores_mono (scan_countsInt64 hscan) nodes

/-! ## The normalization from zero -/

theorem countsScores_floor {pm : podAffinityPriorityMap} (hint : CountsInt64 pm)
    (nodes : List Node)
    (hb : (countsMaxMin pm nodes).1 - (countsMaxMin pm nodes).2 ≤ 2 ^ 49) :
    countsScores pm nodes = nodes.map (fun n =>
      { Host := n.Name
        Score := match pm.counts n.Name with
          | some c =>
            if (countsMaxMin pm nodes).1 = (countsMaxMin pm nodes).2 then 0
            else MaxPriority * (c - (countsMaxMin pm nodes).2)
              / ((countsMaxMin pm nodes).1 - (countsMaxMin pm nodes).2)
          | none => 0 }) := by
  have hvals : ∀ v ∈ counterValues pm nodes, isInt64 v :=
    fun v hv => isInt64_of_mem_counterValues hint hv
  have hM := countsMaxMin_fst pm nodes
  have hm := countsMaxMin_snd pm nodes
  have hMi := isInt64_of_mem_insert hvals hM.1
  have hmi := isInt64_of_mem_insert hvals hm.1
  have hle : (countsMaxMin pm nodes).2 ≤ (countsMaxMin pm nodes).1 := hm.2 hM.1
  unfold countsScores
  apply List.map_congr_left
  intro n hn
  cases hc : pm.counts n.Name with
  | none => simp [f64toInt_zero]
  | some c =>
    have hv : c ∈ insert (0 : Int) {v | v ∈ counterValues pm nodes} :=
      Set.mem_insert_of_mem _ (mem_counterValues hn hc)
    by_cases heq : (countsMaxMin pm nodes).1 = (countsMaxMin pm nodes).2
    · have hd : ¬ wrap64 ((countsMaxMin pm nodes).1 - (countsMaxMin pm nodes).2) > 0 := by
        rw [heq, sub_self]
        decide
      simp only [hd, if_false, f64toInt_zero]
      rw [if_pos heq]
    · have hpos : 0 < (countsMaxMin pm nodes).1 - (countsMaxMin pm nodes).2 := by omega
      have hd : wrap64 ((countsMaxMin pm nodes).1 - (countsMaxMin pm nodes).2) > 0 := by
        unfold wrap64
        omega
      simp only [hd, if_true, heq, if_false]
      rw [scaledScore_exact hmi hMi (hm.2 hv) (hM.2 hv) hpos hb]

theorem precomputedScores_floor {nodeScore : List (String × Int)}
    (hns : ∀ kv ∈ nodeScore, isInt64 kv.2) (nodes : List Node)
    (hb : (precomputedMaxMin nodeScore nodes).1 - (precomputedMaxMin nodeScore nodes).2
      ≤ 2 ^ 49) :
    precomputedScores nodeScore nodes = nodes.map (fun n =>
      { Host := n.Name
        Score :=
          if (precomputedMaxMin nodeScore nodes).1 = (precomputedMaxMin nodeScore nodes).2
          then 0
          else MaxPriority * (nodeScoreOf nodeScore n.Name - (precomputedMaxMin nodeScore nodes).2)
            / ((precomputedMaxMin nodeScore nodes).1 - (precomputedMaxMin nodeScore nodes).2) }) := by
  have hvals : ∀ v ∈ precomputedValues nodeScore nodes, isInt64 v := by
    intro v hv
    unfold precomputedValues at hv
    obtain ⟨n, _, rfl⟩ := List.mem_map.mp hv
    exact isInt64_nodeScoreOf hns _
  have hM := precomputedMaxMin_fst nodeScore nodes
  have hm := precomputedMaxMin_snd nodeScore nodes
  have hMi := isInt64_of_mem_insert hvals hM.1
  have hmi := isInt64_of_mem_insert hvals hm.1
  have hle : (precomputedMaxMin nodeScore nodes).2 ≤ (precomputedMaxMin nodeScore nodes).1 :=
    hm.2 hM.1
  unfold precomputedScores
  apply List.map_congr_left
  intro n hn
  have hv : nodeScoreOf nodeScore n.Name
      ∈ insert (0 : Int) {v | v ∈ precomputedValues nodeScore nodes} :=
    Set.mem_insert_of_mem _
      (show _ ∈ precomputedValues nodeScore nodes from List.mem_map_of_mem _ hn)
  by_cases heq : (precomputedMaxMin nodeScore nodes).1 = (precomputedMaxMin nodeScore nodes).2
  · have hd : ¬ wrap64 ((precomputedMaxMin nodeScore nodes).1
        - (precomputedMaxMin nodeScore nodes).2) > 0 := by
      rw [heq, sub_self]
      decide
    simp only [hd, if_false, f64toInt_zero]
    rw [if_pos heq]
  · have hpos : 0 < (precomputedMaxMin nodeScore nodes).1
        - (precomputedMaxMin nodeScore nodes).2 := by omega
    have hd : wrap64 ((precomputedMaxMin nodeScore nodes).1
        - (precomputedMaxMin nodeScore nodes).2) > 0 := by
      unfold wrap64
      omega
    simp only [hd, if_true, heq, if_false]
    rw [scaledScore_exact hmi hMi (hm.2 hv) (hM.2 hv) hpos hb]

/-- C27 (amended): on the scan path the minimum and the maximum of the normalization start
at 0. When the call finishes without error, `m` is the least and `M` the greatest among `0`
and the counters of the candidate nodes that hold one, so `m ≤ 0 ≤ M`; as long as
`M - m ≤ 2 ^ 49`, a candidate node with the counter `c` scores
`MaxPriority * (c - m) / (M - m)`, rounded down, when `M > m`, and every node scores 0 when
`M = m` or when it holds no counter. -/
theorem scan_normalization_from_zero (ipa : InterPodAffinity) (pod : Pod)
    (nodeNameToInfo : List (String × NodeInfo)) (nodes : List Node)
    (pm : podAffinityPriorityMap) (l : List HostPriority)
    (hscan : scan ipa pod nodeNameToInfo nodes = some pm)
    (hl : CalculateInterPodAffinityPriority ipa [] pod nodeNameToInfo nodes = some (.ok l)) :
    ∃ M m, IsGreatest (insert 0 {v | v ∈ counterValues pm nodes}) M
      ∧ IsLeast (insert 0 {v | v ∈ counterValues pm nodes}) m
      ∧ m ≤ 0 ∧ 0 ≤ M
      ∧ (M - m ≤ 2 ^ 49 →
          l = nodes.map (fun n =>
            { Host := n.Name
              Score := match pm.counts n.Name with
                | some c => if M = m then 0 else MaxPriority * (c - m) / (M - m)
                | none => 0 })) := by
  obtain ⟨_, hl'⟩ := firstError_of_calculate hscan hl
  have hM := countsMaxMin_fst pm nodes
  have hm := countsMaxMin_snd pm nodes
  refine ⟨_, _, hM, hm, hm.2 (Set.mem_insert _ _), hM.2 (Set.mem_insert _ _), fun hb => ?_⟩
  rw [hl']
  exact countsScores_floor (scan_countsInt64 hscan) nodes hb

/-- C29 (amended): with a precomputed node-score map that is not empty the result is computed
from the map and the node list alone: the call returns a list and no error, the same for
every pod, snapshot and node lookup. With `v n` the value of the map for the node `n` (0
when absent), `m` the least and `M` the greatest among `0` and the values of the candidate
nodes, and as long as `M - m ≤ 2 ^ 49`, the node `n` scores
`MaxPriority * (v n - m) / (M - m)`, rounded down, when `M > m`, and 0 when `M = m`. The
values of the map are `int64` values. -/
theorem precomputed_path_scores (ipa : InterPodAffinity) (nodeScore : List (String × Int))
    (pod : Pod) (nodeNameToInfo : List (String × NodeInfo)) (nodes : List Node)
    (hlen : nodeScore.length > 0) (hns : ∀ kv ∈ nodeScore, isInt64 kv.2) :
    ∃ M m, IsGreatest (insert 0 {v | v ∈ precomputedValues nodeScore nodes}) M
      ∧ IsLeast (insert 0 {v | v ∈ precomputedValues nodeScore nodes}) m
      ∧ m ≤ 0 ∧ 0 ≤ M
      ∧ (∃ l, CalculateInterPodAffinityPriority ipa nodeScore pod nodeNameToInfo nodes
          = some (.ok l))
      ∧ (∀ (ipa' : InterPodAffinity) (pod' : Pod) (nodeNameToInfo' : List (String × NodeInfo)),
          CalculateInterPodAffinityPriority ipa' nodeScore pod' nodeNameToInfo' nodes
            = CalculateInterPodAffinityPriority ipa nodeScore pod nodeNameToInfo nodes)
      ∧ (M - m ≤ 2 ^ 49 →
          CalculateInterPodAffinityPriority ipa nodeScore pod nodeNameToInfo nodes
            = some (.ok (nodes.map (fun n =>
                { Host := n.Name
                  Score := if M = m then 0
                    else MaxPriority * (nodeScoreOf nodeScore n.Name - m) / (M - m) })))) := by
  have hM := precomputedMaxMin_fst nodeScore nodes
  have hm := precomputedMaxMin_snd nodeScore nodes
  refine ⟨_, _, hM, hm, hm.2 (Set.mem_insert _ _), hM.2 (Set.mem_insert _ _),
    ⟨_, calculate_precomputed ipa pod nodeNameToInfo nodes hlen⟩, fun ipa' pod' m' => ?_,
    fun hb => ?_⟩
  · rw [calculate_precomputed ipa' pod' m' nodes hlen,
      calculate_precomputed ipa pod nodeNameToInfo nodes hlen]
  · rw [calculate_precomputed ipa pod nodeNameToInfo nodes hlen,
      precomputedScores_floor hns nodes hb]

/-! ## A run with large counters -/

theorem termsDelta_append (nodes : List Node) (a b : List WeightedPodAffinityTerm) (d c : Pod)
    (fixedNode : Node) (multiplier : Int) (s : String) :
    termsDelta nodes (a ++ b) d c fixedNode multiplier s
      = termsDelta nodes a d c fixedNode multiplier s
        + termsDelta nodes b d c fixedNode multiplier s := by
  unfold termsDelta
  rw [List.map_append, List.sum_append]

theorem termsDelta_replicate (nodes : List Node) (k : Nat) (t : WeightedPodAffinityTerm)
    (d c : Pod) (fixedNode : Node) (multiplier : Int) (s : String) :
    termsDelta nodes (List.replicate k t) d c fixedNode multiplier s
      = k * termDelta nodes t.PodAffinityTerm d c fixedNode
          (wrap32 (t.Weight * wrap32 multiplier)) s := by
  unfold termsDelta
  rw [List.map_replicate, List.sum_replicate, nsmul_eq_mul]

theorem podDelta_exPodMany (name node : String) (k extra : Nat) (eNode : Node)
    (nodes : List Node) (s : String) (hinfo : (exIpa 1).info node = .ok eNode) :
    podDelta (exIpa 1) exPodP nodes (exPodMany name node k extra) s
      = k * termDelta nodes (exTerm hostnameKey) (exPodMany name node k extra) exPodP eNode
            1073741824 s
        + extra * termDelta nodes (exTerm hostnameKey) (exPodMany name node k extra) exPodP
            eNode 1 s := by
  unfold podDelta
  have hnode : (exPodMany name node k extra).NodeName = node := rfl
  rw [hnode, hinfo]
  have h1 : preferredAffinityTerms exPodP = [] := rfl
  have h2 : preferredAntiAffinityTerms exPodP = [] := rfl
  have h3 : requiredAffinityTerms (exPodMany name node k extra) = [] := rfl
  have h4 : preferredAffinityTerms (exPodMany name node k extra)
      = List.replicate k ⟨1073741824, exTerm hostnameKey⟩
        ++ List.replicate extra ⟨1, exTerm hostnameKey⟩ := rfl
  have h5 : preferredAntiAffinityTerms (exPodMany name node k extra) = [] := rfl
  have w1 : wrap32 (1073741824 * wrap32 1) = 1073741824 := by decide
  have w2 : wrap32 (1 * wrap32 1) = 1 := by decide
  simp only [incomingDelta, existingDelta, h1, h2, h3, h4, h5, termsDelta_append,
    termsDelta_replicate, w1, w2]
  simp [termsDelta, hardTermsDelta]

theorem exLarge_scannedPods :
    scannedPods exPodP exSnapshotLarge
      = [exPodMany "L1" "n1" 1048576 0, exPodMany "L2" "n2" 10485760 1] := rfl

theorem exLarge_safe_clean (k extra : Nat) (name node : String) (eNode : Node)
    (hinfo : (exIpa 1).info node = .ok eNode)
    (hsafe : termSafe
      (initCounts exPodP exSnapshotLarge (newPodAffinityPriorityMap [exNode1, exNode2])).counts
      [exNode1, exNode2] (exTerm hostnameKey) (exPodMany name node k extra) exPodP eNode) :
    podSafe (exIpa 1) exPodP
        (initCounts exPodP exSnapshotLarge (newPodAffinityPriorityMap [exNode1, exNode2])).counts
        [exNode1, exNode2] (exPodMany name node k extra)
      ∧ podClean (exIpa 1) exPodP (exPodMany name node k extra) := by
  have hnode : (exPodMany name node k extra).NodeName = node := rfl
  have h1 : preferredAffinityTerms exPodP = [] := rfl
  have h2 : preferredAntiAffinityTerms exPodP = [] := rfl
  have h3 : requiredAffinityTerms (exPodMany name node k extra) = [] := rfl
  have h4 : preferredAffinityTerms (exPodMany name node k extra)
      = List.replicate k ⟨1073741824, exTerm hostnameKey⟩
        ++ List.replicate extra ⟨1, exTerm hostnameKey⟩ := rfl
  have h5 : preferredAntiAffinityTerms (exPodMany name node k extra) = [] := rfl
  have hterm : ∀ t ∈ preferredAffinityTerms (exPodMany name node k extra),
      t.PodAffinityTerm = exTerm hostnameKey := by
    intro t ht
    rw [h4] at ht
    rcases List.mem_append.mp ht with h | h
    · rw [List.eq_of_mem_replicate h]
    · rw [List.eq_of_mem_replicate h]
  constructor
  · intro eNode' hinfo'
    rw [hnode, hinfo] at hinfo'
    have he : eNode' = eNode := (Except.ok.inj hinfo').symm
    subst he
    rw [h1, h2, h3, h5]
    refine ⟨fun t ht => (List.not_mem_nil t ht).elim, fun t ht => (List.not_mem_nil t ht).elim,
      fun _ t ht => (List.not_mem_nil t ht).elim, fun t ht => ?_,
      fun t ht => (List.not_mem_nil t ht).elim⟩
    rw [hterm t ht]
    exact hsafe
  · unfold podClean
    rw [hnode, hinfo]
    unfold termsParse
    rw [h1, h2, h3, h5]
    refine ⟨fun t ht => (List.not_mem_nil t ht).elim, fun t ht => (List.not_mem_nil t ht).elim,
      fun _ t ht => (List.not_mem_nil t ht).elim, fun t ht => ?_,
      fun t ht => (List.not_mem_nil t ht).elim⟩
    rw [hterm t ht]
    exact exTerm_parses hostnameKey

theorem exLarge_pods :
    ∀ e ∈ scannedPods exPodP exSnapshotLarge,
      podSafe (exIpa 1) exPodP
          (initCounts exPodP exSnapshotLarge
            (newPodAffinityPriorityMap [exNode1, exNode2])).counts
          [exNode1, exNode2] e
        ∧ podClean (exIpa 1) exPodP e := by
  intro e he
  rw [exLarge_scannedPods] at he
  simp only [List.mem_cons, List.mem_singleton, List.not_mem_nil, or_false] at he
  rcases he with rfl | rfl
  · refine exLarge_safe_clean _ _ _ _ exNode1 rfl ?_
    unfold termSafe
    decide
  · refine exLarge_safe_clean _ _ _ _ exNode2 rfl ?_
    unfold termSafe
    decide

theorem exLarge_run :
    ∃ pm, scan (exIpa 1) exPodP exSnapshotLarge [exNode1, exNode2] = some pm
      ∧ pm.firstError = none
      ∧ pm.counts "n1" = some 1125899906842624
      ∧ pm.counts "n2" = some 11258999068426241 := by
  obtain ⟨pm, hscan⟩ := scan_isSome (exIpa 1) exPodP exSnapshotLarge [exNode1, exNode2]
    (fun e he => (exLarge_pods e he).1)
  have herr := scan_firstError hscan (fun e he => (exLarge_pods e he).2)
  have hs := shifted_scan hscan
  have i1 : (initCounts exPodP exSnapshotLarge
      (newPodAffinityPriorityMap [exNode1, exNode2])).counts "n1" = some 0 := by decide
  have i2 : (initCounts exPodP exSnapshotLarge
      (newPodAffinityPriorityMap [exNode1, exNode2])).counts "n2" = some 0 := by decide
  obtain ⟨c1, hc1⟩ := hs.some_of_some "n1" 0 i1
  obtain ⟨c2, hc2⟩ := hs.some_of_some "n2" 0 i2
  have e1 := scan_counts hscan hc1
  have e2 := scan_counts hscan hc2
  have d11 : termDelta [exNode1, exNode2] (exTerm hostnameKey) (exPodMany "L1" "n1" 1048576 0)
      exPodP exNode1 1073741824 "n1" = 1073741824 := by decide
  have d12 : termDelta [exNode1, exNode2] (exTerm hostnameKey) (exPodMany "L1" "n1" 1048576 0)
      exPodP exNode1 1073741824 "n2" = 0 := by decide
  have d21 : termDelta [exNode1, exNode2] (exTerm hostnameKey) (exPodMany "L2" "n2" 10485760 1)
      exPodP exNode2 1073741824 "n1" = 0 := by decide
  have d22 : termDelta [exNode1, exNode2] (exTerm hostnameKey) (exPodMany "L2" "n2" 10485760 1)
      exPodP exNode2 1073741824 "n2" = 1073741824 := by decide
  have u21 : termDelta [exNode1, exNode2] (exTerm hostnameKey) (exPodMany "L2" "n2" 10485760 1)
      exPodP exNode2 1 "n1" = 0 := by decide
  have u22 : termDelta [exNode1, exNode2] (exTerm hostnameKey) (exPodMany "L2" "n2" 10485760 1)
      exPodP exNode2 1 "n2" = 1 := by decide
  rw [exLarge_scannedPods] at e1 e2
  simp only [List.map_cons, List.map_nil, List.sum_cons, List.sum_nil,
    podDelta_exPodMany "L1" "n1" 1048576 0 exNode1 _ _ rfl,
    podDelta_exPodMany "L2" "n2" 10485760 1 exNode2 _ _ rfl, d11, d12, d21, d22, u21, u22]
    at e1 e2
  have v1 : c1 = 1125899906842624 := by
    rw [e1]
    norm_num [wrap64]
  have v2 : c2 = 11258999068426241 := by
    rw [e2]
    norm_num [wrap64]
  exact ⟨pm, hscan, herr, by rw [hc1, v1], by rw [hc2, v2]⟩

theorem exLarge_calculate :
    CalculateInterPodAffinityPriority (exIpa 1) [] exPodP exSnapshotLarge [exNode1, exNode2]
      = some (.ok [{ Host := "n1", Score := 1 }, { Host := "n2", Score := 10 }]) := by
  obtain ⟨pm, hscan, herr, h1, h2⟩ := exLarge_run
  have h1' : pm.counts exNode1.Name = some 1125899906842624 := h1
  have h2' : pm.counts exNode2.Name = some 11258999068426241 := h2
  have hmm : countsMaxMin pm [exNode1, exNode2] = (11258999068426241, 0) := by
    simp [countsMaxMin, h1', h2', updateMaxMin]
  have hd : wrap64 (11258999068426241 - 0) > 0 := by decide
  have s1 : scaledScore 1125899906842624 11258999068426241 0 = 1 := by
    have := scaledScore_large
    norm_num at this ⊢
    exact this
  have s2 : scaledScore 11258999068426241 11258999068426241 0 = 10 :=
    scaledScore_max (by decide) (by decide) (by decide) (by decide)
  rw [calculate_scan hscan, herr]
  simp only [countsScores, hmm, List.map_cons, List.map_nil, h1', h2', hd, if_true, s1, s2]
  rfl

theorem exLarge_precomputed :
    CalculateInterPodAffinityPriority (exIpa 1)
        [("n1", 1125899906842624), ("n2", 11258999068426241)] exPodP exSnapshotS
        [exNode1, exNode2]
      = some (.ok [{ Host := "n1", Score := 1 }, { Host := "n2", Score := 10 }]) := by
  have h1 : nodeScoreOf [("n1", 1125899906842624), ("n2", 11258999068426241)] exNode1.Name
      = 1125899906842624 := by decide
  have h2 : nodeScoreOf [("n1", 1125899906842624), ("n2", 11258999068426241)] exNode2.Name
      = 11258999068426241 := by decide
  have hmm : precomputedMaxMin [("n1", 1125899906842624), ("n2", 11258999068426241)]
      [exNode1, exNode2] = (11258999068426241, 0) := by
    simp [precomputedMaxMin, h1, h2, updateMaxMin]
  have hd : wrap64 (11258999068426241 - 0) > 0 := by decide
  have s1 : scaledScore 1125899906842624 11258999068426241 0 = 1 := by
    have := scaledScore_large
    norm_num at this ⊢
    exact this
  have s2 : scaledScore 11258999068426241 11258999068426241 0 = 10 :=
    scaledScore_max (by decide) (by decide) (by decide) (by decide)
  rw [calculate_precomputed _ _ _ _ (by decide)]
  simp only [precomputedScores, hmm, List.map_cons, List.map_nil, h1, h2, hd, if_true, s1, s2]
  rfl

/-! ## The claims on `processTerm` and on the normalization -/

/-- C25 (witness): the accumulator with the counters of `n1` and `n2` at 0, the term that
selects `app=P` on a host, the pod `S` on `n1` and the weight `-5`. -/
theorem processTerm_frame_witness :
    (PodMatchesTermsNamespaceAndSelector (exPodS "n1")
          (GetNamespacesFromPodAffinityTerm exPodAnti (exTerm hostnameKey)) exSelector = true →
      ∃ p', (initCounts exPodAnti exSnapshotS
            (newPodAffinityPriorityMap [exNode1, exNode2])).processTerm (exTerm hostnameKey)
            exPodAnti (exPodS "n1") exNode1 (-5) = some p'
        ∧ p'.firstError = (initCounts exPodAnti exSnapshotS
            (newPodAffinityPriorityMap [exNode1, exNode2])).firstError
        ∧ p'.nodes = (initCounts exPodAnti exSnapshotS
            (newPodAffinityPriorityMap [exNode1, exNode2])).nodes
        ∧ (∀ n ∈ (initCounts exPodAnti exSnapshotS
              (newPodAffinityPriorityMap [exNode1, exNode2])).nodes,
            NodesHaveSameTopologyKey n exNode1 (exTerm hostnameKey).TopologyKey = true →
            ∃ cn, (initCounts exPodAnti exSnapshotS
                  (newPodAffinityPriorityMap [exNode1, exNode2])).counts n.Name = some cn
              ∧ p'.counts n.Name = some (wrap64 (cn + -5))
              ∧ (isInt64 (cn + -5) → p'.counts n.Name = some (cn + -5)))
        ∧ ∀ s, (∀ n ∈ (initCounts exPodAnti exSnapshotS
              (newPodAffinityPriorityMap [exNode1, exNode2])).nodes, n.Name = s →
            NodesHaveSameTopologyKey n exNode1 (exTerm hostnameKey).TopologyKey = false) →
            p'.counts s = (initCounts exPodAnti exSnapshotS
              (newPodAffinityPriorityMap [exNode1, exNode2])).counts s)
      ∧ (PodMatchesTermsNamespaceAndSelector (exPodS "n1")
            (GetNamespacesFromPodAffinityTerm exPodAnti (exTerm hostnameKey)) exSelector
            = false →
        (initCounts exPodAnti exSnapshotS
            (newPodAffinityPriorityMap [exNode1, exNode2])).processTerm (exTerm hostnameKey)
            exPodAnti (exPodS "n1") exNode1 (-5)
          = some (initCounts exPodAnti exSnapshotS
              (newPodAffinityPriorityMap [exNode1, exNode2]))) :=
  processTerm_frame
    (initCounts exPodAnti exSnapshotS (newPodAffinityPriorityMap [exNode1, exNode2]))
    (exTerm hostnameKey) exPodAnti (exPodS "n1") exNode1 (-5) exSelector rfl (by decide)
    (initCounts_countsInt64 exPodAnti exSnapshotS [exNode1, exNode2]) (by decide)

/-- C26 (witness): the term whose selector is the string `==`, processed on the empty
accumulator for the candidate node `n1`. -/
theorem processTerm_parse_error_witness :
    (newPodAffinityPriorityMap [exNode1]).processTerm exBadTerm exPodBadPreferred (exPodS "n1")
        exNode1 1
        = some ((newPodAffinityPriorityMap [exNode1]).setError ⟨"==", false⟩)
      ∧ ((newPodAffinityPriorityMap [exNode1]).setError ⟨"==", false⟩).counts
          = (newPodAffinityPriorityMap [exNode1]).counts
      ∧ ((newPodAffinityPriorityMap [exNode1]).setError ⟨"==", false⟩).nodes
          = (newPodAffinityPriorityMap [exNode1]).nodes
      ∧ ((newPodAffinityPriorityMap [exNode1]).setError ⟨"==", false⟩).firstError
          = (match (newPodAffinityPriorityMap [exNode1]).firstError with
            | some e => some e
            | none => some ⟨"==", false⟩) :=
  processTerm_parse_error (newPodAffinityPriorityMap [exNode1]) exBadTerm exPodBadPreferred
    (exPodS "n1") exNode1 1 ⟨"==", false⟩ rfl

/-- C27 (counterexample): `n1` hosts a pod with `2 ^ 20` terms of weight `2 ^ 30` and `n2`
a pod with `10 * 2 ^ 20` such terms and one of weight 1, all matching the incoming pod on
the host: the counters are `2 ^ 50` and `10 * 2 ^ 50 + 1`, and the call returns the score 1
for `n1`, where `MaxPriority * (c - m) / (M - m)` rounded down is 0: the quotient is
computed in `float64`. -/
theorem large_counters_scores :
    (∃ pm, scan (exIpa 1) exPodP exSnapshotLarge [exNode1, exNode2] = some pm
        ∧ pm.firstError = none
        ∧ pm.counts "n1" = some 1125899906842624
        ∧ pm.counts "n2" = some 11258999068426241)
      ∧ CalculateInterPodAffinityPriority (exIpa 1) [] exPodP exSnapshotLarge
          [exNode1, exNode2]
        = some (.ok [{ Host := "n1", Score := 1 }, { Host := "n2", Score := 10 }])
      ∧ MaxPriority * (1125899906842624 - 0) / (11258999068426241 - 0) = 0
      ∧ CalculateInterPodAffinityPriority (exIpa 1) [] exPodP exSnapshotLarge
          [exNode1, exNode2]
        ≠ some (.ok [{ Host := "n1", Score := 0 }, { Host := "n2", Score := 10 }]) := by
  refine ⟨exLarge_run, exLarge_calculate, by decide, ?_⟩
  rw [exLarge_calculate]
  intro h
  have h' := Except.ok.inj (Option.some.inj h)
  revert h'
  decide

/-- C27 (witness): the counters 2, 5 and 9: `M = 9`, `m = 0` and the scores 2, 5 and 10. -/
theorem scan_normalization_from_zero_witness :
    ∃ M m, IsGreatest (insert 0 {v | v ∈ counterValues
          (scanResult (exIpa 1) exPodP exSnapshot259 [exNode1, exNode2, exNode3])
          [exNode1, exNode2, exNode3]}) M
      ∧ IsLeast (insert 0 {v | v ∈ counterValues
          (scanResult (exIpa 1) exPodP exSnapshot259 [exNode1, exNode2, exNode3])
          [exNode1, exNode2, exNode3]}) m
      ∧ m ≤ 0 ∧ 0 ≤ M
      ∧ (M - m ≤ 2 ^ 49 →
          [({ Host := "n1", Score := 2 } : HostPriority), { Host := "n2", Score := 5 },
              { Host := "n3", Score := 10 }]
            = [exNode1, exNode2, exNode3].map (fun n =>
              { Host := n.Name
                Score := match (scanResult (exIpa 1) exPodP exSnapshot259
                    [exNode1, exNode2, exNode3]).counts n.Name with
                  | some c => if M = m then 0 else MaxPriority * (c - m) / (M - m)
                  | none => 0 })) :=
  scan_normalization_from_zero (exIpa 1) exPodP exSnapshot259 [exNode1, exNode2, exNode3]
    (scanResult (exIpa 1) exPodP exSnapshot259 [exNode1, exNode2, exNode3]) _
    ex259_scan ex259_calculate

/-- C28 (witness): the list returned for the counters 2, 5 and 9. -/
theorem normalization_monotone_witness :
    (([] : List (String × Int)).length > 0 →
        ∀ p ∈ [exNode1, exNode2, exNode3].zip
            [({ Host := "n1", Score := 2 } : HostPriority), { Host := "n2", Score := 5 },
              { Host := "n3", Score := 10 }],
          ∀ q ∈ [exNode1, exNode2, exNode3].zip
            [({ Host := "n1", Score := 2 } : HostPriority), { Host := "n2", Score := 5 },
              { Host := "n3", Score := 10 }],
          nodeScoreOf [] p.1.Name ≤ nodeScoreOf [] q.1.Name → p.2.Score ≤ q.2.Score)
      ∧ (([] : List (String × Int)).length = 0 →
        ∃ pm, scan (exIpa 1) exPodP exSnapshot259 [exNode1, exNode2, exNode3] = some pm
          ∧ ∀ p ∈ [exNode1, exNode2, exNode3].zip
              [({ Host := "n1", Score := 2 } : HostPriority), { Host := "n2", Score := 5 },
                { Host := "n3", Score := 10 }],
            ∀ q ∈ [exNode1, exNode2, exNode3].zip
              [({ Host := "n1", Score := 2 } : HostPriority), { Host := "n2", Score := 5 },
                { Host := "n3", Score := 10 }],
            ∀ ca cb, pm.counts p.1.Name = some ca → pm.counts q.1.Name = some cb → ca ≤ cb →
              p.2.Score ≤ q.2.Score) :=
  normalization_monotone (exIpa 1) [] exPodP exSnapshot259 [exNode1, exNode2, exNode3] _
    (fun kv hkv => (List.not_mem_nil kv hkv).elim) ex259_calculate

/-- C29 (counterexample): the precomputed values `2 ^ 50` for `n1` and `10 * 2 ^ 50 + 1` for
`n2`: the call returns the score 1 for `n1`, where `MaxPriority * (v - m) / (M - m)` rounded
down is 0: the quotient is computed in `float64`. -/
theorem precomputed_large_scores :
    CalculateInterPodAffinityPriority (exIpa 1)
        [("n1", 1125899906842624), ("n2", 11258999068426241)] exPodP exSnapshotS
        [exNode1, exNode2]
        = some (.ok [{ Host := "n1", Score := 1 }, { Host := "n2", Score := 10 }])
      ∧ MaxPriority * (1125899906842624 - 0) / (11258999068426241 - 0) = 0
      ∧ CalculateInterPodAffinityPriority (exIpa 1)
          [("n1", 1125899906842624), ("n2", 11258999068426241)] exPodP exSnapshotS
          [exNode1, exNode2]
        ≠ some (.ok [{ Host := "n1", Score := 0 }, { Host := "n2", Score := 10 }]) := by
  refine ⟨exLarge_precomputed, by decide, ?_⟩
  rw [exLarge_precomputed]
  intro h
  have h' := Except.ok.inj (Option.some.inj h)
  revert h'
  decide

/-- C29 (witness): the precomputed map that gives `n1` the value `-5` and has no entry for
`n2`. -/
theorem precomputed_path_scores_witness :
    ∃ M m, IsGreatest (insert 0 {v | v ∈ precomputedValues [("n1", -5)] [exNode1, exNode2]}) M
      ∧ IsLeast (insert 0 {v | v ∈ precomputedValues [("n1", -5)] [exNode1, exNode2]}) m
      ∧ m ≤ 0 ∧ 0 ≤ M
      ∧ (∃ l, CalculateInterPodAffinityPriority (exIpa 1) [("n1", -5)] exPodP exSnapshotAway
          [exNode1, exNode2] = some (.ok l))
      ∧ (∀ (ipa' : InterPodAffinity) (pod' : Pod) (nodeNameToInfo' : List (String × NodeInfo)),
          CalculateInterPodAffinityPriority ipa' [("n1", -5)] pod' nodeNameToInfo'
              [exNode1, exNode2]
            = CalculateInterPodAffinityPriority (exIpa 1) [("n1", -5)] exPodP exSnapshotAway
              [exNode1, exNode2])
      ∧ (M - m ≤ 2 ^ 49 →
          CalculateInterPodAffinityPriority (exIpa 1) [("n1", -5)] exPodP exSnapshotAway
              [exNode1, exNode2]
            = some (.ok ([exNode1, exNode2].map (fun n =>
                { Host := n.Name
                  Score := if M = m then 0
                    else MaxPriority * (nodeScoreOf [("n1", -5)] n.Name - m) / (M - m) })))) :=
  precomputed_path_scores (exIpa 1) [("n1", -5)] exPodP exSnapshotAway [exNode1, exNode2]
    (by decide) (by decide)

end Priorities

namespace Lifecycle

/-! ## `resolvePort` -/

theorem findPort_none {portName : String} {ports : List PortSpec} :
    findPort portName ports = none ↔ ∀ q ∈ ports, q.Name ≠ portName := by
  induction ports with
  | nil => simp [findPort]
  | cons p rest ih =>
    unfold findPort
    by_cases hp : p.Name = portName
    · simp [hp]
    · simp [hp, ih]

theorem findPort_first {portName : String} (before : List PortSpec) (portSpec : PortSpec)
    (after : List PortSpec) (hname : portSpec.Name = portName)
    (hbefore : ∀ q ∈ before, q.Name ≠ portName) :
    findPort portName (before ++ portSpec :: after) = some portSpec := by
  induction before with
  | nil => simp [findPort, hname]
  | cons b bs ih =>
    have hb : b.Name ≠ portName := hbefore b (List.mem_cons_self _ _)
    have hbs : ∀ q ∈ bs, q.Name ≠ portName := fun q hq => hbefore q (List.mem_cons_of_mem _ hq)
    rw [List.cons_append, findPort, if_neg hb]
    exact ih hbs

theorem findPort_some {portName : String} {ports : List PortSpec} {portSpec : PortSpec}
    (h : findPort portName ports = some portSpec) :
    ∃ before after, ports = before ++ portSpec :: after ∧ portSpec.Name = portName
      ∧ ∀ q ∈ before, q.Name ≠ portName := by
  induction ports with
  | nil => simp [findPort] at h
  | cons p rest ih =>
    unfold findPort at h
    by_cases hp : p.Name = portName
    · rw [if_pos hp] at h
      have hps : p = portSpec := Option.some.inj h
      subst hps
      exact ⟨[], rest, rfl, hp, fun q hq => (List.not_mem_nil q hq).elim⟩
    · rw [if_neg hp] at h
      obtain ⟨before, after, hrest, hname, hbefore⟩ := ih h
      refine ⟨p :: before, after, by rw [hrest]; rfl, hname, fun q hq => ?_⟩
      rcases List.mem_cons.mp hq with rfl | hq
      · exact hp
      · exact hbefore q hq

theorem intValue_of_int {portReference : IntOrString} (h : portReference.Type_ = intstrInt) :
    portReference.IntValue = portReference.IntVal := by
  unfold IntOrString.IntValue
  rw [if_neg]
  rw [h]
  decide

/-- C21: for every port reference and container, `resolvePort` returns a port and an error.
When the reference is of the type Int, the port is its integer value and the error is nil.
Otherwise, when the string parses as an integer, the port is the parsed number and the error
is nil. Otherwise, when a port of the container has the string as its name, the port is the
`ContainerPort` of the first such port and the error is nil. Otherwise the port is `-1` and
the error is not nil. The error is not nil exactly when the reference is not of the type
Int, the string does not parse and no port of the container has it as its name. -/
theorem resolvePort_cases (portReference : IntOrString) (container : Container) :
    ∃ port err, resolvePort portReference (some container) = some (port, err)
      ∧ (portReference.Type_ = intstrInt →
          port = portReference.IntValue ∧ port = portReference.IntVal ∧ err = none)
      ∧ (portReference.Type_ ≠ intstrInt →
          ∀ n, Atoi portReference.StrVal = some n → port = n ∧ err = none)
      ∧ (portReference.Type_ ≠ intstrInt → Atoi portReference.StrVal = none →
          ∀ before portSpec after, container.Ports = before ++ portSpec :: after →
            portSpec.Name = portReference.StrVal →
            (∀ q ∈ before, q.Name ≠ portReference.StrVal) →
            port = portSpec.ContainerPort ∧ err = none)
      ∧ (portReference.Type_ ≠ intstrInt → Atoi portReference.StrVal = none →
          (∀ q ∈ container.Ports, q.Name ≠ portReference.StrVal) →
          port = -1 ∧ err ≠ none)
      ∧ (err ≠ none ↔ (portReference.Type_ ≠ intstrInt ∧ Atoi portReference.StrVal = none
          ∧ ∀ q ∈ container.Ports, q.Name ≠ portReference.StrVal)) := by
  by_cases ht : portReference.Type_ = intstrInt
  · refine ⟨portReference.IntValue, none, by rw [resolvePort, if_pos ht],
      fun _ => ⟨rfl, intValue_of_int ht, rfl⟩,
      fun h => absurd ht h, fun h => absurd ht h, fun h => absurd ht h, ?_⟩
    constructor
    · intro h
      exact absurd rfl h
    · intro h
      exact absurd ht h.1
  · cases ha : Atoi portReference.StrVal with
    | some n =>
      refine ⟨n, none, by simp only [resolvePort, if_neg ht, ha], fun h => absurd h ht, fun _ m hm => ⟨(Option.some.inj hm), rfl⟩,
        fun _ h => Option.noConfusion h, fun _ h => Option.noConfusion h, ?_⟩
      constructor
      · intro h
        exact absurd rfl h
      · intro h
        exact Option.noConfusion h.2.1
    | none =>
      cases hf : findPort portReference.StrVal container.Ports with
      | some portSpec =>
        have hnot : ¬ ∀ q ∈ container.Ports, q.Name ≠ portReference.StrVal := by
          intro hall
          rw [findPort_none.mpr hall] at hf
          exact Option.noConfusion hf
        refine ⟨portSpec.ContainerPort, none, by simp only [resolvePort, if_neg ht, ha, hf],
          fun h => absurd h ht,
          fun _ m hm => Option.noConfusion hm, ?_, fun _ _ hall => absurd hall hnot, ?_⟩
        · intro _ _ before p after hports hname hbefore
          rw [hports, findPort_first before p after hname hbefore] at hf
          rw [Option.some.inj hf]
          exact ⟨rfl, rfl⟩
        · constructor
          · intro h
            exact absurd rfl h
          · intro h
            exact absurd h.2.2 hnot
      | none =>
        have hall := findPort_none.mp hf
        refine ⟨-1, some ⟨"couldn't find port: %v in %v", portReference, container⟩,
          by simp only [resolvePort, if_neg ht, ha, hf], fun h => absurd h ht, fun _ m hm => Option.noConfusion hm, ?_,
          fun _ _ _ => ⟨rfl, fun h => Option.noConfusion h⟩, ?_⟩
        · intro _ _ before p after hports hname hbefore
          rw [hports, findPort_first before p after hname hbefore] at hf
          exact Option.noConfusion hf
        · constructor
          · intro _
            exact ⟨ht, rfl, hall⟩
          · intro _ h
            exact Option.noConfusion h

end Lifecycle

namespace StorageValidation

/-! ## `validateParameters` -/

theorem utf8ByteSize_go_replicate (n : Nat) :
    String.utf8ByteSize.go (List.replicate n 'a') = n := by
  induction n with
  | zero => rfl
  | succ k ih =>
    rw [List.replicate_succ, String.utf8ByteSize.go, ih]
    rfl

theorem len_letters (n : Nat) : len (letters n) = n := by
  have h : (letters n).utf8ByteSize = String.utf8ByteSize.go (List.replicate n 'a') := rfl
  unfold len
  rw [h, utf8ByteSize_go_replicate]

/-- C22: `validateParameters` returns the empty error list for a parameter map whose one key
is `not a qualified name!`, which is not a qualified name, and for a parameter map whose one
key and value have a total length of exactly `256 * 1024` bytes. -/
theorem validateParameters_accepts (fldPath : String) :
    validateParameters [("not a qualified name!", "v")] fldPath = []
      ∧ len "a" + len (letters 262143) = 256 * 1024
      ∧ validateParameters [("a", letters 262143)] fldPath = [] := by
  refine ⟨?_, ?_, ?_⟩
  · unfold validateParameters
    rw [if_neg (by decide)]
    simp only [List.foldl, checkParameter]
    rw [if_neg (by decide), if_neg (by decide)]
  · rw [len_letters]
    rfl
  · unfold validateParameters
    rw [if_neg (by decide)]
    simp only [List.foldl, checkParameter, len_letters]
    rw [if_neg (by decide), if_neg (by decide)]

end StorageValidation

namespace Kuberc

/-! ## `getExplicitKuberc` -/

/-- C30: `getExplicitKuberc` cuts the value `/tmp/a=b` of the flag `--kuberc=/tmp/a=b` at
its equals sign and returns `/tmp/a`; it takes the flag inside the argument
`--other=--kuberc=x` and returns `--kuberc`. -/
theorem getExplicitKuberc_cuts_value :
    getExplicitKuberc ["--kuberc=/tmp/a=b"] = "/tmp/a"
      ∧ getExplicitKuberc ["--other=--kuberc=x"] = "--kuberc" := by
  constructor <;> decide

end Kuberc

namespace Namer

/-! ## `NameStrategy.name` -/

/-- The examples of the comment on `PrependPackageNames`: with the ignored word `proto`, the
public namer gives `FrobbingFoo` for 1 and `ServerFrobbingFoo` for 2. -/
theorem name_examples :
    (NewPublicNamer 1 [ascii "proto"]).name exFoo [] = some (ascii "FrobbingFoo")
      ∧ (NewPublicNamer 2 [ascii "proto"]).name exFoo [] = some (ascii "ServerFrobbingFoo") := by
  constructor <;> decide

/-- C23: with `PrependPackageNames` the largest `int`, the method `name` of the public namer
panics for the type `Foo` of the package `pkg/server/frobbing/proto`: the sum
`PrependPackageNames + 1` wraps around to the smallest `int`, and the slice expression is
out of range. -/
theorem name_overflow_panics :
    0 ≤ maxInt ∧ Priorities.isInt64 maxInt
      ∧ (NewPublicNamer maxInt [ascii "proto"]).name exFoo [] = none := by
  refine ⟨by decide, by decide, ?_⟩
  decide

end Namer

namespace Namer

/-- When `PrependPackageNames + 1` does not overflow, the method `name` joins, for a type
with a package, the last `min n k` of the `k` filtered directory names and the type name. -/
theorem name_no_overflow (ns : NameStrategy) (t : TypeName) (anonymous : GoString) (n : Nat)
    (hpkg : t.Package ≠ []) (hn : ns.PrependPackageNames = n) (hmax : (n : Int) + 1 < 2 ^ 63)
    (hlen : ((ns.filterDirs t.Package).length : Int) + 1 < 2 ^ 63) :
    ns.name t anonymous = some (ns.Join
      ((ns.filterDirs t.Package).drop
          ((ns.filterDirs t.Package).length - min n (ns.filterDirs t.Package).length)
        ++ [t.Name])) := by
  have hi : Priorities.wrap64 (ns.PrependPackageNames + 1) = (n : Int) + 1 := by
    rw [hn]
    apply Priorities.wrap64_of_isInt64
    constructor <;> omega
  have hdn : (((ns.filterDirs t.Package ++ [t.Name]).length : Nat) : Int)
      = ((ns.filterDirs t.Package).length : Int) + 1 := by
    rw [List.length_append]
    simp
  generalize hk : (ns.filterDirs t.Package).length = k at hlen hdn
  have hlow : Priorities.wrap64 ((k : Int) + 1 - (if (n : Int) + 1 > (k : Int) + 1
      then (k : Int) + 1 else (n : Int) + 1)) = ((k - min n k : Nat) : Int) := by
    split_ifs with h
    · rw [Priorities.wrap64_of_isInt64 (by constructor <;> omega)]
      omega
    · rw [Priorities.wrap64_of_isInt64 (by constructor <;> omega)]
      omega
  unfold NameStrategy.name
  rw [if_pos hpkg]
  simp only [hi, hdn, hlow, Int.toNat_ofNat]
  rw [if_pos (by constructor <;> omega)]
  rw [List.drop_append_of_le_length (by rw [hk]; omega)]

end Namer

namespace Golist2make

/-! ## `depsForPkg` -/

theorem mem_orderedKeys {l : List String} {x : String} : x ∈ orderedKeys l ↔ x ∈ l := by
  unfold orderedKeys sortStrings
  rw [(List.perm_insertionSort (· ≤ ·) l.dedup).mem_iff, List.mem_dedup]

theorem sorted_orderedKeys (l : List String) : (orderedKeys l).Sorted (· < ·) := by
  unfold orderedKeys sortStrings
  apply List.Sorted.lt_of_le (List.sorted_insertionSort (· ≤ ·) l.dedup)
  exact (List.perm_insertionSort (· ≤ ·) l.dedup).nodup_iff.mpr (List.nodup_dedup l)

theorem flatMap_congr_mem {f g : String → List String} {l : List String}
    (h : ∀ i ∈ l, f i = g i) : l.flatMap f = l.flatMap g := by
  induction l with
  | nil => rfl
  | cons a as ih =>
    rw [List.flatMap_cons, List.flatMap_cons, h a (List.mem_cons_self _ _),
      ih (fun i hi => h i (List.mem_cons_of_mem _ hi))]

theorem depsSpec_fuel {packages : List (String × Package)} {rank : String → Nat}
    (hacyclic : Acyclic packages rank) :
    ∀ f1 f2 p, rank p < f1 → rank p < f2 → depsSpec packages f1 p = depsSpec packages f2 p := by
  intro f1
  induction f1 with
  | zero => intro f2 p h; exact absurd h (Nat.not_lt_zero _)
  | succ f1 ih =>
    intro f2 p h1 h2
    cases f2 with
    | zero => exact absurd h2 (Nat.not_lt_zero _)
    | succ f2 =>
      unfold depsSpec
      cases hl : packages.lookup p with
      | none => rfl
      | some pkg =>
        cases hs : pkg.Standard with
        | true => simp only [hs, if_true]
        | false =>
          simp only [hs, Bool.false_eq_true, if_false]
          rw [flatMap_congr_mem (fun i hi => ih f2 i
            (by have := hacyclic p pkg hl hs i hi; omega)
            (by have := hacyclic p pkg hl hs i hi; omega))]

theorem depsSpec_unfold {packages : List (String × Package)} {rank : String → Nat}
    (hacyclic : Acyclic packages rank) (p : String) (pkg : Package)
    (hl : packages.lookup p = some pkg) (hs : pkg.Standard = false) :
    depsSpec packages (rank p + 1) p
      = orderedKeys (pkg.Imports.flatMap (fun i => depsSpec packages (rank i + 1) i)
          ++ pkg.GoFiles.map (fun f => pkg.Dir ++ "/" ++ f) ++ [pkg.Dir ++ "/"]) := by
  rw [depsSpec]
  simp only [hl, hs, Bool.false_eq_true, if_false]
  rw [flatMap_congr_mem (fun i hi => depsSpec_fuel hacyclic (rank p) (rank i + 1) i
    (hacyclic p pkg hl hs i hi) (Nat.lt_succ_self _))]

theorem depsSpec_empty (packages : List (String × Package)) (fuel : Nat) (p : String)
    (h : packages.lookup p = none ∨ ∃ pkg, packages.lookup p = some pkg ∧ pkg.Standard = true) :
    depsSpec packages fuel p = [] := by
  cases fuel with
  | zero => rfl
  | succ fuel =>
    unfold depsSpec
    rcases h with h | ⟨pkg, h, hs⟩
    · rw [h]
    · rw [h]
      simp only [hs, if_true]

theorem cacheOk_cons {fresh : String → List String} {cache : List (String × List String)}
    (h : CacheOk fresh cache) (p : String) : CacheOk fresh ((p, fresh p) :: cache) := by
  intro k v hk
  rw [List.lookup_cons] at hk
  by_cases hkp : k = p
  · subst hkp
    simp only [beq_self_eq_true] at hk
    exact (Option.some.inj hk).symm
  · have hb : (k == p) = false := by simp [hkp]
    simp only [hb] at hk
    exact h k v hk

theorem depsForPkg_aux {packages : List (String × Package)} {rank : String → Nat}
    (hacyclic : Acyclic packages rank) :
    ∀ fuel p cache, rank p < fuel →
      CacheOk (fun q => depsSpec packages (rank q + 1) q) cache →
      ∃ cache', depsForPkg fuel p cache packages
          = some (depsSpec packages (rank p + 1) p, cache')
        ∧ CacheOk (fun q => depsSpec packages (rank q + 1) q) cache'
        ∧ (∀ pkg, packages.lookup p = some pkg → pkg.Standard = false →
            cache'.lookup p = some (depsSpec packages (rank p + 1) p)) := by
  intro fuel
  induction fuel with
  | zero => intro p cache h; exact absurd h (Nat.not_lt_zero _)
  | succ fuel ih =>
    intro p cache hfuel hc
    unfold depsForPkg
    cases hcl : cache.lookup p with
    | some deps =>
      have hd := hc p deps hcl
      simp only at hd
      subst hd
      exact ⟨cache, rfl, hc, fun _ _ _ => hcl⟩
    | none =>
      cases hl : packages.lookup p with
      | none =>
        refine ⟨cache, ?_, hc, fun pkg h => Option.noConfusion h⟩
        simp only [depsSpec_empty packages _ p (Or.inl hl)]
      | some pkg =>
        cases hs : pkg.Standard with
        | true =>
          refine ⟨cache, ?_, hc, fun pkg2 h h2 => ?_⟩
          · simp only [hs, if_true, depsSpec_empty packages _ p (Or.inr ⟨pkg, hl, hs⟩)]
          · rw [Option.some.inj h] at hs
            rw [hs] at h2
            exact Bool.noConfusion h2
        | false =>
          simp only [hs, Bool.false_eq_true, if_false]
          have hfold : ∀ (is : List String), (∀ i ∈ is, rank i < fuel) →
              ∀ (acc : List String) (c : List (String × List String)),
              CacheOk (fun q => depsSpec packages (rank q + 1) q) c →
              ∃ c', is.foldlM
                (fun (acc : List String × List (String × List String)) i =>
                  (depsForPkg fuel i acc.2 packages).map (fun r => (acc.1 ++ r.1, r.2)))
                (acc, c)
                = some (acc ++ is.flatMap (fun q => depsSpec packages (rank q + 1) q), c')
                ∧ CacheOk (fun q => depsSpec packages (rank q + 1) q) c' := by
            intro is
            induction is with
            | nil =>
              intro _ acc c hcc
              exact ⟨c, by simp, hcc⟩
            | cons i rest ihl =>
              intro hr acc c hcc
              obtain ⟨c1, h1, hc1, _⟩ := ih i c (hr i (List.mem_cons_self _ _)) hcc
              obtain ⟨c2, h2, hc2⟩ := ihl (fun j hj => hr j (List.mem_cons_of_mem _ hj))
                (acc ++ depsSpec packages (rank i + 1) i) c1 hc1
              refine ⟨c2, ?_, hc2⟩
              rw [List.foldlM_cons]
              simp only [h1, Option.map_some', Option.bind_eq_bind, Option.some_bind]
              rw [h2, List.flatMap_cons, List.append_assoc]
          obtain ⟨c', hf, hc'⟩ := hfold pkg.Imports
            (fun i hi => by have := hacyclic p pkg hl hs i hi; omega) [] cache hc
          rw [hf]
          simp only [List.nil_append]
          rw [← depsSpec_unfold hacyclic p pkg hl hs]
          refine ⟨_, rfl, cacheOk_cons hc' p, fun _ _ _ => ?_⟩
          rw [List.lookup_cons]
          simp only [beq_self_eq_true]

/-- C24: for a package map whose imports are acyclic, there is one dependency list `fresh p`
for every package path `p`, the list that `depsForPkg` computes with an empty cache. For a
package of the map that is not standard it is strictly ascending and its elements are
exactly the directory of the package (`Dir + "/"`), the files of the package as
`Dir/file`, and the elements of the lists of its imports. For a standard package and for a
package that is not in the map it is empty. And from every cache whose entries are such
lists, which the empty cache is, `depsForPkg` with enough fuel returns the list `fresh p`,
leaves a cache whose entries are such lists, and for a package of the map that is not
standard the cache then holds the list for `p`, so that the next call is served from the
cache with the same list. -/
theorem depsForPkg_spec (packages : List (String × Package)) (rank : String → Nat)
    (hacyclic : ∀ name pkg, packages.lookup name = some pkg → pkg.Standard = false →
      ∀ i ∈ pkg.Imports, rank i < rank name) :
    ∃ fresh : String → List String,
      (∀ p fuel, rank p < fuel →
        ∃ cache', depsForPkg fuel p [] packages = some (fresh p, cache'))
      ∧ (∀ p pkg, packages.lookup p = some pkg → pkg.Standard = false →
          (fresh p).Sorted (· < ·)
          ∧ ∀ x, x ∈ fresh p ↔
              (x = pkg.Dir ++ "/" ∨ (∃ f ∈ pkg.GoFiles, x = pkg.Dir ++ "/" ++ f)
                ∨ ∃ i ∈ pkg.Imports, x ∈ fresh i))
      ∧ (∀ p, (packages.lookup p = none
            ∨ ∃ pkg, packages.lookup p = some pkg ∧ pkg.Standard = true) → fresh p = [])
      ∧ (∀ p fuel cache, rank p < fuel → CacheOk fresh cache →
          ∃ cache', depsForPkg fuel p cache packages = some (fresh p, cache')
            ∧ CacheOk fresh cache'
            ∧ (∀ pkg, packages.lookup p = some pkg → pkg.Standard = false →
                cache'.lookup p = some (fresh p)
                ∧ ∀ fuel', 0 < fuel' →
                    depsForPkg fuel' p cache' packages = some (fresh p, cache'))) := by
  refine ⟨fun q => depsSpec packages (rank q + 1) q, ?_, ?_, ?_, ?_⟩
  · intro p fuel hfuel
    obtain ⟨c, h, _⟩ := depsForPkg_aux hacyclic fuel p [] hfuel
      (fun k v hk => by simp [List.lookup] at hk)
    exact ⟨c, h⟩
  · intro p pkg hl hs
    simp only
    rw [depsSpec_unfold hacyclic p pkg hl hs]
    refine ⟨sorted_orderedKeys _, fun x => ?_⟩
    rw [mem_orderedKeys]
    simp only [List.mem_append, List.mem_flatMap, List.mem_map, List.mem_singleton]
    constructor
    · rintro ((⟨i, hi, hx⟩ | ⟨f, hf, hx⟩) | hx)
      · exact Or.inr (Or.inr ⟨i, hi, hx⟩)
      · exact Or.inr (Or.inl ⟨f, hf, hx.symm⟩)
      · exact Or.inl hx
    · rintro (hx | ⟨f, hf, hx⟩ | ⟨i, hi, hx⟩)
      · exact Or.inr hx
      · exact Or.inl (Or.inr ⟨f, hf, hx.symm⟩)
      · exact Or.inl (Or.inl ⟨i, hi, hx⟩)
  · intro p h
    exact depsSpec_empty packages _ p h
  · intro p fuel cache hfuel hc
    obtain ⟨c, h, hc', hlook⟩ := depsForPkg_aux hacyclic fuel p cache hfuel hc
    refine ⟨c, h, hc', fun pkg hl hs => ⟨hlook pkg hl hs, fun fuel' hf => ?_⟩⟩
    cases fuel' with
    | zero => exact absurd hf (Nat.lt_irrefl 0)
    | succ n =>
      unfold depsForPkg
      rw [hlook pkg hl hs]

end Golist2make

namespace Golist2make

theorem exPackages_acyclic : Acyclic exPackages exRank := by
  intro name pkg hl hs i hi
  by_cases ha : name = "a"
  · subst ha
    have hp : pkg = ⟨"src/a", false, ["b", "fmt"], ["a.go", "main.go"]⟩ :=
      (Option.some.inj hl).symm
    subst hp
    simp only [List.mem_cons, List.mem_singleton, List.not_mem_nil, or_false] at hi
    rcases hi with rfl | rfl <;> decide
  · by_cases hb : name = "b"
    · subst hb
      have hp : pkg = ⟨"src/b", false, ["fmt"], ["b.go"]⟩ := (Option.some.inj hl).symm
      subst hp
      simp only [List.mem_cons, List.mem_singleton, List.not_mem_nil, or_false] at hi
      subst hi
      decide
    · by_cases hf : name = "fmt"
      · subst hf
        have hp : pkg = ⟨"go/fmt", true, ["b"], ["print.go"]⟩ := (Option.some.inj hl).symm
        subst hp
        exact Bool.noConfusion hs
      · have h1 : (name == "a") = false := by simp [ha]
        have h2 : (name == "b") = false := by simp [hb]
        have h3 : (name == "fmt") = false := by simp [hf]
        simp only [exPackages, List.lookup, h1, h2, h3] at hl
        exact Option.noConfusion hl

/-- C24 (witness): the package map in which `a` imports `b` and the standard package `fmt`,
and `b` imports `fmt`, with the rank 2 for `a`, 1 for `b` and 0 for the others. -/
theorem depsForPkg_spec_witness :
    (∀ name pkg, exPackages.lookup name = some pkg → pkg.Standard = false →
      ∀ i ∈ pkg.Imports, exRank i < exRank name)
    ∧ ∃ fresh : String → List String,
      (∀ p fuel, exRank p < fuel →
        ∃ cache', depsForPkg fuel p [] exPackages = some (fresh p, cache'))
      ∧ (∀ p pkg, exPackages.lookup p = some pkg → pkg.Standard = false →
          (fresh p).Sorted (· < ·)
          ∧ ∀ x, x ∈ fresh p ↔
              (x = pkg.Dir ++ "/" ∨ (∃ f ∈ pkg.GoFiles, x = pkg.Dir ++ "/" ++ f)
                ∨ ∃ i ∈ pkg.Imports, x ∈ fresh i))
      ∧ (∀ p, (exPackages.lookup p = none
            ∨ ∃ pkg, exPackages.lookup p = some pkg ∧ pkg.Standard = true) → fresh p = [])
      ∧ (∀ p fuel cache, exRank p < fuel → CacheOk fresh cache →
          ∃ cache', depsForPkg fuel p cache exPackages = some (fresh p, cache')
            ∧ CacheOk fresh cache'
            ∧ (∀ pkg, exPackages.lookup p = some pkg → pkg.Standard = false →
                cache'.lookup p = some (fresh p)
                ∧ ∀ fuel', 0 < fuel' →
                    depsForPkg fuel' p cache' exPackages = some (fresh p, cache'))) :=
  ⟨exPackages_acyclic, depsForPkg_spec exPackages exRank exPackages_acyclic⟩

end Golist2make
